import Mathlib

/-!
# EasyCLA signature service (`cla-backend-go/signatures/service.go`)

A shallow embedding of the signature service: the approval-list update workflow
(`UpdateApprovalList`), the pull-request reconciliation helper (`updateChangeRequest`),
the signature-validity check (`hasUserSigned`, `userIsApproved`) and the domain-pattern
matcher (`processPattern`).

Conventions of the embedding.

* A Go pointer is an `Option`; a Go `(value, error)` pair is a Lean pair of `Option`s.
* A run-time panic (nil dereference, index out of range) is the `Outcome.panic` result.
* The collaborators of the service (signature repository, users service, GitHub client,
  repository service, ...) are not part of this file of the program.  They are the fields of
  `Env`; every call to one of them is appended to a `Trace`, and the answer of a collaborator
  may depend on the whole trace of the calls made before it, so collaborators are stateful.
* Go strings are modelled by `String`; text processing works on the list of characters.
-/

namespace EasyCLA

/-! ## Errors -/

/-- Classes of error values that reach the caller.  `badRequest` and `forbidden` are what
`NewBadRequestError` and `NewForbiddenError` build; every other error (`errors.New`, the
`regexp` and `strconv` errors, errors of collaborators) is built by somebody else and may be of
any class. -/
inductive ErrClass where
  | badRequest
  | forbidden
  | notFound
  | other
  deriving DecidableEq, Repr

/-- An error value: its class and its message. -/
structure Err where
  cls : ErrClass
  msg : String
  deriving DecidableEq, Repr

/-- Go `NewBadRequestError(msg)`. -/
def NewBadRequestError (msg : String) : Err := ⟨ErrClass.badRequest, msg⟩

/-- Go `NewForbiddenError(msg)`. -/
def NewForbiddenError (msg : String) : Err := ⟨ErrClass.forbidden, msg⟩

/-- Go `errors.New(msg)`. -/
def errorsNew (msg : String) : Err := ⟨ErrClass.other, msg⟩

/-- The result of running a piece of Go code: it returns, or it panics. -/
inductive Outcome (α : Type) where
  | ret (a : α)
  | panic (msg : String)
  deriving DecidableEq, Repr

/-- The panic of a nil pointer dereference. -/
def nilDeref : String := "invalid memory address or nil pointer dereference"

/-- The panic of an index expression on a slice that is too short. -/
def indexOutOfRange : String := "index out of range"

/-! ## Strings (`strings` package) -/

/-- Go `strings.HasPrefix` on lists of characters. -/
def hasPrefix : List Char → List Char → Bool
  | _, [] => true
  | [], _ :: _ => false
  | c :: cs, p :: ps => c == p && hasPrefix cs ps

/-- Go `strings.HasPrefix`. -/
def stringsHasPrefix (s pre : String) : Bool := hasPrefix s.data pre.data

/-- The scan of `strings.Replace(s, old, new, -1)` for a non-empty `old`: `skip` counts the
characters of a replaced occurrence that are still to be dropped. -/
def replaceScan (old new : List Char) : Nat → List Char → List Char
  | _, [] => []
  | skip + 1, _ :: cs => replaceScan old new skip cs
  | 0, c :: cs =>
    if hasPrefix (c :: cs) old then new ++ replaceScan old new (old.length - 1) cs
    else c :: replaceScan old new 0 cs

/-- Go `strings.Replace(s, old, new, -1)`: every non-overlapping occurrence of `old`, from the
left, is replaced by `new`.  For an empty `old` Go inserts `new` before every character and at
the end. -/
def replaceAll (s old new : List Char) : List Char :=
  match old with
  | [] => new ++ (s.map (fun c => c :: new)).flatten
  | _ :: _ => replaceScan old new 0 s

/-- Go `strings.Replace(s, old, new, -1)`. -/
def stringsReplaceAll (s old new : String) : String := ⟨replaceAll s.data old.data new.data⟩

/-- Go `unicode.IsSpace`: the characters `strings.TrimSpace` removes. -/
def isSpace (c : Char) : Bool :=
  let n := c.toNat
  n == 0x09 || n == 0x0A || n == 0x0B || n == 0x0C || n == 0x0D || n == 0x20 ||
  n == 0x85 || n == 0xA0 || n == 0x1680 || (0x2000 ≤ n && n ≤ 0x200A) ||
  n == 0x2028 || n == 0x2029 || n == 0x202F || n == 0x205F || n == 0x3000

/-- Go `strings.TrimSpace` on lists of characters. -/
def trimSpace (s : List Char) : List Char :=
  ((s.dropWhile isSpace).reverse.dropWhile isSpace).reverse

/-- Go `strings.TrimSpace`. -/
def stringsTrimSpace (s : String) : String := ⟨trimSpace s.data⟩

/-- Lower-casing of one ASCII character. -/
def asciiToLower (c : Char) : Char :=
  if 'A'.toNat ≤ c.toNat ∧ c.toNat ≤ 'Z'.toNat then Char.ofNat (c.toNat + 32) else c

/-- Go `strings.ToLower`: ASCII letters are lowered here; the lowering of a character outside
ASCII is the table `unicode.ToLower` of the Go library, taken as the parameter `uni`. -/
def toLower (uni : Char → Char) (s : List Char) : List Char :=
  s.map (fun c => if c.toNat < 128 then asciiToLower c else uni c)

/-- Go `strconv.FormatInt(n, 10)`. -/
def formatInt (n : Int) : String :=
  match n with
  | Int.ofNat k => Nat.repr k
  | Int.negSucc k => "-" ++ Nat.repr (k + 1)

/-- Decimal value of a list of characters, all of which must be ASCII digits. -/
def parseDigits : List Char → Nat → Option Nat
  | [], acc => some acc
  | c :: cs, acc =>
    if '0'.toNat ≤ c.toNat ∧ c.toNat ≤ '9'.toNat then
      parseDigits cs (acc * 10 + (c.toNat - '0'.toNat))
    else none

/-- Go `strconv.Atoi` (that is `ParseInt(s, 10, 0)` with a 64-bit `int`): an optional sign, at
least one decimal digit, and a value in the range of `int64`. -/
def Atoi (s : String) : Except Err Int :=
  let syntaxErr : Err := errorsNew ("strconv.Atoi: parsing \"" ++ s ++ "\": invalid syntax")
  let rangeErr : Err := errorsNew ("strconv.Atoi: parsing \"" ++ s ++ "\": value out of range")
  let body (neg : Bool) (ds : List Char) : Except Err Int :=
    match ds with
    | [] => Except.error syntaxErr
    | _ :: _ =>
      match parseDigits ds 0 with
      | none => Except.error syntaxErr
      | some v =>
        if neg then
          (if v ≤ 2 ^ 63 then Except.ok (-(v : Int)) else Except.error rangeErr)
        else
          (if v < 2 ^ 63 then Except.ok (v : Int) else Except.error rangeErr)
  match s.data with
  | [] => Except.error syntaxErr
  | c :: cs =>
    if c = '-' then body true cs
    else if c = '+' then body false cs
    else body false (c :: cs)

/-! ## Regular expressions (`regexp` package)

`regexp.Compile` is called with the Perl flags: `^` and `$` are the beginning and the end of
the text, `.` is any character but the newline, and a repetition operator may not follow
another one (`a**` is an error), except that a `?` after an operator makes it non-greedy.
The syntax interpreted here is: literal characters, `.`, `^`, `$` and the operators `*`, `+`,
`?`.  An expression that contains one of the characters that open the rest of the syntax
(backslash, parentheses, `[`, the opening brace, `|`) is not interpreted: whether it compiles
and what it matches is left to the parameters `extCompile` and `extMatch` of `GoLib`. -/

/-- An atom of an expression. -/
inductive Atom where
  | lit (c : Char)
  | anyNotNL
  | beginText
  | endText
  deriving DecidableEq, Repr

/-- How often an atom is repeated. -/
inductive Rep where
  | one
  | star
  | plus
  | quest
  deriving DecidableEq, Repr

/-- An atom with its repetition. -/
structure Piece where
  atom : Atom
  rep : Rep
  deriving DecidableEq, Repr

/-- A compiled expression: a sequence of pieces of the interpreted syntax, or an expression
left to the regexp library. -/
inductive Regexp where
  | pieces (ps : List Piece)
  | ext (expr : String)
  deriving DecidableEq, Repr

/-- What the parser remembers about the preceding character: `lastRepeat` of Go's parser. -/
inductive LastRepeat where
  | none
  | op
  | lazy
  deriving DecidableEq, Repr

/-- State of the parser: the pieces read so far, the latest first, and `lastRepeat`. -/
structure ParseState where
  stack : List Piece
  last : LastRepeat
  deriving DecidableEq, Repr

/-- Characters that open the syntax left to the regexp library. -/
def isExtMeta (c : Char) : Bool :=
  c == '\\' || c == '(' || c == ')' || c == '[' || c == '{' || c == '|'

/-- The repetition a character stands for, if it is an operator. -/
def repOf (c : Char) : Option Rep :=
  if c == '*' then some Rep.star
  else if c == '+' then some Rep.plus
  else if c == '?' then some Rep.quest
  else none

/-- The atom a character that is not an operator stands for. -/
def atomOf (c : Char) : Atom :=
  if c == '.' then Atom.anyNotNL
  else if c == '^' then Atom.beginText
  else if c == '$' then Atom.endText
  else Atom.lit c

/-- One step of the parser. -/
def parseStep (st : ParseState) (c : Char) : Except Err ParseState :=
  match repOf c with
  | some r =>
    match st.last with
    | LastRepeat.op =>
      if c == '?' then Except.ok { st with last := LastRepeat.lazy }
      else Except.error (errorsNew "error parsing regexp: invalid nested repetition operator")
    | LastRepeat.lazy =>
      Except.error (errorsNew "error parsing regexp: invalid nested repetition operator")
    | LastRepeat.none =>
      match st.stack with
      | [] => Except.error (errorsNew "error parsing regexp: missing argument to repetition operator")
      | p :: ps => Except.ok { stack := { p with rep := r } :: ps, last := LastRepeat.op }
  | none => Except.ok { stack := { atom := atomOf c, rep := Rep.one } :: st.stack, last := LastRepeat.none }

/-- The parser: the steps from left to right. -/
def parseFrom : ParseState → List Char → Except Err ParseState
  | st, [] => Except.ok st
  | st, c :: cs =>
    match parseStep st c with
    | Except.error e => Except.error e
    | Except.ok st1 => parseFrom st1 cs

/-- Parsing of an expression of the interpreted syntax. -/
def parsePieces (expr : List Char) : Except Err (List Piece) :=
  match parseFrom { stack := [], last := LastRepeat.none } expr with
  | Except.error e => Except.error e
  | Except.ok st => Except.ok st.stack.reverse

/-- Whether an atom that consumes a character accepts `c`. -/
def Atom.accepts : Atom → Char → Bool
  | Atom.lit a, c => a == c
  | Atom.anyNotNL, c => c != '\n'
  | Atom.beginText, _ => false
  | Atom.endText, _ => false

/-- Whether an atom is an assertion, which consumes nothing. -/
def Atom.isAssertion : Atom → Bool
  | Atom.beginText => true
  | Atom.endText => true
  | _ => false

/-- Whether an assertion holds: `atStart` says that no character of the text precedes the
position, `s` is the rest of the text. -/
def Atom.holds : Atom → Bool → List Char → Bool
  | Atom.beginText, atStart, _ => atStart
  | Atom.endText, _, s => s.isEmpty
  | _, _, _ => true

/-- Zero or more characters accepted by `f`, then the continuation `k`. -/
def starLoop (f : Char → Bool) (k : Bool → List Char → Bool) : Bool → List Char → Bool
  | atStart, [] => k atStart []
  | atStart, c :: cs => k atStart (c :: cs) || (f c && starLoop f k false cs)

/-- Whether the pieces match a prefix of the text `s`. -/
def matchHere : List Piece → Bool → List Char → Bool
  | [], _, _ => true
  | p :: ps, atStart, s =>
    if p.atom.isAssertion then
      match p.rep with
      | Rep.one => p.atom.holds atStart s && matchHere ps atStart s
      | Rep.plus => p.atom.holds atStart s && matchHere ps atStart s
      | Rep.star => matchHere ps atStart s
      | Rep.quest => matchHere ps atStart s
    else
      match p.rep with
      | Rep.one =>
        match s with
        | [] => false
        | c :: cs => p.atom.accepts c && matchHere ps false cs
      | Rep.quest =>
        matchHere ps atStart s ||
        (match s with
        | [] => false
        | c :: cs => p.atom.accepts c && matchHere ps false cs)
      | Rep.star => starLoop p.atom.accepts (matchHere ps) atStart s
      | Rep.plus =>
        match s with
        | [] => false
        | c :: cs => p.atom.accepts c && starLoop p.atom.accepts (matchHere ps) false cs

/-- Whether the pieces match somewhere in the text: at the current position or later. -/
def searchFrom (ps : List Piece) : Bool → List Char → Bool
  | atStart, [] => matchHere ps atStart []
  | atStart, c :: cs => matchHere ps atStart (c :: cs) || searchFrom ps false cs

/-- The parts of the Go library that are parameters of the model: the lowering of characters
outside ASCII, and the regexp library on the expressions that are not interpreted
(`extCompile` gives the error of `regexp.Compile`, if any; `extMatch expr s` is
`MatchString` of the compiled `expr` on `s`). -/
structure GoLib where
  unicodeToLower : Char → Char
  extCompile : String → Option Err
  extMatch : String → String → Bool

/-- Go `strings.ToLower`. -/
def stringsToLower (lib : GoLib) (s : String) : String := ⟨toLower lib.unicodeToLower s.data⟩

/-- Go `regexp.Compile`. -/
def regexpCompile (lib : GoLib) (expr : String) : Except Err Regexp :=
  if expr.data.any isExtMeta then
    match lib.extCompile expr with
    | some e => Except.error e
    | none => Except.ok (Regexp.ext expr)
  else
    match parsePieces expr.data with
    | Except.error e => Except.error e
    | Except.ok ps => Except.ok (Regexp.pieces ps)

/-- Go `(*Regexp).MatchString`: whether the text contains a match of the expression. -/
def MatchString (lib : GoLib) (re : Regexp) (s : String) : Bool :=
  match re with
  | Regexp.pieces ps => searchFrom ps true s.data
  | Regexp.ext expr => lib.extMatch expr s

/-! ## `processPattern` -/

/-- The rewriting of a domain pattern at the head of the loop body of `processPattern`
(service.go, lines 965-971). -/
def rewritePattern (pattern : String) : String :=
  if stringsHasPrefix pattern "*." then stringsReplaceAll pattern "*." ".*"
  else if stringsHasPrefix pattern "*" then stringsReplaceAll pattern "*" ".*"
  else if stringsHasPrefix pattern "." then stringsReplaceAll pattern "." ".*"
  else pattern

/-- The expression handed to `regexp.Compile`: `fmt.Sprintf("^.*@%s$", pattern)` (line 973). -/
def preProcessedPattern (pattern : String) : String :=
  "^.*@" ++ rewritePattern pattern ++ "$"

/-- The inner loop of `processPattern` (lines 979-984): whether some email matches. -/
def anyEmailMatches (lib : GoLib) (compiled : Regexp) : List String → Bool
  | [] => false
  | email :: rest => if MatchString lib compiled email then true else anyEmailMatches lib compiled rest

/-- The outer loop of `processPattern` (lines 964-985), with the variable `matched`. -/
def processPatternLoop (lib : GoLib) (emails : List String) :
    List String → Bool → Option Bool × Option Err
  | [], matched => (some matched, none)
  | pattern :: rest, matched =>
    match regexpCompile lib (preProcessedPattern pattern) with
    | Except.error e => (none, some e)
    | Except.ok compiled =>
      processPatternLoop lib emails rest (if anyEmailMatches lib compiled emails then true else matched)

/-- Go `service.processPattern` (lines 961-988). -/
def processPattern (lib : GoLib) (emails : List String) (patterns : List String) :
    Option Bool × Option Err :=
  processPatternLoop lib emails patterns false

/-! ## Data model (`gen/v1/models`, `auth`, `github`) -/

/-- Go `models.User`: a contributor or a CLA manager. -/
structure User where
  UserID : String
  Username : String
  LfUsername : String
  LfEmail : String
  Emails : List String
  GithubUsername : String
  CompanyID : String
  deriving DecidableEq, Repr

/-- Go `auth.User`: the authenticated user of a request. -/
structure AuthUser where
  UserName : String
  Email : String
  deriving DecidableEq, Repr

/-- Go `models.ClaGroup`. -/
structure ClaGroup where
  ProjectID : String
  ProjectName : String
  ProjectExternalID : String
  deriving DecidableEq, Repr

/-- Go `models.Company`. -/
structure Company where
  CompanyID : String
  CompanyName : String
  CompanyExternalID : String
  deriving DecidableEq, Repr

/-- Go `models.Signature`, with its ACL (the CLA managers) and its approval lists. -/
structure Signature where
  SignatureID : String
  SignatureACL : List User
  AutoCreateECLA : Bool
  EmailApprovalList : List String
  DomainApprovalList : List String
  GithubUsernameApprovalList : List String
  GithubOrgApprovalList : List String
  deriving DecidableEq, Repr

/-- Go `models.Signatures`: a page of signatures, a slice of pointers. -/
structure Signatures where
  Signatures : List (Option Signature)
  deriving DecidableEq, Repr

/-- Go `models.ApprovalList`: the requested changes of the approval lists. -/
structure ApprovalList where
  AddEmailApprovalList : List String
  RemoveEmailApprovalList : List String
  AddDomainApprovalList : List String
  RemoveDomainApprovalList : List String
  AddGithubUsernameApprovalList : List String
  RemoveGithubUsernameApprovalList : List String
  AddGithubOrgApprovalList : List String
  RemoveGithubOrgApprovalList : List String
  AddGitlabUsernameApprovalList : List String
  RemoveGitlabUsernameApprovalList : List String
  AddGitlabOrgApprovalList : List String
  RemoveGitlabOrgApprovalList : List String
  deriving DecidableEq, Repr

/-- Go `signatures.GetProjectCompanyEmployeeSignaturesParams`. -/
structure EmployeeSignaturesParams where
  CompanyID : String
  ProjectID : String
  NextKey : Option String
  PageSize : Option Int
  deriving DecidableEq, Repr

/-- The record `GetActiveSignatureMetadata` answers: the pull request of a pending signature. -/
structure SignatureMetadata where
  RepositoryID : String
  PullRequestID : String
  ProjectID : String
  deriving DecidableEq, Repr

/-- Go `models.GithubRepository`: a repository known to EasyCLA. -/
structure GithubRepository where
  Enabled : Bool
  RepositoryName : String
  RepositoryURL : String
  deriving DecidableEq, Repr

/-- Go `models.GithubOrganization`. -/
structure GithubOrganization where
  OrganizationInstallationID : Int
  deriving DecidableEq, Repr

/-- Go `github.User` of the GitHub client: every field is a pointer. -/
structure GhUser where
  ID : Option Int
  Name : Option String
  Email : Option String
  deriving DecidableEq, Repr

/-- Go `github.Repository` of the GitHub client. -/
structure GhRepository where
  Owner : Option GhUser
  Name : Option String
  deriving DecidableEq, Repr

/-- Go `github.UserCommitSummary`: a commit author of a pull request. -/
structure UserCommitSummary where
  SHA : String
  CommitAuthor : Option GhUser
  deriving DecidableEq, Repr

/-- Go `github.Membership` of the GitHub client. -/
structure Membership where
  State : String
  deriving DecidableEq, Repr

/-- Go `signatures.GetProjectCompanySignaturesParams`. -/
structure ProjectCompanySignaturesParams where
  CompanyID : String
  ProjectID : String
  NextKey : Option String
  SortOrder : Option String
  PageSize : Option Int
  deriving DecidableEq, Repr

/-- Go `signatures.GetCompanySignaturesParams`. -/
structure CompanySignaturesParams where
  CompanyID : String
  NextKey : Option String
  PageSize : Option Int
  deriving DecidableEq, Repr

/-- Go `signatures.GetUserSignaturesParams`. -/
structure UserSignaturesParams where
  UserID : String
  NextKey : Option String
  PageSize : Option Int
  deriving DecidableEq, Repr

/-- Go `signatures.GetProjectSignaturesParams`, with the fields `GetClaGroupCCLASignatures`
sets (lines 763-769). -/
structure ProjectSignaturesParams where
  ClaType : Option String
  ProjectID : String
  PageSize : Option Int
  Approved : Option Bool
  Signed : Option Bool
  deriving DecidableEq, Repr

/-- Go `models.GithubOrg`: an organization of an approval list. -/
structure GithubOrg where
  ID : Option String
  deriving DecidableEq, Repr

/-- Go `github.Organization` of the GitHub client.  The listing is a slice of pointers; a nil
element behaves as an element whose `Login` is nil, since the code reads `*org.Login`. -/
structure GhOrganization where
  Login : Option String
  deriving DecidableEq, Repr

/-- Go `models.GhOrgWhitelist`: the payload that names the organization to add or delete. -/
structure GhOrgWhitelist where
  OrganizationID : Option String
  deriving DecidableEq, Repr

/-! ## Collaborators -/

/-- A call to a collaborator, with its arguments.  The context argument is left out, and so is
the `eventArgs` argument of the approval-list update of the repository, which is built from
the other arguments (lines 451-461). -/
inductive Call where
  | GetProjectCompanySignature (companyID projectID : String) (approved signed : Option Bool)
      (nextKey : Option String) (pageSize : Option Int)
  | GetUserByUserName (userName : String) (fullMatch : Bool)
  | RepoUpdateApprovalList (claManager : User) (claGroupModel : ClaGroup) (companyID : String)
      (params : ApprovalList)
  | createEventLogEntries (companyModel : Company) (claGroupModel : ClaGroup) (userModel : User)
      (params : ApprovalList)
  | sendApprovalListUpdateEmailToCLAManagers (companyModel : Company) (claGroupModel : ClaGroup)
      (recipientName recipientAddress : String) (params : ApprovalList)
  | sendRequestAccessEmailToContributors (authUser : AuthUser) (companyModel : Company)
      (claGroupModel : ClaGroup) (params : ApprovalList)
  | GetUserByEmail (email : String)
  | GetUserByGitHubUsername (gitHubUserName : String)
  | GetUserDetails (gitHubUserName : String)
  | createUserModel (githubUsername githubUserID gitlabUsername gitlabUserID email companyID
      note : String)
  | CreateProjectCompanyEmployeeSignature (companyModel : Company) (claGroupModel : ClaGroup)
      (employeeUserModel : User)
  | GetActiveSignatureMetadata (userID : String)
  | GetRepository (repositoryID : String)
  | GetGitHubOrganizationByName (name : String)
  | GetGitHubRepository (installationID repositoryID : Int)
  | GetPullRequestCommitAuthors (installationID pullRequestID : Int) (owner repo : String)
  | GetIndividualSignature (claGroupID userID : String) (approved signed : Option Bool)
  | GetCorporateSignature (claGroupID companyID : String) (approved signed : Option Bool)
  | RepoGetProjectCompanyEmployeeSignatures (params : EmployeeSignaturesParams)
  | GetMembership (user org : String)
  | RepoGetProjectCompanySignatures (companyID projectID : String) (signed approved : Option Bool)
      (nextKey sortOrder : Option String) (pageSize : Option Int)
  | RepoGetCompanySignatures (params : CompanySignaturesParams) (pageSize : Int)
  | RepoGetUserSignatures (params : UserSignaturesParams) (pageSize : Int)
  | RepoGetProjectSignatures (params : ProjectSignaturesParams)
  | ProjectSignatures (projectID : String)
  | InvalidateProjectRecord (signatureID note : String)
  | OrganizationsList (accessToken : String) (perPage : Int)
  | RepoGetGithubOrganizationsFromApprovalList (signatureID : String)
  | RepoAddGithubOrganizationToApprovalList (signatureID organizationID : String)
  | RepoDeleteGithubOrganizationFromApprovalList (signatureID organizationID : String)
  deriving DecidableEq, Repr

/-- The calls made so far, the oldest first. -/
abbrev Trace := List Call

/-- The collaborators of the service.  A collaborator that performs I/O receives the trace of
the calls made before it, so that its answer may depend on everything that happened so far;
`CurrentUserInACL`, `getBestEmail` and `IsValid` are functions of their arguments.  The
collaborators are assumed to return.  `githubOrgValidation` is the field of that name of the
service, and `schedule` stands for the Go scheduler: it gives the order in which the tasks
dispatched by `InvalidateProjectRecords`, named by their signature IDs, reach the repository. -/
structure Env where
  lib : GoLib
  CurrentUserInACL : AuthUser → List User → Bool
  getBestEmail : User → String
  IsValid : UserCommitSummary → Bool
  GetProjectCompanySignature : Trace → String → String → Option Bool → Option Bool →
    Option String → Option Int → Option Signature × Option Err
  GetUserByUserName : Trace → String → Bool → Option User × Option Err
  RepoUpdateApprovalList : Trace → User → ClaGroup → String → ApprovalList →
    Option Signature × Option Err
  GetUserByEmail : Trace → String → Option User × Option Err
  GetUserByGitHubUsername : Trace → String → Option User × Option Err
  GetUserDetails : Trace → String → Option GhUser × Option Err
  createUserModel : Trace → String → String → String → String → String → String → String →
    Option User × Option Err
  CreateProjectCompanyEmployeeSignature : Trace → Company → ClaGroup → User → Option Err
  GetActiveSignatureMetadata : Trace → String → Option SignatureMetadata × Option Err
  GetRepository : Trace → String → Option GithubRepository × Option Err
  GetGitHubOrganizationByName : Trace → String → Option GithubOrganization × Option Err
  GetGitHubRepository : Trace → Int → Int → Option GhRepository × Option Err
  GetPullRequestCommitAuthors : Trace → Int → Int → String → String →
    List UserCommitSummary × Option Err
  GetIndividualSignature : Trace → String → String → Option Bool → Option Bool →
    Option Signature × Option Err
  GetCorporateSignature : Trace → String → String → Option Bool → Option Bool →
    Option Signature × Option Err
  RepoGetProjectCompanyEmployeeSignatures : Trace → EmployeeSignaturesParams →
    Option Signatures × Option Err
  GetMembership : Trace → String → String → Option Membership × Option Err
  githubOrgValidation : Bool
  schedule : List String → List String
  RepoGetProjectCompanySignatures : Trace → String → String → Option Bool → Option Bool →
    Option String → Option String → Option Int → Option Signatures × Option Err
  RepoGetCompanySignatures : Trace → CompanySignaturesParams → Int → Option Signatures × Option Err
  RepoGetUserSignatures : Trace → UserSignaturesParams → Int → Option Signatures × Option Err
  RepoGetProjectSignatures : Trace → ProjectSignaturesParams → Option Signatures × Option Err
  ProjectSignatures : Trace → String → Option Signatures × Option Err
  InvalidateProjectRecord : Trace → String → String → Option Err
  OrganizationsList : Trace → String → Int → List GhOrganization × Option Err
  RepoGetGithubOrganizationsFromApprovalList : Trace → String → List GithubOrg × Option Err
  RepoAddGithubOrganizationToApprovalList : Trace → String → String → List GithubOrg × Option Err
  RepoDeleteGithubOrganizationFromApprovalList : Trace → String → String →
    List GithubOrg × Option Err

/-- The result of a service function: how it ended, and the trace of the calls at that point. -/
structure Res (α : Type) where
  out : Outcome α
  trace : Trace

/-! ## `userIsApproved` and `hasUserSigned` -/

/-- Go `service.contains` (lines 952-959). -/
def contains : List String → String → Bool
  | [], _ => false
  | item :: rest, val => if val == item then true else contains rest val

/-- The loop over the emails of `userIsApproved` (lines 907-911): whether some email, trimmed
and lowered, is an entry of the list. -/
def emailListLoop (lib : GoLib) (whitelist : List String) : List String → Bool
  | [] => false
  | email :: rest =>
    if contains whitelist (stringsToLower lib (stringsTrimSpace email)) then true
    else emailListLoop lib whitelist rest

/-- The loop over the GitHub organizations of `userIsApproved` (lines 935-946): an error of
the membership check leaves the loop. -/
def githubOrgLoop (env : Env) (githubUsername : String) : List String → Trace → Bool × Trace
  | [], h => (false, h)
  | org :: rest, h =>
    let r := env.GetMembership h githubUsername org
    let h1 := h ++ [Call.GetMembership githubUsername org]
    match r.2 with
    | some _ => (false, h1)
    | none =>
      match r.1 with
      | some _ => (true, h1)
      | none => githubOrgLoop env githubUsername rest h1

/-- Go `service.userIsApproved` (lines 897-950). -/
def userIsApproved (env : Env) (h : Trace) (user : User) (cclaSignature : Signature) :
    (Bool × Option Err) × Trace :=
  let emails := user.Emails ++ [user.LfEmail]
  let whitelist := cclaSignature.EmailApprovalList
  if whitelist.length > 0 && emailListLoop env.lib whitelist emails then ((true, none), h)
  else
    let domainWhitelist := cclaSignature.DomainApprovalList
    let dom : Option Bool × Option Err :=
      if domainWhitelist.length > 0 then processPattern env.lib emails domainWhitelist
      else (some false, none)
    match dom.2 with
    | some err => ((false, some err), h)
    | none =>
      if dom.1 = some true then ((true, none), h)
      else if user.GithubUsername ≠ "" then
        let r := githubOrgLoop env user.GithubUsername cclaSignature.GithubOrgApprovalList h
        ((r.1, none), r.2)
      else ((false, none), h)

/-- Go `service.GetProjectCompanyEmployeeSignatures` (lines 153-166). -/
def GetProjectCompanyEmployeeSignatures (env : Env) (h : Trace) (params : EmployeeSignaturesParams) :
    (Option Signatures × Option Err) × Trace :=
  let params1 : EmployeeSignaturesParams :=
    if params.PageSize = none then { params with PageSize := some 10 } else params
  let r := env.RepoGetProjectCompanyEmployeeSignatures h params1
  let h1 := h ++ [Call.RepoGetProjectCompanyEmployeeSignatures params1]
  match r.2 with
  | some err => ((none, some err), h1)
  | none => ((r.1, none), h1)

/-- Go `service.hasUserSigned` (lines 830-895).  The result is the pair `(*bool, error)`. -/
def hasUserSigned (env : Env) (h : Trace) (user : Option User) (projectID : String) :
    Res (Option Bool × Option Err) :=
  match user with
  | none => ⟨Outcome.panic nilDeref, h⟩
  | some user =>
    -- check for ICLA (line 843)
    let sig := env.GetIndividualSignature h projectID user.UserID (some true) (some true)
    let h1 := h ++ [Call.GetIndividualSignature projectID user.UserID (some true) (some true)]
    match sig.2 with
    | some sigErr => ⟨Outcome.ret (none, some sigErr), h1⟩
    | none =>
      let hasSigned : Bool := sig.1.isSome
      let companyID := user.CompanyID
      if companyID ≠ "" then
        -- get employee signature (line 860)
        let ecla := GetProjectCompanyEmployeeSignatures env h1
          { CompanyID := companyID, ProjectID := projectID, NextKey := none, PageSize := none }
        let h2 := ecla.2
        match ecla.1.2 with
        | some eclaErr => ⟨Outcome.ret (none, some eclaErr), h2⟩
        | none =>
          match ecla.1.1 with
          | none => ⟨Outcome.panic nilDeref, h2⟩
          | some page =>
            -- employeeSignature := ecla.Signatures[0] (line 869)
            match page.Signatures with
            | [] => ⟨Outcome.panic indexOutOfRange, h2⟩
            | none :: _ => ⟨Outcome.ret (some hasSigned, none), h2⟩
            | some _ :: _ =>
              let ccla := env.GetCorporateSignature h2 projectID companyID (some true) (some true)
              let h3 := h2 ++ [Call.GetCorporateSignature projectID companyID (some true) (some true)]
              match ccla.2 with
              | some cclaErr => ⟨Outcome.ret (none, some cclaErr), h3⟩
              | none =>
                match ccla.1 with
                | none => ⟨Outcome.ret (some hasSigned, none), h3⟩
                | some cclaSignature =>
                  let ap := userIsApproved env h3 user cclaSignature
                  let h4 := ap.2
                  match ap.1.2 with
                  | some approvedErr => ⟨Outcome.ret (none, some approvedErr), h4⟩
                  | none =>
                    if ap.1.1 then
                      -- the log statement of line 886 reads signature.SignatureID
                      match sig.1 with
                      | none => ⟨Outcome.panic nilDeref, h4⟩
                      | some _ => ⟨Outcome.ret (some true, none), h4⟩
                    else ⟨Outcome.ret (some hasSigned, none), h4⟩
      else ⟨Outcome.ret (some hasSigned, none), h1⟩

/-! ## `updateChangeRequest` -/

/-- The triage loop of `updateChangeRequest` (lines 804-820), with the slices `signed` and
`unsigned`; a `break` ends the loop with the slices as they are. -/
def triageLoop (env : Env) (projectID : String) :
    List UserCommitSummary → Trace → List UserCommitSummary → List UserCommitSummary →
    Res (List UserCommitSummary × List UserCommitSummary)
  | [], h, signed, unsigned => ⟨Outcome.ret (signed, unsigned), h⟩
  | userSummary :: rest, h, signed, unsigned =>
    let unsigned1 := if !env.IsValid userSummary then unsigned ++ [userSummary] else unsigned
    -- *userSummary.CommitAuthor.Name (line 808)
    match userSummary.CommitAuthor with
    | none => ⟨Outcome.panic nilDeref, h⟩
    | some author =>
      match author.Name with
      | none => ⟨Outcome.panic nilDeref, h⟩
      | some name =>
        let r := env.GetUserByGitHubUsername h name
        let h1 := h ++ [Call.GetUserByGitHubUsername name]
        match r.2 with
        | some _ => ⟨Outcome.ret (signed, unsigned1 ++ [userSummary]), h1⟩
        | none =>
          let hs := hasUserSigned env h1 r.1 projectID
          match hs.out with
          | Outcome.panic m => ⟨Outcome.panic m, hs.trace⟩
          | Outcome.ret (userSigned, signedErr) =>
            match signedErr with
            | some _ => ⟨Outcome.ret (signed, unsigned1), hs.trace⟩
            | none =>
              let signed1 := if userSigned = some true then signed ++ [userSummary] else signed
              triageLoop env projectID rest hs.trace signed1 unsigned1

/-- Go `service.updateChangeRequest` (lines 776-828): the error it returns. -/
def updateChangeRequest (env : Env) (h : Trace) (ghOrg : Option GithubOrganization)
    (repositoryID pullRequestID : Int) (projectID : String) : Res (Option Err) :=
  match ghOrg with
  | none => ⟨Outcome.panic nilDeref, h⟩
  | some ghOrg =>
    let repo := env.GetGitHubRepository h ghOrg.OrganizationInstallationID repositoryID
    let h1 := h ++ [Call.GetGitHubRepository ghOrg.OrganizationInstallationID repositoryID]
    match repo.2 with
    | some ghErr => ⟨Outcome.ret (some ghErr), h1⟩
    | none =>
      -- *githubRepository.Owner.Name, *githubRepository.Name (line 794)
      match repo.1 with
      | none => ⟨Outcome.panic nilDeref, h1⟩
      | some githubRepository =>
        match githubRepository.Owner with
        | none => ⟨Outcome.panic nilDeref, h1⟩
        | some owner =>
          match owner.Name, githubRepository.Name with
          | some ownerName, some repoName =>
            let authors := env.GetPullRequestCommitAuthors h1 ghOrg.OrganizationInstallationID
              pullRequestID ownerName repoName
            let h2 := h1 ++ [Call.GetPullRequestCommitAuthors ghOrg.OrganizationInstallationID
              pullRequestID ownerName repoName]
            match authors.2 with
            | some authorsErr => ⟨Outcome.ret (some authorsErr), h2⟩
            | none =>
              let t := triageLoop env projectID authors.1 h2 [] []
              match t.out with
              | Outcome.panic m => ⟨Outcome.panic m, t.trace⟩
              | Outcome.ret _ => ⟨Outcome.ret none, t.trace⟩
          | _, _ => ⟨Outcome.panic nilDeref, h1⟩

/-! ## `UpdateApprovalList` -/

/-- The note handed to `createUserModel` by the auto-create branch. -/
def autoCreateNote : String := "auto-create ECLA user from CLA Manager approval list update"

/-- The user an added identity resolves to, or the `return nil, err` that aborts the update. -/
inductive Resolved where
  | user (u : User)
  | abort (err : Option Err)
  deriving DecidableEq, Repr

/-- How a loop of the auto-create branch ends: with a `return nil, err`, or at the end of the
list, with the variables `employeeUserModel` and `createdECLARecord`. -/
inductive LoopEnd where
  | abort (err : Option Err)
  | done (employeeUserModel : Option User) (createdECLARecord : Bool)
  deriving DecidableEq, Repr

/-- Lines 504-516: look the user of an added email up, create the user record if there is
none. -/
def resolveEmailUser (env : Env) (companyModel : Company) (h : Trace) (email : String) :
    Resolved × Trace :=
  let look := env.GetUserByEmail h email
  let h1 := h ++ [Call.GetUserByEmail email]
  match look.2, look.1 with
  | none, some u => (Resolved.user u, h1)
  | _, _ =>
    let cr := env.createUserModel h1 "" "" "" "" email companyModel.CompanyID autoCreateNote
    let h2 := h1 ++ [Call.createUserModel "" "" "" "" email companyModel.CompanyID autoCreateNote]
    match cr.2, cr.1 with
    | none, some u => (Resolved.user u, h2)
    | _, _ => (Resolved.abort cr.2, h2)

/-- Lines 533-564: look the user of an added GitHub username up; if there is none, fetch the
GitHub user details and create the user record. -/
def resolveGithubUser (env : Env) (companyModel : Company) (h : Trace) (gitHubUserName : String) :
    Resolved × Trace :=
  let look := env.GetUserByGitHubUsername h gitHubUserName
  let h1 := h ++ [Call.GetUserByGitHubUsername gitHubUserName]
  match look.2, look.1 with
  | none, some u => (Resolved.user u, h1)
  | _, _ =>
    let det := env.GetUserDetails h1 gitHubUserName
    let h2 := h1 ++ [Call.GetUserDetails gitHubUserName]
    match det.2, det.1 with
    | none, some gitHubUserModel =>
      match gitHubUserModel.ID with
      | none => (Resolved.abort det.2, h2)
      | some id =>
        let gitHubUserID := formatInt id
        let gitHubUserEmail := gitHubUserModel.Email.getD ""
        let cr := env.createUserModel h2 gitHubUserName gitHubUserID "" "" gitHubUserEmail
          companyModel.CompanyID autoCreateNote
        let h3 := h2 ++ [Call.createUserModel gitHubUserName gitHubUserID "" "" gitHubUserEmail
          companyModel.CompanyID autoCreateNote]
        match cr.2, cr.1 with
        | none, some u => (Resolved.user u, h3)
        | _, _ => (Resolved.abort cr.2, h3)
    | _, _ => (Resolved.abort det.2, h2)

/-- Lines 519-525 and 567-573: create the employee acknowledgement record of a resolved user. -/
def createEmployeeSignature (env : Env) (companyModel : Company) (claGroupModel : ClaGroup)
    (h : Trace) (u : User) : Option Err × Trace :=
  (env.CreateProjectCompanyEmployeeSignature h companyModel claGroupModel u,
   h ++ [Call.CreateProjectCompanyEmployeeSignature companyModel claGroupModel u])

/-- The loop over `params.AddEmailApprovalList` (lines 497-526). -/
def autoCreateEmailLoop (env : Env) (companyModel : Company) (claGroupModel : ClaGroup) :
    List String → Trace → Option User → Bool → LoopEnd × Trace
  | [], h, employeeUserModel, created => (LoopEnd.done employeeUserModel created, h)
  | email :: rest, h, _, _ =>
    match resolveEmailUser env companyModel h email with
    | (Resolved.abort err, h1) => (LoopEnd.abort err, h1)
    | (Resolved.user u, h1) =>
      match createEmployeeSignature env companyModel claGroupModel h1 u with
      | (some createErr, h2) => (LoopEnd.abort (some createErr), h2)
      | (none, h2) => autoCreateEmailLoop env companyModel claGroupModel rest h2 (some u) true

/-- The loop over `params.AddGithubUsernameApprovalList` (lines 527-574). -/
def autoCreateGithubLoop (env : Env) (companyModel : Company) (claGroupModel : ClaGroup) :
    List String → Trace → Option User → Bool → LoopEnd × Trace
  | [], h, employeeUserModel, created => (LoopEnd.done employeeUserModel created, h)
  | gitHubUserName :: rest, h, _, _ =>
    match resolveGithubUser env companyModel h gitHubUserName with
    | (Resolved.abort err, h1) => (LoopEnd.abort err, h1)
    | (Resolved.user u, h1) =>
      match createEmployeeSignature env companyModel claGroupModel h1 u with
      | (some createErr, h2) => (LoopEnd.abort (some createErr), h2)
      | (none, h2) => autoCreateGithubLoop env companyModel claGroupModel rest h2 (some u) true

/-- Lines 628-668: the reconciliation of the pull-request status after an employee signature
was created.  `some err` is the `return nil, err` of the branch, `none` falls through to the
end of `UpdateApprovalList`. -/
def reconcilePullRequest (env : Env) (h : Trace) (employeeUserModel : User) : Res (Option Err) :=
  let md := env.GetActiveSignatureMetadata h employeeUserModel.UserID
  let h1 := h ++ [Call.GetActiveSignatureMetadata employeeUserModel.UserID]
  match md.2 with
  | some sigErr => ⟨Outcome.ret (some sigErr), h1⟩
  | none =>
    match md.1 with
    | none => ⟨Outcome.panic nilDeref, h1⟩
    | some signatureMetadata =>
      let repo := env.GetRepository h1 signatureMetadata.RepositoryID
      let h2 := h1 ++ [Call.GetRepository signatureMetadata.RepositoryID]
      match repo.2 with
      | some repoErr => ⟨Outcome.ret (some repoErr), h2⟩
      | none =>
        match repo.1 with
        | none => ⟨Outcome.panic nilDeref, h2⟩
        | some claRepository =>
          if !claRepository.Enabled then
            ⟨Outcome.ret (some (errorsNew "Repository is not enabled")), h2⟩
          else
            let org := env.GetGitHubOrganizationByName h2 claRepository.RepositoryName
            let h3 := h2 ++ [Call.GetGitHubOrganizationByName claRepository.RepositoryName]
            match org.2 with
            | some githubOrgErr => ⟨Outcome.ret (some githubOrgErr), h3⟩
            | none =>
              match Atoi signatureMetadata.RepositoryID with
              | Except.error idErr => ⟨Outcome.ret (some idErr), h3⟩
              | Except.ok repositoryID =>
                match Atoi signatureMetadata.PullRequestID with
                | Except.error idErr => ⟨Outcome.ret (some idErr), h3⟩
                | Except.ok pullRequestID =>
                  updateChangeRequest env h3 org.1 repositoryID pullRequestID
                    signatureMetadata.ProjectID

/-- The loop that mails the CLA managers (lines 477-480). -/
def sendManagerEmails (env : Env) (companyModel : Company) (claGroupModel : ClaGroup)
    (params : ApprovalList) : List User → Trace → Trace
  | [], h => h
  | claManager :: rest, h =>
    sendManagerEmails env companyModel claGroupModel params rest
      (h ++ [Call.sendApprovalListUpdateEmailToCLAManagers companyModel claGroupModel
        claManager.Username (env.getBestEmail claManager) params])

/-- The message of the error of line 420-423. -/
def lookupFailedMsg (companyModel : Company) (claGroupModel : ClaGroup) (claGroupID : String)
    (sigErr : Err) : String :=
  "unable to locate project company signature by Company ID: " ++ companyModel.CompanyID ++
  ", Project ID: " ++ claGroupModel.ProjectID ++ ", CLA Group ID: " ++ claGroupID ++
  ", error: " ++ sigErr.msg

/-- The message of the error of line 427-430. -/
def notLocatedMsg (companyModel : Company) (claGroupID : String) : String :=
  "unable to locate signature for company ID: " ++ companyModel.CompanyID ++
  " CLA Group ID: " ++ claGroupID ++ ", type: ccla, signed: true, approved: true"

/-- The message of the error of line 436-440. -/
def forbiddenMsg (authUser : AuthUser) (companyModel : Company) (claGroupModel : ClaGroup) :
    String :=
  "EasyCLA - 403 Forbidden - CLA Manager " ++ authUser.UserName ++ " / " ++ authUser.Email ++
  " is not authorized to approve request for company ID: " ++ companyModel.CompanyName ++
  " / " ++ companyModel.CompanyExternalID ++ " / " ++ companyModel.CompanyID ++
  ", project ID: " ++ claGroupModel.ProjectName ++ " / " ++ claGroupModel.ProjectExternalID ++
  " / " ++ claGroupModel.ProjectID

/-- Lines 497-574: the loop over the added emails, then the loop over the added GitHub
usernames. -/
def autoCreateLoops (env : Env) (companyModel : Company) (claGroupModel : ClaGroup)
    (params : ApprovalList) (h : Trace) : LoopEnd × Trace :=
  match autoCreateEmailLoop env companyModel claGroupModel params.AddEmailApprovalList h none false with
  | (LoopEnd.abort err, h1) => (LoopEnd.abort err, h1)
  | (LoopEnd.done emp1 created1, h1) =>
    autoCreateGithubLoop env companyModel claGroupModel params.AddGithubUsernameApprovalList h1
      emp1 created1

/-- Lines 490-674: the auto-create branch, entered when `AutoCreateECLA` is set.  `some err`
is a `return nil, err` (`err` itself may be nil), `none` falls through to line 676. -/
def autoCreateECLA (env : Env) (h : Trace) (companyModel : Company) (claGroupModel : ClaGroup)
    (params : ApprovalList) : Res (Option (Option Err)) :=
  match autoCreateLoops env companyModel claGroupModel params h with
  | (LoopEnd.abort err, h2) => ⟨Outcome.ret (some err), h2⟩
  | (LoopEnd.done emp2 created2, h2) =>
    match created2, emp2 with
    | true, some employeeUserModel =>
      let r := reconcilePullRequest env h2 employeeUserModel
      match r.out with
      | Outcome.panic m => ⟨Outcome.panic m, r.trace⟩
      | Outcome.ret (some err) => ⟨Outcome.ret (some (some err)), r.trace⟩
      | Outcome.ret none => ⟨Outcome.ret none, r.trace⟩
    | _, _ => ⟨Outcome.ret none, h2⟩

/-- Go `service.UpdateApprovalList` (lines 400-677).  The request pointers (`authUser`,
`claGroupModel`, `companyModel`, `params`) are taken as values: the function dereferences
them before anything else happens.  The result is the pair `(*models.Signature, error)`. -/
def UpdateApprovalList (env : Env) (h : Trace) (authUser : AuthUser) (claGroupModel : ClaGroup)
    (companyModel : Company) (claGroupID : String) (params : ApprovalList) :
    Res (Option Signature × Option Err) :=
  -- lookup the project corporate signature (line 418)
  let sig := env.GetProjectCompanySignature h companyModel.CompanyID claGroupID (some true)
    (some true) none (some 1)
  let h1 := h ++ [Call.GetProjectCompanySignature companyModel.CompanyID claGroupID (some true)
    (some true) none (some 1)]
  match sig.2 with
  | some sigErr =>
    ⟨Outcome.ret (none, some (NewBadRequestError
      (lookupFailedMsg companyModel claGroupModel claGroupID sigErr))), h1⟩
  | none =>
    match sig.1 with
    | none =>
      ⟨Outcome.ret (none, some (NewBadRequestError (notLocatedMsg companyModel claGroupID))), h1⟩
    | some corporateSigModel =>
      -- ensure current user is in the signature ACL (line 435)
      let claManagers := corporateSigModel.SignatureACL
      if !env.CurrentUserInACL authUser claManagers then
        ⟨Outcome.ret (none, some (NewForbiddenError
          (forbiddenMsg authUser companyModel claGroupModel))), h1⟩
      else
        -- lookup the user making the request (line 444)
        let usr := env.GetUserByUserName h1 authUser.UserName true
        let h2 := h1 ++ [Call.GetUserByUserName authUser.UserName true]
        match usr.2 with
        | some userErr => ⟨Outcome.ret (none, some userErr), h2⟩
        | none =>
          -- eventArgs reads userModel.LfUsername (line 457)
          match usr.1 with
          | none => ⟨Outcome.panic nilDeref, h2⟩
          | some userModel =>
            -- the approval list update (line 465)
            let upd := env.RepoUpdateApprovalList h2 userModel claGroupModel
              companyModel.CompanyID params
            let h3 := h2 ++ [Call.RepoUpdateApprovalList userModel claGroupModel
              companyModel.CompanyID params]
            match upd.2 with
            | some err => ⟨Outcome.ret (upd.1, some err), h3⟩
            | none =>
              let updatedSig := upd.1
              -- event log entries, emails (lines 473-485)
              let h4 := h3 ++ [Call.createEventLogEntries companyModel claGroupModel userModel params]
              let h5 := sendManagerEmails env companyModel claGroupModel params claManagers h4
              let h6 := h5 ++ [Call.sendRequestAccessEmailToContributors authUser companyModel
                claGroupModel params]
              if corporateSigModel.AutoCreateECLA then
                let r := autoCreateECLA env h6 companyModel claGroupModel params
                match r.out with
                | Outcome.panic m => ⟨Outcome.panic m, r.trace⟩
                | Outcome.ret (some err) => ⟨Outcome.ret (none, err), r.trace⟩
                | Outcome.ret none => ⟨Outcome.ret (updatedSig, none), r.trace⟩
              else ⟨Outcome.ret (updatedSig, none), h6⟩

/-! ## Observations on traces, and collaborators for concrete runs -/

/-- The calls that change the store: the approval-list update of the repository, the creation
of a user record and the creation of an employee signature. -/
def Call.isMutation : Call → Bool
  | Call.RepoUpdateApprovalList _ _ _ _ => true
  | Call.createUserModel _ _ _ _ _ _ _ => true
  | Call.CreateProjectCompanyEmployeeSignature _ _ _ => true
  | _ => false

/-- The lookup of the corporate signature that opens `UpdateApprovalList` (line 418). -/
def lookupCall (companyModel : Company) (claGroupID : String) : Call :=
  Call.GetProjectCompanySignature companyModel.CompanyID claGroupID (some true) (some true)
    none (some 1)

/-- A Go library whose uninterpreted parts do nothing. -/
def idleLib : GoLib :=
  { unicodeToLower := fun c => c, extCompile := fun _ => none, extMatch := fun _ _ => false }

/-- Collaborators that find nothing and report no error; the ACL check compares the login of
the acting user with the logins of the managers. -/
def idleEnv : Env :=
  { lib := idleLib
    CurrentUserInACL := fun authUser managers => managers.any (fun m => m.LfUsername == authUser.UserName)
    getBestEmail := fun u => u.LfEmail
    IsValid := fun _ => true
    GetProjectCompanySignature := fun _ _ _ _ _ _ _ => (none, none)
    GetUserByUserName := fun _ _ _ => (none, none)
    RepoUpdateApprovalList := fun _ _ _ _ _ => (none, none)
    GetUserByEmail := fun _ _ => (none, none)
    GetUserByGitHubUsername := fun _ _ => (none, none)
    GetUserDetails := fun _ _ => (none, none)
    createUserModel := fun _ _ _ _ _ _ _ _ => (none, none)
    CreateProjectCompanyEmployeeSignature := fun _ _ _ _ => none
    GetActiveSignatureMetadata := fun _ _ => (none, none)
    GetRepository := fun _ _ => (none, none)
    GetGitHubOrganizationByName := fun _ _ => (none, none)
    GetGitHubRepository := fun _ _ _ => (none, none)
    GetPullRequestCommitAuthors := fun _ _ _ _ _ => ([], none)
    GetIndividualSignature := fun _ _ _ _ _ => (none, none)
    GetCorporateSignature := fun _ _ _ _ _ => (none, none)
    RepoGetProjectCompanyEmployeeSignatures := fun _ _ => (none, none)
    GetMembership := fun _ _ _ => (none, none)
    githubOrgValidation := true
    schedule := fun ids => ids
    RepoGetProjectCompanySignatures := fun _ _ _ _ _ _ _ _ => (none, none)
    RepoGetCompanySignatures := fun _ _ _ => (none, none)
    RepoGetUserSignatures := fun _ _ _ => (none, none)
    RepoGetProjectSignatures := fun _ _ => (none, none)
    ProjectSignatures := fun _ _ => (none, none)
    InvalidateProjectRecord := fun _ _ _ => none
    OrganizationsList := fun _ _ _ => ([], none)
    RepoGetGithubOrganizationsFromApprovalList := fun _ _ => ([], none)
    RepoAddGithubOrganizationToApprovalList := fun _ _ _ => ([], none)
    RepoDeleteGithubOrganizationFromApprovalList := fun _ _ _ => ([], none) }

/-- A user with the given identifier, login and email. -/
def mkUser (userID username email : String) : User :=
  { UserID := userID, Username := username, LfUsername := username, LfEmail := email,
    Emails := [], GithubUsername := "", CompanyID := "" }

/-- A corporate signature with the given managers and auto-create option, and empty approval
lists. -/
def mkSignature (signatureID : String) (acl : List User) (autoCreate : Bool) : Signature :=
  { SignatureID := signatureID, SignatureACL := acl, AutoCreateECLA := autoCreate,
    EmailApprovalList := [], DomainApprovalList := [], GithubUsernameApprovalList := [],
    GithubOrgApprovalList := [] }

/-- An approval-list request that changes nothing. -/
def emptyApprovalList : ApprovalList :=
  { AddEmailApprovalList := [], RemoveEmailApprovalList := [], AddDomainApprovalList := [],
    RemoveDomainApprovalList := [], AddGithubUsernameApprovalList := [],
    RemoveGithubUsernameApprovalList := [], AddGithubOrgApprovalList := [],
    RemoveGithubOrgApprovalList := [], AddGitlabUsernameApprovalList := [],
    RemoveGitlabUsernameApprovalList := [], AddGitlabOrgApprovalList := [],
    RemoveGitlabOrgApprovalList := [] }

/-- The request of the examples: the manager `alice` of company `c1` on CLA group `g1`. -/
def alice : AuthUser := { UserName := "alice", Email := "alice@co.com" }

/-- The company of the examples. -/
def acme : Company := { CompanyID := "c1", CompanyName := "Acme", CompanyExternalID := "x1" }

/-- The CLA group of the examples. -/
def groupOne : ClaGroup := { ProjectID := "g1", ProjectName := "One", ProjectExternalID := "p1" }

/-- Collaborators of a request for which no corporate signature exists. -/
def envNoSignature : Env := idleEnv

/-- Collaborators for which the corporate signature of the request is managed by `bob` only. -/
def envManagedByBob : Env :=
  { idleEnv with
    GetProjectCompanySignature := fun _ _ _ _ _ _ _ =>
      (some (mkSignature "s1" [mkUser "u2" "bob" "bob@co.com"] false), none) }

/-- The trace of `UpdateApprovalList` at line 489, after the repository update, the event log
entry and the emails: the point where the auto-create option is examined. -/
def traceAtAutoCreate (env : Env) (h : Trace) (authUser : AuthUser) (claGroupModel : ClaGroup)
    (companyModel : Company) (claGroupID : String) (params : ApprovalList)
    (claManagers : List User) (userModel : User) : Trace :=
  sendManagerEmails env companyModel claGroupModel params claManagers
    (h ++ [lookupCall companyModel claGroupID] ++ [Call.GetUserByUserName authUser.UserName true] ++
      [Call.RepoUpdateApprovalList userModel claGroupModel companyModel.CompanyID params] ++
      [Call.createEventLogEntries companyModel claGroupModel userModel params]) ++
    [Call.sendRequestAccessEmailToContributors authUser companyModel claGroupModel params]

/-- The approval-list update went through: the corporate signature `sig` was found, the acting
user is in its ACL, the acting user was looked up as `userModel`, and the update of the
repository returned `updatedSig` and no error. -/
def UpdateCommitted (env : Env) (h : Trace) (authUser : AuthUser) (claGroupModel : ClaGroup)
    (companyModel : Company) (claGroupID : String) (params : ApprovalList) (sig : Signature)
    (userModel : User) (updatedSig : Option Signature) : Prop :=
  env.GetProjectCompanySignature h companyModel.CompanyID claGroupID (some true) (some true)
    none (some 1) = (some sig, none) ∧
  env.CurrentUserInACL authUser sig.SignatureACL = true ∧
  env.GetUserByUserName (h ++ [lookupCall companyModel claGroupID]) authUser.UserName true =
    (some userModel, none) ∧
  env.RepoUpdateApprovalList
    (h ++ [lookupCall companyModel claGroupID] ++ [Call.GetUserByUserName authUser.UserName true])
    userModel claGroupModel companyModel.CompanyID params = (updatedSig, none)

/-- The failures of the pull-request reconciliation that starts at trace `h` for the user
`emp`, each with the error it produces: the lookup of the active-signature metadata fails, the
lookup of the repository fails, the repository is not enabled, the lookup of the GitHub
organization fails, the repository ID or the pull-request ID is not numeric, or
`updateChangeRequest` returns an error. -/
def ReconcileFails (env : Env) (h : Trace) (emp : User) (err : Err) : Prop :=
  (env.GetActiveSignatureMetadata h emp.UserID).2 = some err ∨
  ∃ md : SignatureMetadata, env.GetActiveSignatureMetadata h emp.UserID = (some md, none) ∧
    ((env.GetRepository (h ++ [Call.GetActiveSignatureMetadata emp.UserID]) md.RepositoryID).2 =
        some err ∨
     ∃ repo : GithubRepository,
      env.GetRepository (h ++ [Call.GetActiveSignatureMetadata emp.UserID]) md.RepositoryID =
        (some repo, none) ∧
      ((repo.Enabled = false ∧ err = errorsNew "Repository is not enabled") ∨
       (repo.Enabled = true ∧
        ((env.GetGitHubOrganizationByName
            (h ++ [Call.GetActiveSignatureMetadata emp.UserID] ++ [Call.GetRepository md.RepositoryID])
            repo.RepositoryName).2 = some err ∨
         ∃ org : Option GithubOrganization,
          env.GetGitHubOrganizationByName
            (h ++ [Call.GetActiveSignatureMetadata emp.UserID] ++ [Call.GetRepository md.RepositoryID])
            repo.RepositoryName = (org, none) ∧
          (Atoi md.RepositoryID = Except.error err ∨
           ∃ repositoryID : Int, Atoi md.RepositoryID = Except.ok repositoryID ∧
            (Atoi md.PullRequestID = Except.error err ∨
             ∃ pullRequestID : Int, Atoi md.PullRequestID = Except.ok pullRequestID ∧
              (updateChangeRequest env
                (h ++ [Call.GetActiveSignatureMetadata emp.UserID] ++
                  [Call.GetRepository md.RepositoryID] ++
                  [Call.GetGitHubOrganizationByName repo.RepositoryName])
                org repositoryID pullRequestID md.ProjectID).out = Outcome.ret (some err)))))))

/-- The manager of the examples, as the users service knows her. -/
def aliceUser : User := mkUser "u1" "alice" "alice@co.com"

/-- The corporate signature of the examples: managed by `alice`, auto-create ECLA enabled. -/
def sigAuto : Signature := mkSignature "s1" [aliceUser] true

/-- Whether a user record was created for `email` earlier in the trace. -/
def createdFor (email : String) (t : Trace) : Bool :=
  t.any (fun c =>
    match c with
    | Call.createUserModel _ _ _ _ e _ _ => e == email
    | _ => false)

/-- The user record the users service of the examples creates. -/
def createdUser (githubUsername email companyID : String) : User :=
  { UserID := "u-" ++ githubUsername ++ email, Username := githubUsername, LfUsername := "",
    LfEmail := email, Emails := [email], GithubUsername := githubUsername, CompanyID := companyID }

/-- Collaborators for which the update of the approval list of `sigAuto` goes through.  The
users service is stateful: a user created for an email is found by later lookups of it. -/
def envAutoCreate : Env :=
  { idleEnv with
    GetProjectCompanySignature := fun _ _ _ _ _ _ _ => (some sigAuto, none)
    GetUserByUserName := fun _ _ _ => (some aliceUser, none)
    RepoUpdateApprovalList := fun _ _ _ _ _ => (some sigAuto, none)
    GetUserByEmail := fun t email =>
      if createdFor email t then (some (createdUser "" email "c1"), none) else (none, none)
    createUserModel := fun _ githubUsername _ _ _ email companyID _ =>
      (some (createdUser githubUsername email companyID), none) }

/-- As `envAutoCreate`, with a lookup of the active-signature metadata that fails. -/
def envMetadataFails : Env :=
  { envAutoCreate with
    GetActiveSignatureMetadata := fun _ _ => (none, some (errorsNew "no active signature")) }

/-- As `envAutoCreate`, with a users service that creates no user and reports no error. -/
def envCreatesNothing : Env :=
  { envAutoCreate with createUserModel := fun _ _ _ _ _ _ _ _ => (none, none) }

/-- As `envAutoCreate`, with a GitHub client that knows the user but not the numeric ID. -/
def envNoGithubID : Env :=
  { envAutoCreate with
    GetUserDetails := fun _ name => (some { ID := none, Name := some name, Email := none }, none) }

/-- As `envAutoCreate`, with a pull request whose reconciliation goes through: the repository
is enabled, its GitHub organization is installed, and the pull request has no commit. -/
def envReconciles : Env :=
  { envAutoCreate with
    GetActiveSignatureMetadata := fun _ _ =>
      (some { RepositoryID := "12", PullRequestID := "7", ProjectID := "g1" }, none)
    GetRepository := fun _ _ =>
      (some { Enabled := true, RepositoryName := "acme", RepositoryURL := "https://github.com/acme/tool" }, none)
    GetGitHubOrganizationByName := fun _ _ => (some { OrganizationInstallationID := 99 }, none)
    GetGitHubRepository := fun _ _ _ =>
      (some { Owner := some { ID := some 5, Name := some "acme", Email := none },
              Name := some "tool" }, none) }

/-- The request that adds the email `new@co.com`. -/
def addNewEmail : ApprovalList := { emptyApprovalList with AddEmailApprovalList := ["new@co.com"] }

/-- The request that adds the GitHub username `octo`. -/
def addOcto : ApprovalList := { emptyApprovalList with AddGithubUsernameApprovalList := ["octo"] }

/-- As `envAutoCreate`, with a users service whose creation of a user record fails. -/
def envCreateFails : Env :=
  { envAutoCreate with
    GetUserByEmail := fun _ _ => (none, none)
    createUserModel := fun _ _ _ _ _ _ _ _ => (none, some (errorsNew "user store unavailable")) }

/-- The calls that create an employee signature record. -/
def Call.isCreateEmployeeSignature : Call → Bool
  | Call.CreateProjectCompanyEmployeeSignature _ _ _ => true
  | _ => false

/-- The calls of the turn of an added email that has no user record: the lookup, the creation
of the user record with the company's ID, and the creation of the employee signature record of
the created user `u`. -/
def newEmailTurn (companyModel : Company) (claGroupModel : ClaGroup) (email : String)
    (u : User) : List Call :=
  [Call.GetUserByEmail email,
   Call.createUserModel "" "" "" "" email companyModel.CompanyID autoCreateNote,
   Call.CreateProjectCompanyEmployeeSignature companyModel claGroupModel u]

/-- A contributor of the examples: employee of company `c1`, with the email `a@x.com`. -/
def carol : User :=
  { UserID := "u7", Username := "carol", LfUsername := "carol", LfEmail := "carol@x.com",
    Emails := ["a@x.com"], GithubUsername := "", CompanyID := "c1" }

/-- An individual signature of the examples. -/
def iclaSig : Signature := mkSignature "icla1" [] false

/-- An employee acknowledgement signature of the examples. -/
def eclaSig : Signature := mkSignature "ecla1" [] false

/-- A corporate signature of the examples, whose email approval list is `a@x.com`. -/
def cclaSig : Signature := { mkSignature "ccla1" [aliceUser] false with EmailApprovalList := ["a@x.com"] }

/-- Collaborators for which an individual signature exists and the query of the employee
signatures fails. -/
def envEmployeeQueryFails : Env :=
  { idleEnv with
    GetIndividualSignature := fun _ _ _ _ _ => (some iclaSig, none)
    RepoGetProjectCompanyEmployeeSignatures := fun _ _ => (none, some (errorsNew "query failed")) }

/-- Collaborators for which an individual signature exists, and an employee acknowledgement
and a corporate signature that approves `a@x.com`. -/
def envIndividualAndCorporate : Env :=
  { idleEnv with
    GetIndividualSignature := fun _ _ _ _ _ => (some iclaSig, none)
    RepoGetProjectCompanyEmployeeSignatures := fun _ _ => (some { Signatures := [some eclaSig] }, none)
    GetCorporateSignature := fun _ _ _ _ _ => (some cclaSig, none) }

/-- Collaborators for which no individual signature exists, but an employee acknowledgement
and a corporate signature that approves `a@x.com`. -/
def envCorporateOnly : Env :=
  { idleEnv with
    RepoGetProjectCompanyEmployeeSignatures := fun _ _ => (some { Signatures := [some eclaSig] }, none)
    GetCorporateSignature := fun _ _ _ _ _ => (some cclaSig, none) }

/-- Collaborators for which an individual signature exists and the query of the employee
signatures answers an empty page. -/
def envNoEmployeeSignature : Env :=
  { idleEnv with
    GetIndividualSignature := fun _ _ _ _ _ => (some iclaSig, none)
    RepoGetProjectCompanyEmployeeSignatures := fun _ _ => (some { Signatures := [] }, none) }

/-- The query of the employee signatures `hasUserSigned` hands to the repository. -/
def employeeQuery (user : User) (projectID : String) : EmployeeSignaturesParams :=
  { CompanyID := user.CompanyID, ProjectID := projectID, NextKey := none, PageSize := some 10 }

/-- The trace of `hasUserSigned` after the lookup of the individual signature. -/
def traceAfterIndividual (h : Trace) (user : User) (projectID : String) : Trace :=
  h ++ [Call.GetIndividualSignature projectID user.UserID (some true) (some true)]

/-- The trace of `hasUserSigned` after the lookup of the corporate signature. -/
def traceAfterCorporate (h : Trace) (user : User) (projectID : String) : Trace :=
  traceAfterIndividual h user projectID ++
    [Call.RepoGetProjectCompanyEmployeeSignatures (employeeQuery user projectID)] ++
    [Call.GetCorporateSignature projectID user.CompanyID (some true) (some true)]

/-- A user of the examples whose only email is `A@x.com`. -/
def upperCaseUser : User :=
  { UserID := "u8", Username := "dave", LfUsername := "dave", LfEmail := "",
    Emails := ["A@x.com"], GithubUsername := "", CompanyID := "c1" }

/-- The characters of a domain name: ASCII letters, digits, the hyphen and the dot. -/
def isDomainChar (c : Char) : Bool :=
  c.isAlphanum || c == '-' || c == '.'

/-- A token of an expression: a character that is not an operator, starred or not. -/
abbrev Token := Char × Bool

/-- The text of a sequence of tokens. -/
def renderTokens : List Token → List Char
  | [] => []
  | (c, true) :: rest => c :: '*' :: renderTokens rest
  | (c, false) :: rest => c :: renderTokens rest

/-- The piece a token stands for. -/
def pieceOfToken (t : Token) : Piece :=
  { atom := atomOf t.1, rep := if t.2 then Rep.star else Rep.one }

/-- Whether the expression derived from a pattern compiles. -/
def patternCompiles (lib : GoLib) (pattern : String) : Bool :=
  match regexpCompile lib (preProcessedPattern pattern) with
  | Except.ok _ => true
  | Except.error _ => false

/-- Whether the expression derived from a pattern compiles and matches the email. -/
def patternMatches (lib : GoLib) (pattern email : String) : Bool :=
  match regexpCompile lib (preProcessedPattern pattern) with
  | Except.ok compiled => MatchString lib compiled email
  | Except.error _ => false

/-- The text `s` with every occurrence of the character `x` replaced by `.*`. -/
def expandChar (x : Char) (s : List Char) : List Char :=
  s.flatMap (fun c => if c = x then ['.', '*'] else [c])

/-- Whether the text `s` agrees with the domain `d` when every dot of `d` stands for one
arbitrary character (any character but the newline): same length, and the same character at
every position where `d` has no dot. -/
def wildOne : List Char → List Char → Bool
  | [], [] => true
  | [], _ :: _ => false
  | _ :: _, [] => false
  | c :: d, x :: s => (if c = '.' then x != '\n' else x == c) && wildOne d s

/-- Whether `p` holds of the text after some leading characters, none of them a newline, have
been dropped. -/
def skipRun (p : List Char → Bool) : List Char → Bool
  | [] => p []
  | x :: s => p (x :: s) || (x != '\n' && skipRun p s)

/-- Whether the text `s` agrees with the domain `d` when every dot of `d` stands for an
arbitrary run of characters (none of them a newline). -/
def wildRuns : List Char → List Char → Bool
  | [], s => s.isEmpty
  | c :: d, s =>
    if c = '.' then skipRun (wildRuns d) s
    else
      match s with
      | [] => false
      | x :: rest => x == c && wildRuns d rest

/-- Whether the email is `local@host` where `local` and a head of `host` contain no newline
and `p` holds of the rest of `host`. -/
def hostEndsWith (p : List Char → Bool) : List Char → Bool
  | [] => false
  | c :: cs => (c == '@' && skipRun p cs) || (c != '\n' && hostEndsWith p cs)

/-- The pieces of the expression of a domain `d` up to the end of the text: every character of
`d` stands for itself, and a dot for any character, starred when `starDots` is set. -/
def domainPieces (starDots : Bool) (d : List Char) : List Piece :=
  d.map (fun c => pieceOfToken (c, starDots && c == '.')) ++
    [{ atom := Atom.endText, rep := Rep.one }]

/-- The membership checks of the organizations `orgs` for the GitHub user, in list order. -/
def membershipCalls (githubUsername : String) (orgs : List String) : List Call :=
  orgs.map (fun org => Call.GetMembership githubUsername org)

/-- A GitHub user of the examples, employee of `c1`, whose email is approved by no list. -/
def octo : User :=
  { UserID := "u9", Username := "octo", LfUsername := "octo", LfEmail := "",
    Emails := ["octo@mail.org"], GithubUsername := "octo", CompanyID := "c1" }

/-- A corporate signature of the examples that approves the GitHub organizations `org1`,
`org2` and `org3`, in that order. -/
def orgSig : Signature :=
  { mkSignature "ccla2" [aliceUser] false with GithubOrgApprovalList := ["org1", "org2", "org3"] }

/-- A GitHub client that confirms the membership in `org2` only. -/
def envMemberOfOrg2 : Env :=
  { idleEnv with
    GetMembership := fun _ _ org =>
      if org = "org2" then (some { State := "active" }, none) else (none, none) }

/-- A GitHub client whose membership check fails for `org2` and would confirm `org3`. -/
def envOrg2Fails : Env :=
  { idleEnv with
    GetMembership := fun _ _ org =>
      if org = "org2" then (none, some (errorsNew "rate limit exceeded"))
      else if org = "org3" then (some { State := "active" }, none) else (none, none) }

/-- A user of the examples with the single email `email`. -/
def userWithEmail (email : String) : User :=
  { UserID := "u10", Username := "erin", LfUsername := "erin", LfEmail := "",
    Emails := [email], GithubUsername := "", CompanyID := "c1" }

/-- A corporate signature of the examples whose only approval entry is the domain
`example.com`. -/
def domainSig : Signature :=
  { mkSignature "ccla3" [aliceUser] false with DomainApprovalList := ["example.com"] }

/-- A corporate signature of the examples whose only approval entry is the email
`a@example.com`. -/
def emailSig : Signature :=
  { mkSignature "ccla4" [aliceUser] false with EmailApprovalList := ["a@example.com"] }

/-- A corporate signature of the examples whose only approval entry is the GitHub username
`octo`. -/
def usernameSig : Signature :=
  { mkSignature "ccla5" [aliceUser] false with GithubUsernameApprovalList := ["octo"] }

/-- How one turn of the triage loop of `updateChangeRequest` ends: the loop goes on to the next
author, or a `break` leaves the loop, or the turn panics; with the trace and the slices
`signed` and `unsigned` at that point. -/
inductive Turn where
  | next (h : Trace) (signed unsigned : List UserCommitSummary)
  | stop (h : Trace) (signed unsigned : List UserCommitSummary)
  | panic (msg : String) (h : Trace)

/-- One turn of the triage loop (lines 805-819), for the author `userSummary`. -/
def triageTurn (env : Env) (projectID : String) (userSummary : UserCommitSummary) (h : Trace)
    (signed unsigned : List UserCommitSummary) : Turn :=
  let unsigned1 := if !env.IsValid userSummary then unsigned ++ [userSummary] else unsigned
  match userSummary.CommitAuthor with
  | none => Turn.panic nilDeref h
  | some author =>
    match author.Name with
    | none => Turn.panic nilDeref h
    | some name =>
      let r := env.GetUserByGitHubUsername h name
      let h1 := h ++ [Call.GetUserByGitHubUsername name]
      match r.2 with
      | some _ => Turn.stop h1 signed (unsigned1 ++ [userSummary])
      | none =>
        let hs := hasUserSigned env h1 r.1 projectID
        match hs.out with
        | Outcome.panic m => Turn.panic m hs.trace
        | Outcome.ret (userSigned, signedErr) =>
          match signedErr with
          | some _ => Turn.stop hs.trace signed unsigned1
          | none =>
            Turn.next hs.trace (if userSigned = some true then signed ++ [userSummary] else signed)
              unsigned1

/-- The state of the triage loop after the turns of the authors `authors`, when every one of
these turns goes on to the next author: the loop reaches the author that follows them in this
state. -/
def triageReaches (env : Env) (projectID : String) :
    List UserCommitSummary → Trace → List UserCommitSummary → List UserCommitSummary →
    Option (Trace × List UserCommitSummary × List UserCommitSummary)
  | [], h, signed, unsigned => some (h, signed, unsigned)
  | userSummary :: rest, h, signed, unsigned =>
    match triageTurn env projectID userSummary h signed unsigned with
    | Turn.next h1 signed1 unsigned1 => triageReaches env projectID rest h1 signed1 unsigned1
    | _ => none

/-- A commit author of the examples. -/
def commitBy (sha name : String) : UserCommitSummary :=
  { SHA := sha, CommitAuthor := some { ID := none, Name := some name, Email := none } }

/-- As `envReconciles`, for a pull request with commits by `ann`, `bob` and `cid`: `ann` is a
known user with an individual signature, the lookup of `bob` fails, `cid` is a known user. -/
def envLookupOfBobFails : Env :=
  { envReconciles with
    GetPullRequestCommitAuthors := fun _ _ _ _ _ =>
      ([commitBy "c1" "ann", commitBy "c2" "bob", commitBy "c3" "cid"], none)
    GetUserByGitHubUsername := fun _ name =>
      if name = "bob" then (none, some (errorsNew "user not found"))
      else (some (mkUser ("u-" ++ name) name (name ++ "@mail.org")), none)
    GetIndividualSignature := fun _ _ _ _ _ => (some iclaSig, none) }

/-! ## Listing operations, invalidation, GitHub organizations of an approval list -/

/-- Modelled from the spec: the constant `utils.ClaTypeCCLA`, which is declared outside this
file of the program; the spec calls the type CCLA and the message of line 427 spells it
`ccla`. -/
def ClaTypeCCLA : String := "ccla"

/-- Go `service.GetProjectCompanySignatures` (lines 132-151). -/
def GetProjectCompanySignatures (env : Env) (h : Trace) (params : ProjectCompanySignaturesParams) :
    (Option Signatures × Option Err) × Trace :=
  let defaultPageSize : Int := 10
  let pageSize : Int :=
    match params.PageSize with
    | some p => p
    | none => defaultPageSize
  let r := env.RepoGetProjectCompanySignatures h params.CompanyID params.ProjectID (some true)
    (some true) params.NextKey params.SortOrder (some pageSize)
  let h1 := h ++ [Call.RepoGetProjectCompanySignatures params.CompanyID params.ProjectID
    (some true) (some true) params.NextKey params.SortOrder (some pageSize)]
  match r.2 with
  | some err => ((none, some err), h1)
  | none => ((r.1, none), h1)

/-- Go `service.GetCompanySignatures` (lines 168-183); the last argument of the repository
call is the package constant `LoadACLDetails`. -/
def GetCompanySignatures (env : Env) (h : Trace) (params : CompanySignaturesParams) :
    (Option Signatures × Option Err) × Trace :=
  let defaultPageSize : Int := 50
  let pageSize : Int :=
    match params.PageSize with
    | some p => p
    | none => defaultPageSize
  let r := env.RepoGetCompanySignatures h params pageSize
  let h1 := h ++ [Call.RepoGetCompanySignatures params pageSize]
  match r.2 with
  | some err => ((none, some err), h1)
  | none => ((r.1, none), h1)

/-- Go `service.GetUserSignatures` (lines 190-205). -/
def GetUserSignatures (env : Env) (h : Trace) (params : UserSignaturesParams) :
    (Option Signatures × Option Err) × Trace :=
  let defaultPageSize : Int := 10
  let pageSize : Int :=
    match params.PageSize with
    | some p => p
    | none => defaultPageSize
  let r := env.RepoGetUserSignatures h params pageSize
  let h1 := h ++ [Call.RepoGetUserSignatures params pageSize]
  match r.2 with
  | some err => ((none, some err), h1)
  | none => ((r.1, none), h1)

/-- Go `service.GetClaGroupCCLASignatures` (lines 761-770). -/
def GetClaGroupCCLASignatures (env : Env) (h : Trace) (claGroupID : String)
    (approved signed : Option Bool) : (Option Signatures × Option Err) × Trace :=
  let params : ProjectSignaturesParams :=
    { ClaType := some ClaTypeCCLA, ProjectID := claGroupID, PageSize := some 1000,
      Approved := approved, Signed := signed }
  (env.RepoGetProjectSignatures h params, h ++ [Call.RepoGetProjectSignatures params])

/-- The loop of lines 697-706 in the calling task: the signature IDs of the tasks it
dispatches, in list order, and whether it reaches the end of the slice; it stops at a nil
element, where `signature.SignatureID` panics. -/
def dispatchLoop : List (Option Signature) → List String × Bool
  | [] => ([], true)
  | none :: _ => ([], false)
  | some signature :: rest =>
    ((signature.SignatureID) :: (dispatchLoop rest).1, (dispatchLoop rest).2)

/-- The dispatched tasks of `InvalidateProjectRecords` (lines 699-705), in the order in which
they reach the repository: each one calls `InvalidateProjectRecord`; the error it may return is
logged and has no other effect. -/
def runInvalidations (env : Env) (note : String) : List String → Trace → Trace
  | [], h => h
  | sigID :: rest, h =>
    match env.InvalidateProjectRecord h sigID note with
    | some _ => runInvalidations env note rest (h ++ [Call.InvalidateProjectRecord sigID note])
    | none => runInvalidations env note rest (h ++ [Call.InvalidateProjectRecord sigID note])

/-- Go `service.InvalidateProjectRecords` (lines 679-713).  The result is the pair
`(int, error)`.  The tasks run concurrently; the calling task waits for all of them, and
`env.schedule` gives the order in which they reach the repository. -/
def InvalidateProjectRecords (env : Env) (h : Trace) (projectID note : String) :
    Res (Int × Option Err) :=
  let r := env.ProjectSignatures h projectID
  let h1 := h ++ [Call.ProjectSignatures projectID]
  match r.2 with
  | some err => ⟨Outcome.ret (0, some err), h1⟩
  | none =>
    match r.1 with
    | none => ⟨Outcome.panic nilDeref, h1⟩
    | some result =>
      let d := dispatchLoop result.Signatures
      let h2 := runInvalidations env note (env.schedule d.1) h1
      if d.2 then ⟨Outcome.ret ((result.Signatures.length : Int), none), h2⟩
      else ⟨Outcome.panic nilDeref, h2⟩

/-- The loop of lines 305-311 and 377-383: whether the organization is one of those listed for
the authenticated user; `*org.Login` panics on a nil login. -/
def orgListed (organizationID : String) : List GhOrganization → Outcome Bool
  | [] => Outcome.ret false
  | org :: rest =>
    match org.Login with
    | none => Outcome.panic nilDeref
    | some login => if login == organizationID then Outcome.ret true else orgListed organizationID rest

/-- Lines 279-318 and 351-390: the check that the authenticated GitHub user has access to the
organization.  `some err` is a `return nil, err`, `none` falls through to the repository
call; `verb` is `add` or `delete`, as in the messages. -/
def validateGithubOrg (env : Env) (h : Trace) (verb signatureID organizationID
    githubAccessToken : String) : Res (Option Err) :=
  if githubAccessToken == "" then
    ⟨Outcome.ret (some (errorsNew ("unable to " ++ verb ++
      " github organization, not logged in using signatureID: " ++ signatureID ++
      ", github organization id: " ++ organizationID))), h⟩
  else
    let r := env.OrganizationsList h githubAccessToken 100
    let h1 := h ++ [Call.OrganizationsList githubAccessToken 100]
    match r.2 with
    | some err => ⟨Outcome.ret (some err), h1⟩
    | none =>
      match orgListed organizationID r.1 with
      | Outcome.panic m => ⟨Outcome.panic m, h1⟩
      | Outcome.ret found =>
        if !found then
          ⟨Outcome.ret (some (errorsNew
            ("user is not authorized for github organization id: " ++ organizationID))), h1⟩
        else ⟨Outcome.ret none, h1⟩

/-- Go `service.AddGithubOrganizationToApprovalList` (lines 260-328).  The result is the pair
`([]models.GithubOrg, error)`, a nil slice being the empty list. -/
def AddGithubOrganizationToApprovalList (env : Env) (h : Trace) (signatureID : String)
    (approvalListParams : GhOrgWhitelist) (githubAccessToken : String) :
    Res (List GithubOrg × Option Err) :=
  if signatureID == "" then
    ⟨Outcome.ret ([], some (errorsNew
      "unable to add GitHub organization from approval list - signature ID is nil")), h⟩
  else
    match approvalListParams.OrganizationID with
    | none =>
      ⟨Outcome.ret ([], some (errorsNew
        "unable to add GitHub organization from approval list - organization ID is nil")), h⟩
    | some organizationID =>
      let v : Res (Option Err) :=
        if env.githubOrgValidation then
          validateGithubOrg env h "add" signatureID organizationID githubAccessToken
        else ⟨Outcome.ret none, h⟩
      match v.out with
      | Outcome.panic m => ⟨Outcome.panic m, v.trace⟩
      | Outcome.ret (some err) => ⟨Outcome.ret ([], some err), v.trace⟩
      | Outcome.ret none =>
        let r := env.RepoAddGithubOrganizationToApprovalList v.trace signatureID organizationID
        let h2 := v.trace ++ [Call.RepoAddGithubOrganizationToApprovalList signatureID
          organizationID]
        match r.2 with
        | some err => ⟨Outcome.ret ([], some err), h2⟩
        | none => ⟨Outcome.ret (r.1, none), h2⟩

/-- Go `service.DeleteGithubOrganizationFromApprovalList` (lines 330-398). -/
def DeleteGithubOrganizationFromApprovalList (env : Env) (h : Trace) (signatureID : String)
    (approvalListParams : GhOrgWhitelist) (githubAccessToken : String) :
    Res (List GithubOrg × Option Err) :=
  if signatureID == "" then
    ⟨Outcome.ret ([], some (errorsNew
      "unable to delete GitHub organization from approval list - signature ID is nil")), h⟩
  else
    match approvalListParams.OrganizationID with
    | none =>
      ⟨Outcome.ret ([], some (errorsNew
        "unable to delete GitHub organization from approval list - organization ID is nil")), h⟩
    | some organizationID =>
      let v : Res (Option Err) :=
        if env.githubOrgValidation then
          validateGithubOrg env h "delete" signatureID organizationID githubAccessToken
        else ⟨Outcome.ret none, h⟩
      match v.out with
      | Outcome.panic m => ⟨Outcome.panic m, v.trace⟩
      | Outcome.ret (some err) => ⟨Outcome.ret ([], some err), v.trace⟩
      | Outcome.ret none =>
        let r := env.RepoDeleteGithubOrganizationFromApprovalList v.trace signatureID
          organizationID
        let h2 := v.trace ++ [Call.RepoDeleteGithubOrganizationFromApprovalList signatureID
          organizationID]
        match r.2 with
        | some err => ⟨Outcome.ret ([], some err), h2⟩
        | none => ⟨Outcome.ret (r.1, none), h2⟩

/-- The invalidation calls for the signature IDs `ids`, in list order. -/
def invalidationCalls (note : String) (ids : List String) : List Call :=
  ids.map (fun sigID => Call.InvalidateProjectRecord sigID note)

/-- A project of the examples with the signatures `s1`, `s2`, `s3`: the invalidation of `s2`
fails, and the tasks reach the repository in the reverse of the order of their dispatch. -/
def envThreeSignatures : Env :=
  { idleEnv with
    ProjectSignatures := fun _ _ =>
      (some { Signatures := [some (mkSignature "s1" [] false), some (mkSignature "s2" [] false),
        some (mkSignature "s3" [] false)] }, none)
    InvalidateProjectRecord := fun _ sigID _ =>
      if sigID = "s2" then some (errorsNew "conditional check failed") else none
    schedule := fun ids => ids.reverse }

/-- The calls that change the GitHub organizations of an approval list. -/
def Call.isOrgListMutation : Call → Bool
  | Call.RepoAddGithubOrganizationToApprovalList _ _ => true
  | Call.RepoDeleteGithubOrganizationFromApprovalList _ _ => true
  | _ => false

/-- The authenticated GitHub user may manage the organization: the access token is not empty,
the listing of the organizations of the user succeeds, and the organization ID is the login of
one of them. -/
def OrgAccess (env : Env) (h : Trace) (githubAccessToken organizationID : String) : Prop :=
  githubAccessToken ≠ "" ∧
  (env.OrganizationsList h githubAccessToken 100).2 = none ∧
  ∃ org ∈ (env.OrganizationsList h githubAccessToken 100).1, org.Login = some organizationID

/-- A GitHub client that lists the organizations `org1` and `org2` for the token `t0`. -/
def envListsTwoOrgs : Env :=
  { idleEnv with
    OrganizationsList := fun _ _ _ => ([{ Login := some "org1" }, { Login := some "org2" }], none)
    RepoAddGithubOrganizationToApprovalList := fun _ _ org => ([{ ID := some org }], none) }

/-- The calls that create a user record. -/
def Call.isCreateUser : Call → Bool
  | Call.createUserModel _ _ _ _ _ _ _ => true
  | _ => false

/-- The calls of the pull-request reconciliation (lines 628-668) and of `updateChangeRequest`
up to the triage of the commit authors; every reconciliation opens with the lookup of the
active-signature metadata. -/
def Call.isReconciliation : Call → Bool
  | Call.GetActiveSignatureMetadata _ => true
  | Call.GetRepository _ => true
  | Call.GetGitHubOrganizationByName _ => true
  | Call.GetGitHubRepository _ _ => true
  | Call.GetPullRequestCommitAuthors _ _ _ _ => true
  | _ => false

/-- The mails to the CLA managers (lines 477-480), in the order of the ACL. -/
def managerEmailCalls (env : Env) (companyModel : Company) (claGroupModel : ClaGroup)
    (params : ApprovalList) (claManagers : List User) : List Call :=
  claManagers.map (fun claManager =>
    Call.sendApprovalListUpdateEmailToCLAManagers companyModel claGroupModel claManager.Username
      (env.getBestEmail claManager) params)

/-- The calls of `UpdateApprovalList` up to line 485: the lookup of the corporate signature,
the lookup of the acting user, the update of the repository, the event log entry, the mails to
the CLA managers and the mail to the contributors. -/
def updateCalls (env : Env) (authUser : AuthUser) (claGroupModel : ClaGroup)
    (companyModel : Company) (claGroupID : String) (params : ApprovalList)
    (claManagers : List User) (userModel : User) : List Call :=
  [lookupCall companyModel claGroupID, Call.GetUserByUserName authUser.UserName true,
   Call.RepoUpdateApprovalList userModel claGroupModel companyModel.CompanyID params,
   Call.createEventLogEntries companyModel claGroupModel userModel params] ++
  managerEmailCalls env companyModel claGroupModel params claManagers ++
  [Call.sendRequestAccessEmailToContributors authUser companyModel claGroupModel params]

/-- The corporate signature of the examples with the auto-create option switched off. -/
def sigManual : Signature := mkSignature "s1" [aliceUser] false

/-- Collaborators for which the update of the approval list of `sigManual` goes through. -/
def envNoAutoCreate : Env :=
  { envAutoCreate with
    GetProjectCompanySignature := fun _ _ _ _ _ _ _ => (some sigManual, none)
    RepoUpdateApprovalList := fun _ _ _ _ _ => (some sigManual, none) }

/-- The loop of lines 227-229: the keys of the map `selectedOrgs`, the IDs of the
organizations of the approval list; `*selectedOrg.ID` panics on a nil ID. -/
def selectedOrgsLoop : List GithubOrg → List String → Outcome (List String)
  | [], selectedOrgs => Outcome.ret selectedOrgs
  | selectedOrg :: rest, selectedOrgs =>
    match selectedOrg.ID with
    | none => Outcome.panic nilDeref
    | some id => selectedOrgsLoop rest (selectedOrgs ++ [id])

/-- The loop of lines 247-254: an organization of the authenticated user whose login is a key
of `selectedOrgs` is skipped, any other one is appended to `orgIds`; `*org.Login` panics on a
nil login. -/
def appendOrgsLoop (selectedOrgs : List String) :
    List GhOrganization → List GithubOrg → Outcome (List GithubOrg)
  | [], orgIds => Outcome.ret orgIds
  | org :: rest, orgIds =>
    match org.Login with
    | none => Outcome.panic nilDeref
    | some login =>
      if login ∈ selectedOrgs then appendOrgsLoop selectedOrgs rest orgIds
      else appendOrgsLoop selectedOrgs rest (orgIds ++ [{ ID := org.Login }])

/-- Go `service.GetGithubOrganizationsFromApprovalList` (lines 207-258).  The result is the
pair `([]models.GithubOrg, error)`, a nil slice being the empty list. -/
def GetGithubOrganizationsFromApprovalList (env : Env) (h : Trace) (signatureID : String)
    (githubAccessToken : String) : Res (List GithubOrg × Option Err) :=
  if signatureID == "" then
    ⟨Outcome.ret ([], some (errorsNew
      "unable to get GitHub organizations approval list - signature ID is nil")), h⟩
  else
    let r := env.RepoGetGithubOrganizationsFromApprovalList h signatureID
    let h1 := h ++ [Call.RepoGetGithubOrganizationsFromApprovalList signatureID]
    match r.2 with
    | some err => ⟨Outcome.ret ([], some err), h1⟩
    | none =>
      if githubAccessToken != "" then
        match selectedOrgsLoop r.1 [] with
        | Outcome.panic m => ⟨Outcome.panic m, h1⟩
        | Outcome.ret selectedOrgs =>
          let l := env.OrganizationsList h1 githubAccessToken 100
          let h2 := h1 ++ [Call.OrganizationsList githubAccessToken 100]
          match l.2 with
          | some err => ⟨Outcome.ret ([], some err), h2⟩
          | none =>
            match appendOrgsLoop selectedOrgs l.1 r.1 with
            | Outcome.panic m => ⟨Outcome.panic m, h2⟩
            | Outcome.ret orgIds => ⟨Outcome.ret (orgIds, none), h2⟩
      else ⟨Outcome.ret (r.1, none), h1⟩

/-- The organizations of the authenticated user that the approval list `listed` does not hold:
those whose login is not the ID of an organization of `listed`, in listing order, each as an
organization of an approval list. -/
def missingOrgs (listed : List GithubOrg) (orgs : List GhOrganization) : List GithubOrg :=
  (orgs.filter (fun org => decide (org.Login ∉ listed.map GithubOrg.ID))).map
    (fun org => { ID := org.Login })

/-- An approval list of the examples that holds `org1`, and a GitHub client that lists `org1`,
`org2` and `org3` for the authenticated user. -/
def envApprovalListOrg1 : Env :=
  { idleEnv with
    RepoGetGithubOrganizationsFromApprovalList := fun _ _ => ([{ ID := some "org1" }], none)
    OrganizationsList := fun _ _ _ =>
      ([{ Login := some "org1" }, { Login := some "org2" }, { Login := some "org3" }], none) }

/-- A corporate signature of the examples whose only approval entry is the email `A@x.com`,
written with an upper-case letter. -/
def upperCaseSig : Signature :=
  { mkSignature "ccla6" [aliceUser] false with EmailApprovalList := ["A@x.com"] }

/-- Whether the email is `local@host` where `local` contains no newline and `p` holds of
`host`. -/
def hostIs (p : List Char → Bool) : List Char → Bool
  | [] => false
  | c :: cs => (c == '@' && p cs) || (c != '\n' && hostIs p cs)

/-! ## Theorems -/

/-- C1: when the corporate signature is found and the acting user is not in its ACL,
`UpdateApprovalList` returns no signature and a Forbidden error, and the only call it makes is
the lookup of the signature: the approval-list update of the repository is not invoked, and no
user record and no employee signature is created. -/
theorem UpdateApprovalList_not_in_acl_forbidden (env : Env) (h : Trace) (authUser : AuthUser)
    (claGroupModel : ClaGroup) (companyModel : Company) (claGroupID : String)
    (params : ApprovalList) (sig : Signature)
    (hfound : env.GetProjectCompanySignature h companyModel.CompanyID claGroupID (some true)
      (some true) none (some 1) = (some sig, none))
    (hacl : env.CurrentUserInACL authUser sig.SignatureACL = false) :
    (∃ e : Err, e.cls = ErrClass.forbidden ∧
      (UpdateApprovalList env h authUser claGroupModel companyModel claGroupID params).out =
        Outcome.ret (none, some e)) ∧
    (UpdateApprovalList env h authUser claGroupModel companyModel claGroupID params).trace =
      h ++ [lookupCall companyModel claGroupID] ∧
    (∀ c ∈ ((UpdateApprovalList env h authUser claGroupModel companyModel claGroupID
      params).trace.drop h.length), c.isMutation = false) := by
  have key : UpdateApprovalList env h authUser claGroupModel companyModel claGroupID params =
      ⟨Outcome.ret (none, some (NewForbiddenError
        (forbiddenMsg authUser companyModel claGroupModel))), h ++ [lookupCall companyModel claGroupID]⟩ := by
    simp [UpdateApprovalList, hfound, hacl, lookupCall]
  rw [key]
  refine ⟨⟨_, rfl, rfl⟩, rfl, ?_⟩
  intro c hc
  simp [lookupCall] at hc
  subst hc
  rfl

/-- C1, at a concrete request: the signature of `c1` on `g1` is managed by `bob` only. -/
theorem UpdateApprovalList_not_in_acl_forbidden_witness :
    (∃ e : Err, e.cls = ErrClass.forbidden ∧
      (UpdateApprovalList envManagedByBob [] alice groupOne acme "g1" emptyApprovalList).out =
        Outcome.ret (none, some e)) ∧
    (UpdateApprovalList envManagedByBob [] alice groupOne acme "g1" emptyApprovalList).trace =
      [] ++ [lookupCall acme "g1"] ∧
    (∀ c ∈ ((UpdateApprovalList envManagedByBob [] alice groupOne acme "g1"
      emptyApprovalList).trace.drop ([] : Trace).length), c.isMutation = false) :=
  UpdateApprovalList_not_in_acl_forbidden envManagedByBob [] alice groupOne acme "g1"
    emptyApprovalList (mkSignature "s1" [mkUser "u2" "bob" "bob@co.com"] false) rfl rfl

/-- C2, amended: when the lookup returns no signature (with or without an error of its own),
`UpdateApprovalList` returns no signature and a BadRequest error, and the only call it makes
is the lookup: the approval list is not updated. -/
theorem UpdateApprovalList_no_signature_bad_request (env : Env) (h : Trace) (authUser : AuthUser)
    (claGroupModel : ClaGroup) (companyModel : Company) (claGroupID : String)
    (params : ApprovalList)
    (hnone : (env.GetProjectCompanySignature h companyModel.CompanyID claGroupID (some true)
      (some true) none (some 1)).1 = none) :
    (∃ e : Err, e.cls = ErrClass.badRequest ∧
      (UpdateApprovalList env h authUser claGroupModel companyModel claGroupID params).out =
        Outcome.ret (none, some e)) ∧
    (UpdateApprovalList env h authUser claGroupModel companyModel claGroupID params).trace =
      h ++ [lookupCall companyModel claGroupID] ∧
    (∀ c ∈ ((UpdateApprovalList env h authUser claGroupModel companyModel claGroupID
      params).trace.drop h.length), c.isMutation = false) := by
  have key : ∃ e : Err, e.cls = ErrClass.badRequest ∧
      UpdateApprovalList env h authUser claGroupModel companyModel claGroupID params =
        ⟨Outcome.ret (none, some e), h ++ [lookupCall companyModel claGroupID]⟩ := by
    cases herr : (env.GetProjectCompanySignature h companyModel.CompanyID claGroupID (some true)
      (some true) none (some 1)).2 with
    | some sigErr =>
      exact ⟨NewBadRequestError (lookupFailedMsg companyModel claGroupModel claGroupID sigErr),
        rfl, by simp [UpdateApprovalList, herr, lookupCall]⟩
    | none =>
      exact ⟨NewBadRequestError (notLocatedMsg companyModel claGroupID),
        rfl, by simp [UpdateApprovalList, herr, hnone, lookupCall]⟩
  obtain ⟨e, hcls, hrun⟩ := key
  rw [hrun]
  refine ⟨⟨e, hcls, rfl⟩, rfl, ?_⟩
  intro c hc
  simp [lookupCall] at hc
  subst hc
  rfl

/-- C2 amended, at a concrete request: no signature of `c1` exists on `g1`. -/
theorem UpdateApprovalList_no_signature_bad_request_witness :
    (∃ e : Err, e.cls = ErrClass.badRequest ∧
      (UpdateApprovalList envNoSignature [] alice groupOne acme "g1" emptyApprovalList).out =
        Outcome.ret (none, some e)) ∧
    (UpdateApprovalList envNoSignature [] alice groupOne acme "g1" emptyApprovalList).trace =
      [] ++ [lookupCall acme "g1"] ∧
    (∀ c ∈ ((UpdateApprovalList envNoSignature [] alice groupOne acme "g1"
      emptyApprovalList).trace.drop ([] : Trace).length), c.isMutation = false) :=
  UpdateApprovalList_no_signature_bad_request envNoSignature [] alice groupOne acme "g1"
    emptyApprovalList rfl

/-- C2 as stated fails: when no corporate signature exists for company `c1` on CLA group `g1`,
the error `UpdateApprovalList` returns is of class BadRequest, not NotFound. -/
theorem UpdateApprovalList_no_signature_not_NotFound :
    (UpdateApprovalList envNoSignature [] alice groupOne acme "g1" emptyApprovalList).out =
      Outcome.ret (none, some (NewBadRequestError
        "unable to locate signature for company ID: c1 CLA Group ID: g1, type: ccla, signed: true, approved: true")) ∧
    ¬ ∃ e : Err, e.cls = ErrClass.notFound ∧
      (UpdateApprovalList envNoSignature [] alice groupOne acme "g1" emptyApprovalList).out =
        Outcome.ret (none, some e) := by
  have hrun : (UpdateApprovalList envNoSignature [] alice groupOne acme "g1"
      emptyApprovalList).out = Outcome.ret (none, some (NewBadRequestError
        "unable to locate signature for company ID: c1 CLA Group ID: g1, type: ccla, signed: true, approved: true")) := by
    decide
  refine ⟨hrun, ?_⟩
  rintro ⟨e, hcls, he⟩
  rw [hrun] at he
  injection he with he
  injection he with _ he
  injection he with he
  subst he
  exact absurd hcls (by decide)

/-! ### The trace only grows -/

theorem githubOrgLoop_grows (env : Env) (u : String) (orgs : List String) (h : Trace) :
    h <+: (githubOrgLoop env u orgs h).2 := by
  induction orgs generalizing h with
  | nil => simp [githubOrgLoop]
  | cons org rest ih =>
    unfold githubOrgLoop
    dsimp only
    split
    · simp
    · split
      · simp
      · exact (List.prefix_append h _).trans (ih _)

theorem userIsApproved_grows (env : Env) (h : Trace) (user : User) (ccla : Signature) :
    h <+: (userIsApproved env h user ccla).2 := by
  unfold userIsApproved
  dsimp only
  repeat' split
  all_goals first
    | (simp; done)
    | exact githubOrgLoop_grows env _ _ h

theorem GetProjectCompanyEmployeeSignatures_trace (env : Env) (h : Trace)
    (params : EmployeeSignaturesParams) :
    ∃ c, (GetProjectCompanyEmployeeSignatures env h params).2 = h ++ [c] := by
  unfold GetProjectCompanyEmployeeSignatures
  dsimp only
  split <;> exact ⟨_, rfl⟩

theorem hasUserSigned_grows (env : Env) (h : Trace) (user : Option User) (projectID : String) :
    h <+: (hasUserSigned env h user projectID).trace := by
  cases user with
  | none => simp [hasUserSigned]
  | some user =>
    obtain ⟨c, hc⟩ := GetProjectCompanyEmployeeSignatures_trace env
      (h ++ [Call.GetIndividualSignature projectID user.UserID (some true) (some true)])
      { CompanyID := user.CompanyID, ProjectID := projectID, NextKey := none, PageSize := none }
    unfold hasUserSigned
    dsimp only
    rw [hc]
    repeat' split
    all_goals first
      | (simp; done)
      | (refine List.IsPrefix.trans ?_ (userIsApproved_grows env _ user _); simp)

theorem triageLoop_grows (env : Env) (projectID : String) (authors : List UserCommitSummary)
    (h : Trace) (signed unsigned : List UserCommitSummary) :
    h <+: (triageLoop env projectID authors h signed unsigned).trace := by
  induction authors generalizing h signed unsigned with
  | nil => simp [triageLoop]
  | cons a rest ih =>
    unfold triageLoop
    dsimp only
    have hs := fun name => (List.prefix_append h [Call.GetUserByGitHubUsername name]).trans
      (hasUserSigned_grows env (h ++ [Call.GetUserByGitHubUsername name])
        (env.GetUserByGitHubUsername h name).1 projectID)
    repeat' split
    all_goals first
      | (simp; done)
      | exact hs _
      | exact (hs _).trans (ih _ _ _)

theorem updateChangeRequest_grows (env : Env) (h : Trace) (ghOrg : Option GithubOrganization)
    (repositoryID pullRequestID : Int) (projectID : String) :
    h <+: (updateChangeRequest env h ghOrg repositoryID pullRequestID projectID).trace := by
  unfold updateChangeRequest
  dsimp only
  repeat' split
  all_goals first
    | (simp; done)
    | (refine List.IsPrefix.trans ?_ (triageLoop_grows env _ _ _ _ _); simp)

theorem reconcilePullRequest_grows (env : Env) (h : Trace) (emp : User) :
    h <+: (reconcilePullRequest env h emp).trace := by
  unfold reconcilePullRequest
  dsimp only
  repeat' split
  all_goals first
    | (simp; done)
    | (refine List.IsPrefix.trans ?_ (updateChangeRequest_grows env _ _ _ _ _); simp)

theorem resolveEmailUser_grows (env : Env) (companyModel : Company) (h : Trace) (email : String) :
    h <+: (resolveEmailUser env companyModel h email).2 := by
  unfold resolveEmailUser
  dsimp only
  repeat' split
  all_goals simp

theorem resolveGithubUser_grows (env : Env) (companyModel : Company) (h : Trace) (name : String) :
    h <+: (resolveGithubUser env companyModel h name).2 := by
  unfold resolveGithubUser
  dsimp only
  repeat' split
  all_goals simp

theorem autoCreateEmailLoop_grows (env : Env) (companyModel : Company) (claGroupModel : ClaGroup)
    (emails : List String) (h : Trace) (emp : Option User) (created : Bool) :
    h <+: (autoCreateEmailLoop env companyModel claGroupModel emails h emp created).2 := by
  induction emails generalizing h emp created with
  | nil => simp [autoCreateEmailLoop]
  | cons email rest ih =>
    unfold autoCreateEmailLoop
    have h1 := resolveEmailUser_grows env companyModel h email
    split
    · next err t heq => rw [heq] at h1; exact h1
    · next u t heq =>
      rw [heq] at h1
      unfold createEmployeeSignature
      split
      · next e t2 heq2 =>
        injection heq2 with _ heq2
        subst heq2
        exact h1.trans (List.prefix_append _ _)
      · next t2 heq2 =>
        injection heq2 with _ heq2
        subst heq2
        exact (h1.trans (List.prefix_append _ _)).trans (ih _ _ _)

theorem autoCreateGithubLoop_grows (env : Env) (companyModel : Company) (claGroupModel : ClaGroup)
    (names : List String) (h : Trace) (emp : Option User) (created : Bool) :
    h <+: (autoCreateGithubLoop env companyModel claGroupModel names h emp created).2 := by
  induction names generalizing h emp created with
  | nil => simp [autoCreateGithubLoop]
  | cons name rest ih =>
    unfold autoCreateGithubLoop
    have h1 := resolveGithubUser_grows env companyModel h name
    split
    · next err t heq => rw [heq] at h1; exact h1
    · next u t heq =>
      rw [heq] at h1
      unfold createEmployeeSignature
      split
      · next e t2 heq2 =>
        injection heq2 with _ heq2
        subst heq2
        exact h1.trans (List.prefix_append _ _)
      · next t2 heq2 =>
        injection heq2 with _ heq2
        subst heq2
        exact (h1.trans (List.prefix_append _ _)).trans (ih _ _ _)

theorem autoCreateLoops_grows (env : Env) (companyModel : Company) (claGroupModel : ClaGroup)
    (params : ApprovalList) (h : Trace) :
    h <+: (autoCreateLoops env companyModel claGroupModel params h).2 := by
  unfold autoCreateLoops
  have h1 := autoCreateEmailLoop_grows env companyModel claGroupModel
    params.AddEmailApprovalList h none false
  split
  · next err t heq => rw [heq] at h1; exact h1
  · next emp created t heq =>
    rw [heq] at h1
    exact h1.trans (autoCreateGithubLoop_grows env companyModel claGroupModel _ _ _ _)

theorem autoCreateECLA_grows (env : Env) (h : Trace) (companyModel : Company)
    (claGroupModel : ClaGroup) (params : ApprovalList) :
    h <+: (autoCreateECLA env h companyModel claGroupModel params).trace := by
  unfold autoCreateECLA
  have h1 := autoCreateLoops_grows env companyModel claGroupModel params h
  split
  · next err t heq => rw [heq] at h1; exact h1
  · next emp created t heq =>
    rw [heq] at h1
    dsimp only
    repeat' split
    all_goals first
      | exact h1
      | exact h1.trans (reconcilePullRequest_grows env _ _)

theorem sendManagerEmails_grows (env : Env) (companyModel : Company) (claGroupModel : ClaGroup)
    (params : ApprovalList) (managers : List User) (h : Trace) :
    h <+: sendManagerEmails env companyModel claGroupModel params managers h := by
  induction managers generalizing h with
  | nil => simp [sendManagerEmails]
  | cons m rest ih =>
    unfold sendManagerEmails
    exact (List.prefix_append h _).trans (ih _)

/-! ### `UpdateApprovalList` after the repository update -/

theorem UpdateApprovalList_committed (env : Env) (h : Trace) (authUser : AuthUser)
    (claGroupModel : ClaGroup) (companyModel : Company) (claGroupID : String)
    (params : ApprovalList) (sig : Signature) (userModel : User) (updatedSig : Option Signature)
    (hc : UpdateCommitted env h authUser claGroupModel companyModel claGroupID params sig
      userModel updatedSig) :
    UpdateApprovalList env h authUser claGroupModel companyModel claGroupID params =
      if sig.AutoCreateECLA then
        match (autoCreateECLA env (traceAtAutoCreate env h authUser claGroupModel companyModel
            claGroupID params sig.SignatureACL userModel) companyModel claGroupModel params).out with
        | Outcome.panic m => ⟨Outcome.panic m, (autoCreateECLA env (traceAtAutoCreate env h authUser
            claGroupModel companyModel claGroupID params sig.SignatureACL userModel) companyModel
            claGroupModel params).trace⟩
        | Outcome.ret (some err) => ⟨Outcome.ret (none, err), (autoCreateECLA env (traceAtAutoCreate
            env h authUser claGroupModel companyModel claGroupID params sig.SignatureACL userModel)
            companyModel claGroupModel params).trace⟩
        | Outcome.ret none => ⟨Outcome.ret (updatedSig, none), (autoCreateECLA env (traceAtAutoCreate
            env h authUser claGroupModel companyModel claGroupID params sig.SignatureACL userModel)
            companyModel claGroupModel params).trace⟩
      else ⟨Outcome.ret (updatedSig, none), traceAtAutoCreate env h authUser claGroupModel
        companyModel claGroupID params sig.SignatureACL userModel⟩ := by
  obtain ⟨h1, h2, h3, h4⟩ := hc
  simp only [lookupCall] at h3 h4
  unfold UpdateApprovalList
  simp only [h1, h2, h3, h4, traceAtAutoCreate, lookupCall, Bool.not_true, Bool.false_eq_true,
    if_false]

theorem reconcilePullRequest_fails (env : Env) (h : Trace) (emp : User) (err : Err)
    (hf : ReconcileFails env h emp err) :
    (reconcilePullRequest env h emp).out = Outcome.ret (some err) := by
  unfold reconcilePullRequest
  rcases hf with h1 | ⟨md, h1, hf⟩
  · simp only [h1]
  · rcases hf with h2 | ⟨repo, h2, hf⟩
    · simp only [h1, h2]
    · rcases hf with ⟨h3, rfl⟩ | ⟨h3, hf⟩
      · simp only [h1, h2, h3]
        rfl
      · rcases hf with h4 | ⟨org, h4, hf⟩
        · simp only [h1, h2, h3, h4]
          rfl
        · rcases hf with h5 | ⟨rid, h5, hf⟩
          · simp only [h1, h2, h3, h4, h5]
            rfl
          · rcases hf with h6 | ⟨pid, h6, h7⟩
            · simp only [h1, h2, h3, h4, h5, h6]
              rfl
            · simp only [h1, h2, h3, h4, h5, h6]
              exact h7

/-- C3, amended: once the approval-list update of the repository has succeeded and the
auto-create loops have created an employee signature, a failure of the pull-request
reconciliation (metadata lookup, repository lookup, repository not enabled, organization
lookup, non-numeric repository or pull-request ID, `updateChangeRequest`) is surfaced: the call
returns no signature and the error of the failure.  The update call stays in the trace. -/
theorem UpdateApprovalList_reconcile_failure_surfaced (env : Env) (h : Trace)
    (authUser : AuthUser) (claGroupModel : ClaGroup) (companyModel : Company)
    (claGroupID : String) (params : ApprovalList) (sig : Signature) (userModel : User)
    (updatedSig : Option Signature) (emp : User) (hk : Trace) (err : Err)
    (hc : UpdateCommitted env h authUser claGroupModel companyModel claGroupID params sig
      userModel updatedSig)
    (hauto : sig.AutoCreateECLA = true)
    (hloops : autoCreateLoops env companyModel claGroupModel params
      (traceAtAutoCreate env h authUser claGroupModel companyModel claGroupID params
        sig.SignatureACL userModel) = (LoopEnd.done (some emp) true, hk))
    (hfail : ReconcileFails env hk emp err) :
    (UpdateApprovalList env h authUser claGroupModel companyModel claGroupID params).out =
      Outcome.ret (none, some err) ∧
    Call.RepoUpdateApprovalList userModel claGroupModel companyModel.CompanyID params ∈
      (UpdateApprovalList env h authUser claGroupModel companyModel claGroupID params).trace := by
  have hrec := reconcilePullRequest_fails env hk emp err hfail
  have hpre := autoCreateECLA_grows env (traceAtAutoCreate env h authUser claGroupModel
    companyModel claGroupID params sig.SignatureACL userModel) companyModel claGroupModel params
  have hmem : Call.RepoUpdateApprovalList userModel claGroupModel companyModel.CompanyID params ∈
      traceAtAutoCreate env h authUser claGroupModel companyModel claGroupID params
        sig.SignatureACL userModel := by
    unfold traceAtAutoCreate
    refine List.mem_append_left _ ?_
    exact (sendManagerEmails_grows env companyModel claGroupModel params _ _).subset (by simp)
  have hauto2 : autoCreateECLA env (traceAtAutoCreate env h authUser claGroupModel companyModel
      claGroupID params sig.SignatureACL userModel) companyModel claGroupModel params =
      ⟨Outcome.ret (some (some err)), (reconcilePullRequest env hk emp).trace⟩ := by
    unfold autoCreateECLA
    simp only [hloops, hrec]
  rw [UpdateApprovalList_committed env h authUser claGroupModel companyModel claGroupID params
    sig userModel updatedSig hc, if_pos hauto]
  rw [hauto2] at hpre ⊢
  exact ⟨rfl, hpre.subset hmem⟩

/-- C3 amended, at a concrete request: `new@co.com` is added, its user and employee signature
are created, and the lookup of the active-signature metadata fails. -/
theorem UpdateApprovalList_reconcile_failure_surfaced_witness :
    (UpdateApprovalList envMetadataFails [] alice groupOne acme "g1" addNewEmail).out =
      Outcome.ret (none, some (errorsNew "no active signature")) ∧
    Call.RepoUpdateApprovalList aliceUser groupOne acme.CompanyID addNewEmail ∈
      (UpdateApprovalList envMetadataFails [] alice groupOne acme "g1" addNewEmail).trace :=
  UpdateApprovalList_reconcile_failure_surfaced envMetadataFails [] alice groupOne acme "g1"
    addNewEmail sigAuto aliceUser (some sigAuto) (createdUser "" "new@co.com" "c1")
    (autoCreateLoops envMetadataFails acme groupOne addNewEmail
      (traceAtAutoCreate envMetadataFails [] alice groupOne acme "g1" addNewEmail
        sigAuto.SignatureACL aliceUser)).2
    (errorsNew "no active signature")
    ⟨rfl, rfl, rfl, rfl⟩ rfl (by decide) (Or.inl rfl)

/-- C3 as stated fails: the update of the repository succeeds and returns the signature `s1`,
the lookup of the active-signature metadata fails, and `UpdateApprovalList` returns no
signature and that error instead of the updated signature and no error. -/
theorem UpdateApprovalList_reconcile_failure_not_swallowed :
    Call.RepoUpdateApprovalList aliceUser groupOne "c1" addNewEmail ∈
      (UpdateApprovalList envMetadataFails [] alice groupOne acme "g1" addNewEmail).trace ∧
    envMetadataFails.RepoUpdateApprovalList
      [lookupCall acme "g1", Call.GetUserByUserName "alice" true]
      aliceUser groupOne "c1" addNewEmail = (some sigAuto, none) ∧
    (UpdateApprovalList envMetadataFails [] alice groupOne acme "g1" addNewEmail).out =
      Outcome.ret (none, some (errorsNew "no active signature")) ∧
    (UpdateApprovalList envMetadataFails [] alice groupOne acme "g1" addNewEmail).out ≠
      Outcome.ret (some sigAuto, none) := by
  decide

/-- C4, the code at the failing inputs: the approval list is updated, the added email
`new@co.com` (resp. the added GitHub username `octo`) has no user record, the creation of the
user returns no user and no error (resp. the GitHub user details come without an ID and
without an error), and `UpdateApprovalList` returns no signature and a nil error. -/
theorem UpdateApprovalList_user_not_created_nil_error :
    (UpdateApprovalList envCreatesNothing [] alice groupOne acme "g1" addNewEmail).out =
      Outcome.ret (none, none) ∧
    (UpdateApprovalList envNoGithubID [] alice groupOne acme "g1" addOcto).out =
      Outcome.ret (none, none) := by
  decide

/-! ### The loop over the added emails -/

theorem autoCreateEmailLoop_append (env : Env) (companyModel : Company) (claGroupModel : ClaGroup)
    (xs ys : List String) (h : Trace) (emp : Option User) (created : Bool) :
    autoCreateEmailLoop env companyModel claGroupModel (xs ++ ys) h emp created =
      match autoCreateEmailLoop env companyModel claGroupModel xs h emp created with
      | (LoopEnd.abort err, t) => (LoopEnd.abort err, t)
      | (LoopEnd.done emp1 created1, t) =>
        autoCreateEmailLoop env companyModel claGroupModel ys t emp1 created1 := by
  induction xs generalizing h emp created with
  | nil => simp [autoCreateEmailLoop]
  | cons x rest ih =>
    simp only [List.cons_append, autoCreateEmailLoop]
    split
    · rfl
    · split
      · rfl
      · exact ih _ _ _

theorem autoCreateEmailLoop_new_email (env : Env) (companyModel : Company)
    (claGroupModel : ClaGroup) (email : String) (rest : List String) (pre : Trace)
    (emp0 : Option User) (created0 : Bool) (emp : Option User) (created : Bool) (hk : Trace)
    (hloop : autoCreateEmailLoop env companyModel claGroupModel (email :: rest) pre emp0 created0 =
      (LoopEnd.done emp created, hk))
    (hnorec : (env.GetUserByEmail pre email).2 ≠ none ∨ (env.GetUserByEmail pre email).1 = none) :
    ∃ u : User,
      env.createUserModel (pre ++ [Call.GetUserByEmail email]) "" "" "" "" email
        companyModel.CompanyID autoCreateNote = (some u, none) ∧
      env.CreateProjectCompanyEmployeeSignature
        (pre ++ [Call.GetUserByEmail email] ++
          [Call.createUserModel "" "" "" "" email companyModel.CompanyID autoCreateNote])
        companyModel claGroupModel u = none ∧
      autoCreateEmailLoop env companyModel claGroupModel rest
        (pre ++ newEmailTurn companyModel claGroupModel email u) (some u) true =
        (LoopEnd.done emp created, hk) := by
  rcases hlk : env.GetUserByEmail pre email with ⟨lu, le⟩
  rcases hcr : env.createUserModel (pre ++ [Call.GetUserByEmail email]) "" "" "" "" email
    companyModel.CompanyID autoCreateNote with ⟨cu, ce⟩
  have hno : ¬ (le = none ∧ ∃ u0, lu = some u0) := by
    rintro ⟨rfl, u0, rfl⟩
    simp [hlk] at hnorec
  have hstep : ∃ u, cu = some u ∧ ce = none ∧
      resolveEmailUser env companyModel pre email =
        (Resolved.user u, pre ++ [Call.GetUserByEmail email] ++
          [Call.createUserModel "" "" "" "" email companyModel.CompanyID autoCreateNote]) := by
    unfold autoCreateEmailLoop at hloop
    unfold resolveEmailUser at hloop ⊢
    simp only [hlk, hcr] at hloop ⊢
    cases le with
    | some e =>
      cases ce with
      | some e2 => cases lu <;> cases cu <;> simp at hloop
      | none =>
        cases cu with
        | none => cases lu <;> simp at hloop
        | some u => cases lu <;> exact ⟨u, rfl, rfl, rfl⟩
    | none =>
      cases lu with
      | some u0 => exact absurd ⟨rfl, u0, rfl⟩ hno
      | none =>
        cases ce with
        | some e2 => cases cu <;> simp at hloop
        | none =>
          cases cu with
          | none => simp at hloop
          | some u => exact ⟨u, rfl, rfl, rfl⟩
  obtain ⟨u, rfl, rfl, hres⟩ := hstep
  refine ⟨u, rfl, ?_⟩
  unfold autoCreateEmailLoop at hloop
  rw [hres] at hloop
  simp only [createEmployeeSignature] at hloop
  cases hsig : env.CreateProjectCompanyEmployeeSignature
    (pre ++ [Call.GetUserByEmail email] ++
      [Call.createUserModel "" "" "" "" email companyModel.CompanyID autoCreateNote])
    companyModel claGroupModel u with
  | some e =>
    simp only [hsig] at hloop
    simp at hloop
  | none =>
    refine ⟨rfl, ?_⟩
    simp only [hsig] at hloop
    simpa [newEmailTurn, List.append_assoc] using hloop

theorem autoCreateECLA_loops_grows (env : Env) (h : Trace) (companyModel : Company)
    (claGroupModel : ClaGroup) (params : ApprovalList) :
    (autoCreateLoops env companyModel claGroupModel params h).2 <+:
      (autoCreateECLA env h companyModel claGroupModel params).trace := by
  unfold autoCreateECLA
  split
  · next err t heq => rw [heq]
  · next emp created t heq =>
    rw [heq]
    dsimp only
    repeat' split
    all_goals first
      | exact List.prefix_refl _
      | exact reconcilePullRequest_grows env _ _

theorem UpdateApprovalList_committed_trace (env : Env) (h : Trace) (authUser : AuthUser)
    (claGroupModel : ClaGroup) (companyModel : Company) (claGroupID : String)
    (params : ApprovalList) (sig : Signature) (userModel : User) (updatedSig : Option Signature)
    (hc : UpdateCommitted env h authUser claGroupModel companyModel claGroupID params sig
      userModel updatedSig)
    (hauto : sig.AutoCreateECLA = true) :
    (UpdateApprovalList env h authUser claGroupModel companyModel claGroupID params).trace =
      (autoCreateECLA env (traceAtAutoCreate env h authUser claGroupModel companyModel
        claGroupID params sig.SignatureACL userModel) companyModel claGroupModel params).trace := by
  rw [UpdateApprovalList_committed env h authUser claGroupModel companyModel claGroupID params
    sig userModel updatedSig hc, if_pos hauto]
  split <;> rfl

/-- C5, amended: after a successful approval-list update with auto-create ECLA enabled, if the
loop over `AddEmailApprovalList` runs to its end (no creation fails), then for every
occurrence of an email that has no user record when it is looked up, the turn of that email
consists of exactly the lookup, one creation of a user for that email with the company's ID,
and one creation of the employee signature record of the user so created: the trace of the loop
is the trace of the emails before it, these three calls, and the trace of the emails after
it. -/
theorem UpdateApprovalList_autoCreate_new_email (env : Env) (h : Trace) (authUser : AuthUser)
    (claGroupModel : ClaGroup) (companyModel : Company) (claGroupID : String)
    (params : ApprovalList) (sig : Signature) (userModel : User) (updatedSig : Option Signature)
    (before after : List String) (email : String) (emp : Option User) (created : Bool)
    (hk : Trace)
    (hc : UpdateCommitted env h authUser claGroupModel companyModel claGroupID params sig
      userModel updatedSig)
    (hauto : sig.AutoCreateECLA = true)
    (hsplit : params.AddEmailApprovalList = before ++ email :: after)
    (hloop : autoCreateEmailLoop env companyModel claGroupModel params.AddEmailApprovalList
      (traceAtAutoCreate env h authUser claGroupModel companyModel claGroupID params
        sig.SignatureACL userModel) none false = (LoopEnd.done emp created, hk))
    (hnorec : (env.GetUserByEmail
        (autoCreateEmailLoop env companyModel claGroupModel before
          (traceAtAutoCreate env h authUser claGroupModel companyModel claGroupID params
            sig.SignatureACL userModel) none false).2 email).2 ≠ none ∨
      (env.GetUserByEmail
        (autoCreateEmailLoop env companyModel claGroupModel before
          (traceAtAutoCreate env h authUser claGroupModel companyModel claGroupID params
            sig.SignatureACL userModel) none false).2 email).1 = none) :
    ∃ u : User,
      env.createUserModel
        ((autoCreateEmailLoop env companyModel claGroupModel before
          (traceAtAutoCreate env h authUser claGroupModel companyModel claGroupID params
            sig.SignatureACL userModel) none false).2 ++ [Call.GetUserByEmail email])
        "" "" "" "" email companyModel.CompanyID autoCreateNote = (some u, none) ∧
      hk = (autoCreateEmailLoop env companyModel claGroupModel after
        ((autoCreateEmailLoop env companyModel claGroupModel before
          (traceAtAutoCreate env h authUser claGroupModel companyModel claGroupID params
            sig.SignatureACL userModel) none false).2 ++
          newEmailTurn companyModel claGroupModel email u) (some u) true).2 ∧
      ((autoCreateEmailLoop env companyModel claGroupModel before
          (traceAtAutoCreate env h authUser claGroupModel companyModel claGroupID params
            sig.SignatureACL userModel) none false).2 ++
        newEmailTurn companyModel claGroupModel email u) <+: hk ∧
      hk <+: (UpdateApprovalList env h authUser claGroupModel companyModel claGroupID
        params).trace := by
  have hfinal : hk <+: (UpdateApprovalList env h authUser claGroupModel companyModel claGroupID
      params).trace := by
    rw [UpdateApprovalList_committed_trace env h authUser claGroupModel companyModel claGroupID
      params sig userModel updatedSig hc hauto]
    refine List.IsPrefix.trans ?_ (autoCreateECLA_loops_grows env _ companyModel claGroupModel
      params)
    unfold autoCreateLoops
    rw [hloop]
    exact autoCreateGithubLoop_grows env companyModel claGroupModel _ hk emp created
  rw [hsplit, autoCreateEmailLoop_append] at hloop
  generalize traceAtAutoCreate env h authUser claGroupModel companyModel claGroupID params
    sig.SignatureACL userModel = T at hloop hnorec ⊢
  rcases hb : autoCreateEmailLoop env companyModel claGroupModel before T none false with
    ⟨e1, pre⟩
  rw [hb] at hloop hnorec
  cases e1 with
  | abort err => simp at hloop
  | done emp1 created1 =>
    simp only at hloop hnorec ⊢
    obtain ⟨u, hcreate, _, hrest⟩ := autoCreateEmailLoop_new_email env companyModel
      claGroupModel email after pre emp1 created1 emp created hk hloop hnorec
    refine ⟨u, hcreate, ?_, ?_, hfinal⟩
    · rw [hrest]
    · have := autoCreateEmailLoop_grows env companyModel claGroupModel after
        (pre ++ newEmailTurn companyModel claGroupModel email u) (some u) true
      rw [hrest] at this
      exact this

/-- C5 amended, at the request that adds `new@co.com`, an email without a user record: the
user is created, then the employee signature record of that user. -/
theorem UpdateApprovalList_autoCreate_new_email_witness :
    ∃ u : User,
      envReconciles.createUserModel
        ((autoCreateEmailLoop envReconciles acme groupOne []
          (traceAtAutoCreate envReconciles [] alice groupOne acme "g1" addNewEmail
            sigAuto.SignatureACL aliceUser) none false).2 ++ [Call.GetUserByEmail "new@co.com"])
        "" "" "" "" "new@co.com" acme.CompanyID autoCreateNote = (some u, none) ∧
      (traceAtAutoCreate envReconciles [] alice groupOne acme "g1" addNewEmail
          sigAuto.SignatureACL aliceUser ++
        newEmailTurn acme groupOne "new@co.com" (createdUser "" "new@co.com" "c1")) =
        (autoCreateEmailLoop envReconciles acme groupOne []
        ((autoCreateEmailLoop envReconciles acme groupOne []
          (traceAtAutoCreate envReconciles [] alice groupOne acme "g1" addNewEmail
            sigAuto.SignatureACL aliceUser) none false).2 ++
          newEmailTurn acme groupOne "new@co.com" u) (some u) true).2 ∧
      ((autoCreateEmailLoop envReconciles acme groupOne []
          (traceAtAutoCreate envReconciles [] alice groupOne acme "g1" addNewEmail
            sigAuto.SignatureACL aliceUser) none false).2 ++
        newEmailTurn acme groupOne "new@co.com" u) <+:
        (traceAtAutoCreate envReconciles [] alice groupOne acme "g1" addNewEmail
          sigAuto.SignatureACL aliceUser ++
        newEmailTurn acme groupOne "new@co.com" (createdUser "" "new@co.com" "c1")) ∧
      (traceAtAutoCreate envReconciles [] alice groupOne acme "g1" addNewEmail
          sigAuto.SignatureACL aliceUser ++
        newEmailTurn acme groupOne "new@co.com" (createdUser "" "new@co.com" "c1")) <+:
        (UpdateApprovalList envReconciles [] alice groupOne acme "g1" addNewEmail).trace :=
  UpdateApprovalList_autoCreate_new_email envReconciles [] alice groupOne acme "g1" addNewEmail
    sigAuto aliceUser (some sigAuto) [] [] "new@co.com" (some (createdUser "" "new@co.com" "c1"))
    true
    (traceAtAutoCreate envReconciles [] alice groupOne acme "g1" addNewEmail
      sigAuto.SignatureACL aliceUser ++
      newEmailTurn acme groupOne "new@co.com" (createdUser "" "new@co.com" "c1"))
    ⟨rfl, rfl, rfl, rfl⟩ rfl rfl (by decide) (by decide)

/-- C5 as stated fails: `new@co.com` is added and has no user record, the creation of its user
record fails, and the update (which went through) is followed by no creation of an employee
signature record; the call returns the error of the creation. -/
theorem UpdateApprovalList_autoCreate_creation_fails :
    Call.RepoUpdateApprovalList aliceUser groupOne "c1" addNewEmail ∈
      (UpdateApprovalList envCreateFails [] alice groupOne acme "g1" addNewEmail).trace ∧
    (∀ t : Trace, envCreateFails.GetUserByEmail t "new@co.com" = (none, none)) ∧
    ((UpdateApprovalList envCreateFails [] alice groupOne acme "g1" addNewEmail).trace.filter
      Call.isCreateEmployeeSignature).length = 0 ∧
    (UpdateApprovalList envCreateFails [] alice groupOne acme "g1" addNewEmail).out =
      Outcome.ret (none, some (errorsNew "user store unavailable")) := by
  exact ⟨by decide, fun _ => rfl, by decide, by decide⟩

/-! ### `hasUserSigned` -/

/-- C6, amended: when an approved, signed individual signature exists, `hasUserSigned` returns
true with no error (a) if the user has no company affiliation, and (c) if the user has one and
the query of the employee signatures answers a non-empty page and neither the query, nor the
lookup of the corporate signature, nor the approval check returns an error; (b) whenever it
returns without an error the result is true; (d) an error of the query of the employee
signatures is returned to the caller. -/
theorem hasUserSigned_individual_signature (env : Env) (h : Trace) (user : User)
    (projectID : String) (s : Signature)
    (hsig : env.GetIndividualSignature h projectID user.UserID (some true) (some true) =
      (some s, none)) :
    (user.CompanyID = "" →
      (hasUserSigned env h (some user) projectID).out = Outcome.ret (some true, none)) ∧
    (∀ b : Option Bool, (hasUserSigned env h (some user) projectID).out = Outcome.ret (b, none) →
      b = some true) ∧
    (∀ (page : Signatures) (first : Option Signature) (rest : List (Option Signature)),
      user.CompanyID ≠ "" →
      env.RepoGetProjectCompanyEmployeeSignatures (traceAfterIndividual h user projectID)
        (employeeQuery user projectID) = (some page, none) →
      page.Signatures = first :: rest →
      (env.GetCorporateSignature
        (traceAfterIndividual h user projectID ++
          [Call.RepoGetProjectCompanyEmployeeSignatures (employeeQuery user projectID)])
        projectID user.CompanyID (some true) (some true)).2 = none →
      (∀ ccla : Signature,
        (env.GetCorporateSignature
          (traceAfterIndividual h user projectID ++
            [Call.RepoGetProjectCompanyEmployeeSignatures (employeeQuery user projectID)])
          projectID user.CompanyID (some true) (some true)).1 = some ccla →
        (userIsApproved env (traceAfterCorporate h user projectID) user ccla).1.2 = none) →
      (hasUserSigned env h (some user) projectID).out = Outcome.ret (some true, none)) ∧
    (∀ e : Err, user.CompanyID ≠ "" →
      (env.RepoGetProjectCompanyEmployeeSignatures (traceAfterIndividual h user projectID)
        (employeeQuery user projectID)).2 = some e →
      (hasUserSigned env h (some user) projectID).out = Outcome.ret (none, some e)) := by
  refine ⟨?_, ?_, ?_, ?_⟩
  · intro hco
    simp [hasUserSigned, hsig, hco]
  · intro b hb
    unfold hasUserSigned at hb
    simp only [hsig, Option.isSome_some] at hb
    repeat' split at hb
    all_goals first
      | (simp at hb; done)
      | (injection hb with hb; injection hb with hb _; exact hb.symm)
  · intro page first rest hco hq hpage hcorp happ
    unfold hasUserSigned
    simp only [GetProjectCompanyEmployeeSignatures, traceAfterIndividual, employeeQuery,
      traceAfterCorporate] at *
    simp only [hsig, hco, hq, hpage, Option.isSome_some, ne_eq, not_false_eq_true, if_true]
    cases first with
    | none => rfl
    | some es =>
      simp only [hcorp]
      cases hc : (env.GetCorporateSignature
        (h ++ [Call.GetIndividualSignature projectID user.UserID (some true) (some true)] ++
          [Call.RepoGetProjectCompanyEmployeeSignatures
            { CompanyID := user.CompanyID, ProjectID := projectID, NextKey := none,
              PageSize := some 10 }])
        projectID user.CompanyID (some true) (some true)).1 with
      | none => rfl
      | some ccla =>
        simp only [happ ccla hc]
        split <;> rfl
  · intro e hco hq
    unfold hasUserSigned
    simp only [GetProjectCompanyEmployeeSignatures, traceAfterIndividual, employeeQuery] at *
    simp only [hsig, hco, hq, ne_eq, not_false_eq_true, if_true]

/-- C6 amended, at concrete users who have an individual signature: `carol` of company `c1`,
with an employee acknowledgement and a corporate signature that approves her email, is
reported as signed; so is `alice`, who has no company affiliation; and when the query of the
employee signatures of `carol` fails, its error is returned. -/
theorem hasUserSigned_individual_signature_witness :
    envIndividualAndCorporate.GetIndividualSignature [] "g1" carol.UserID (some true)
      (some true) = (some iclaSig, none) ∧
    (hasUserSigned envIndividualAndCorporate [] (some carol) "g1").out =
      Outcome.ret (some true, none) ∧
    (hasUserSigned envIndividualAndCorporate [] (some aliceUser) "g1").out =
      Outcome.ret (some true, none) ∧
    (hasUserSigned envEmployeeQueryFails [] (some carol) "g1").out =
      Outcome.ret (none, some (errorsNew "query failed")) :=
  ⟨rfl,
    (hasUserSigned_individual_signature envIndividualAndCorporate [] carol "g1" iclaSig rfl).2.2.1
      { Signatures := [some eclaSig] } (some eclaSig) [] (by decide) rfl rfl rfl
      (fun ccla hccla => by
        have hc : ccla = cclaSig := by
          injection hccla with hccla
          exact hccla.symm
        subst hc
        decide),
    (hasUserSigned_individual_signature envIndividualAndCorporate [] aliceUser "g1" iclaSig
      rfl).1 rfl,
    (hasUserSigned_individual_signature envEmployeeQueryFails [] carol "g1" iclaSig rfl).2.2.2
      (errorsNew "query failed") (by decide) rfl⟩

/-- C6 as stated fails: `carol` has an approved, signed individual signature and the company
affiliation `c1`; the query of the employee signatures fails, and `hasUserSigned` returns that
error and no result instead of true. -/
theorem hasUserSigned_individual_signature_query_error :
    envEmployeeQueryFails.GetIndividualSignature [] "g1" carol.UserID (some true) (some true) =
      (some iclaSig, none) ∧
    (hasUserSigned envEmployeeQueryFails [] (some carol) "g1").out =
      Outcome.ret (none, some (errorsNew "query failed")) ∧
    (hasUserSigned envEmployeeQueryFails [] (some carol) "g1").out ≠
      Outcome.ret (some true, none) := by
  decide

/-- C7, the code at the failing input: `carol` has no individual signature, the company
affiliation `c1`, an employee acknowledgement, and a corporate signature whose email approval
list approves her (`userIsApproved` is true); `hasUserSigned` panics with a nil dereference,
at the read of `signature.SignatureID` of line 886. -/
theorem hasUserSigned_corporate_path_panics :
    envCorporateOnly.GetIndividualSignature [] "g1" carol.UserID (some true) (some true) =
      (none, none) ∧
    (userIsApproved envCorporateOnly (traceAfterCorporate [] carol "g1") carol cclaSig).1 =
      (true, none) ∧
    (hasUserSigned envCorporateOnly [] (some carol) "g1").out = Outcome.panic nilDeref := by
  decide

/-- C8, the code at the failing input: `carol` has the company affiliation `c1` and the query
of the employee signatures succeeds with an empty page; `hasUserSigned` panics with an index
out of range, at `ecla.Signatures[0]` of line 869. -/
theorem hasUserSigned_empty_page_panics :
    envNoEmployeeSignature.RepoGetProjectCompanyEmployeeSignatures
      (traceAfterIndividual [] carol "g1") (employeeQuery carol "g1") =
      (some { Signatures := [] }, none) ∧
    (hasUserSigned envNoEmployeeSignature [] (some carol) "g1").out =
      Outcome.panic indexOutOfRange := by
  decide

/-! ### `userIsApproved`: the email list -/

theorem contains_iff (items : List String) (val : String) :
    contains items val = true ↔ val ∈ items := by
  induction items with
  | nil => simp [contains]
  | cons item rest ih =>
    unfold contains
    by_cases hv : val = item
    · simp [hv]
    · simp [hv, ih]

theorem emailListLoop_iff (lib : GoLib) (whitelist emails : List String) :
    emailListLoop lib whitelist emails = true ↔
      ∃ email ∈ emails, stringsToLower lib (stringsTrimSpace email) ∈ whitelist := by
  induction emails with
  | nil => simp [emailListLoop]
  | cons email rest ih =>
    unfold emailListLoop
    by_cases hc : contains whitelist (stringsToLower lib (stringsTrimSpace email)) = true
    · have := (contains_iff _ _).1 hc
      simp [hc, this]
    · have hn : ¬ stringsToLower lib (stringsTrimSpace email) ∈ whitelist :=
        fun hm => hc ((contains_iff _ _).2 hm)
      simp [hc, hn, ih]

/-- C9, amended: `userIsApproved` folds the case of the user's emails, not of the entries.  For
a corporate signature whose only approval entries are emails, the user is approved exactly
when one of the user's emails (the LF email included), trimmed and lower-cased, is an entry
of the email approval list character for character; no error is returned and no collaborator
is called. -/
theorem userIsApproved_email_list_lowered (env : Env) (h : Trace) (user : User)
    (cclaSignature : Signature)
    (hdom : cclaSignature.DomainApprovalList = [])
    (horg : cclaSignature.GithubOrgApprovalList = []) :
    ((userIsApproved env h user cclaSignature).1.1 = true ↔
      ∃ email ∈ user.Emails ++ [user.LfEmail],
        stringsToLower env.lib (stringsTrimSpace email) ∈ cclaSignature.EmailApprovalList) ∧
    (userIsApproved env h user cclaSignature).1.2 = none ∧
    (userIsApproved env h user cclaSignature).2 = h := by
  have hloop := emailListLoop_iff env.lib cclaSignature.EmailApprovalList
    (user.Emails ++ [user.LfEmail])
  by_cases hm : emailListLoop env.lib cclaSignature.EmailApprovalList
      (user.Emails ++ [user.LfEmail]) = true
  · have hpos : 0 < cclaSignature.EmailApprovalList.length := by
      obtain ⟨email, _, hmem⟩ := hloop.1 hm
      exact List.length_pos_of_mem hmem
    have hrun : userIsApproved env h user cclaSignature = ((true, none), h) := by
      unfold userIsApproved
      simp [hm, hpos]
    rw [hrun]
    exact ⟨⟨fun _ => hloop.1 hm, fun _ => rfl⟩, rfl, rfl⟩
  · have hrun : userIsApproved env h user cclaSignature = ((false, none), h) := by
      unfold userIsApproved
      simp [hm, hdom, horg, githubOrgLoop]
    rw [hrun]
    refine ⟨⟨fun hf => by simp at hf, fun hex => absurd (hloop.2 hex) hm⟩, rfl, rfl⟩

/-- C9 amended, at the input of the claim: the entry `a@x.com` approves the user whose email
is `A@x.com`. -/
theorem userIsApproved_email_list_lowered_witness :
    ((userIsApproved idleEnv [] upperCaseUser cclaSig).1.1 = true ↔
      ∃ email ∈ upperCaseUser.Emails ++ [upperCaseUser.LfEmail],
        stringsToLower idleEnv.lib (stringsTrimSpace email) ∈ cclaSig.EmailApprovalList) ∧
    (userIsApproved idleEnv [] upperCaseUser cclaSig).1.2 = none ∧
    (userIsApproved idleEnv [] upperCaseUser cclaSig).2 = [] :=
  userIsApproved_email_list_lowered idleEnv [] upperCaseUser cclaSig rfl rfl

/-- C9 as stated fails at its own input: with the email approval list `a@x.com`, empty domain
and GitHub organization lists, and the user emails `A@x.com`, `userIsApproved` returns true. -/
theorem userIsApproved_upper_case_email_matched :
    cclaSig.EmailApprovalList = ["a@x.com"] ∧ cclaSig.DomainApprovalList = [] ∧
    cclaSig.GithubOrgApprovalList = [] ∧ upperCaseUser.Emails = ["A@x.com"] ∧
    userIsApproved idleEnv [] upperCaseUser cclaSig = ((true, none), []) := by
  decide

/-! ### Regular expressions: parsing a sequence of tokens -/

theorem parseStep_plain (st : ParseState) (c : Char) (hc : repOf c = none) :
    parseStep st c =
      Except.ok { stack := { atom := atomOf c, rep := Rep.one } :: st.stack,
                  last := LastRepeat.none } := by
  simp [parseStep, hc]

theorem parseStep_star (stack : List Piece) (p : Piece) :
    parseStep { stack := p :: stack, last := LastRepeat.none } '*' =
      Except.ok { stack := { p with rep := Rep.star } :: stack, last := LastRepeat.op } := by
  have h : repOf '*' = some Rep.star := by decide
  simp [parseStep, h]

theorem parseFrom_tokens (toks : List Token) (hplain : ∀ t ∈ toks, repOf t.1 = none)
    (st : ParseState) :
    ∃ l, parseFrom st (renderTokens toks) =
      Except.ok { stack := (toks.map pieceOfToken).reverse ++ st.stack, last := l } := by
  induction toks generalizing st with
  | nil => exact ⟨st.last, by simp [renderTokens, parseFrom]⟩
  | cons t rest ih =>
    obtain ⟨c, starred⟩ := t
    have hc : repOf c = none := hplain (c, starred) (List.mem_cons_self _ _)
    have hrest : ∀ t ∈ rest, repOf t.1 = none := fun t ht => hplain t (List.mem_cons_of_mem _ ht)
    cases starred with
    | false =>
      obtain ⟨l, hl⟩ := ih hrest
        { stack := { atom := atomOf c, rep := Rep.one } :: st.stack, last := LastRepeat.none }
      refine ⟨l, ?_⟩
      simp only [renderTokens, parseFrom, parseStep_plain st c hc, hl]
      simp [pieceOfToken]
    | true =>
      obtain ⟨l, hl⟩ := ih hrest
        { stack := { atom := atomOf c, rep := Rep.star } :: st.stack, last := LastRepeat.op }
      refine ⟨l, ?_⟩
      simp only [renderTokens, parseFrom, parseStep_plain st c hc, parseStep_star, hl]
      simp [pieceOfToken]

theorem parsePieces_tokens (toks : List Token) (hplain : ∀ t ∈ toks, repOf t.1 = none) :
    parsePieces (renderTokens toks) = Except.ok (toks.map pieceOfToken) := by
  obtain ⟨l, hl⟩ := parseFrom_tokens toks hplain { stack := [], last := LastRepeat.none }
  simp [parsePieces, hl]

theorem renderTokens_append (xs ys : List Token) :
    renderTokens (xs ++ ys) = renderTokens xs ++ renderTokens ys := by
  induction xs with
  | nil => rfl
  | cons t rest ih =>
    obtain ⟨c, starred⟩ := t
    cases starred <;> simp [renderTokens, ih]

theorem renderTokens_plain (cs : List Char) :
    renderTokens (cs.map (fun c => (c, false))) = cs := by
  induction cs with
  | nil => rfl
  | cons c rest ih => simp [renderTokens, ih]

/-! ### Regular expressions: matching -/

theorem starLoop_zero (f : Char → Bool) (k : Bool → List Char → Bool) (atStart : Bool)
    (s : List Char) (hk : k atStart s = true) : starLoop f k atStart s = true := by
  cases s with
  | nil => simpa [starLoop] using hk
  | cons c cs => simp [starLoop, hk]

theorem starLoop_append (f : Char → Bool) (k : Bool → List Char → Bool) (xs ys : List Char)
    (atStart : Bool) (hxs : ∀ c ∈ xs, f c = true)
    (hk : k (atStart && xs.isEmpty) ys = true) : starLoop f k atStart (xs ++ ys) = true := by
  induction xs generalizing atStart with
  | nil =>
    apply starLoop_zero
    simpa using hk
  | cons c cs ih =>
    have hc : f c = true := hxs c (List.mem_cons_self _ _)
    have hcs : ∀ x ∈ cs, f x = true := fun x hx => hxs x (List.mem_cons_of_mem _ hx)
    have hk2 : k (false && cs.isEmpty) ys = true := by simpa using hk
    simp [starLoop, hc, ih false hcs hk2]

theorem searchFrom_of_matchHere (ps : List Piece) (atStart : Bool) (s : List Char)
    (hm : matchHere ps atStart s = true) : searchFrom ps atStart s = true := by
  cases s with
  | nil => simpa [searchFrom] using hm
  | cons c cs => simp [searchFrom, hm]

/-! ### Domain names as expressions -/

theorem isDomainChar_ne (c x : Char) (hc : isDomainChar c = true) (hx : isDomainChar x = false) :
    c ≠ x := by
  intro h
  rw [h, hx] at hc
  exact Bool.false_ne_true hc

theorem repOf_domainChar (c : Char) (hc : isDomainChar c = true) : repOf c = none := by
  have h1 := isDomainChar_ne c '*' hc (by decide)
  have h2 := isDomainChar_ne c '+' hc (by decide)
  have h3 := isDomainChar_ne c '?' hc (by decide)
  simp [repOf, h1, h2, h3]

theorem isExtMeta_domainChar (c : Char) (hc : isDomainChar c = true) : isExtMeta c = false := by
  have h1 := isDomainChar_ne c '\\' hc (by decide)
  have h2 := isDomainChar_ne c '(' hc (by decide)
  have h3 := isDomainChar_ne c ')' hc (by decide)
  have h4 := isDomainChar_ne c '[' hc (by decide)
  have h5 := isDomainChar_ne c '{' hc (by decide)
  have h6 := isDomainChar_ne c '|' hc (by decide)
  simp [isExtMeta, h1, h2, h3, h4, h5, h6]

theorem atomOf_domainChar (c : Char) (hc : isDomainChar c = true) (hdot : c ≠ '.') :
    atomOf c = Atom.lit c := by
  have h1 := isDomainChar_ne c '^' hc (by decide)
  have h2 := isDomainChar_ne c '$' hc (by decide)
  simp [atomOf, hdot, h1, h2]

theorem matchHere_domain (starDots : Bool) (d : List Char)
    (hd : ∀ c ∈ d, isDomainChar c = true) (atStart : Bool) :
    matchHere (d.map (fun c => pieceOfToken (c, starDots && c == '.')) ++
      [{ atom := Atom.endText, rep := Rep.one }]) atStart d = true := by
  induction d generalizing atStart with
  | nil => simp [matchHere, Atom.isAssertion, Atom.holds]
  | cons c rest ih =>
    have hrest : ∀ x ∈ rest, isDomainChar x = true := fun x hx => hd x (List.mem_cons_of_mem _ hx)
    have hc : isDomainChar c = true := hd c (List.mem_cons_self _ _)
    by_cases hdot : c = '.'
    · subst hdot
      have hat : atomOf '.' = Atom.anyNotNL := by decide
      cases starDots with
      | false =>
        simp [matchHere, pieceOfToken, hat, Atom.isAssertion, Atom.accepts]
        simpa using ih hrest false
      | true =>
        simp only [List.map_cons, List.cons_append, matchHere, pieceOfToken, hat,
          Atom.isAssertion, Bool.true_and, beq_self_eq_true, if_true, Bool.false_eq_true,
          if_false, starLoop]
        have := starLoop_zero Atom.anyNotNL.accepts
          (matchHere (rest.map (fun c => pieceOfToken (c, true && c == '.')) ++
            [{ atom := Atom.endText, rep := Rep.one }])) false rest (ih hrest false)
        simp [pieceOfToken] at this
        simp [this, Atom.accepts]
    · have hat := atomOf_domainChar c hc hdot
      have hb : (c == '.') = false := by simpa using hdot
      simp only [List.map_cons, List.cons_append, matchHere, pieceOfToken, hat, hb,
        Bool.and_false, Atom.isAssertion, Bool.false_eq_true, if_false, Atom.accepts,
        beq_self_eq_true, Bool.true_and]
      have := ih hrest false
      simpa [pieceOfToken] using this

/-- The pieces of `^.*@.*`, then pieces that match `suffix` up to the end of the text, match
an email whose host ends in `suffix`. -/
theorem matchHere_email (dp : List Piece) (localPart hostHead suffix : List Char)
    (hl : ∀ c ∈ localPart, c ≠ '\n') (hh : ∀ c ∈ hostHead, c ≠ '\n')
    (hsuf : ∀ atStart, matchHere (dp ++ [{ atom := Atom.endText, rep := Rep.one }]) atStart
      suffix = true) :
    matchHere
      ({ atom := Atom.beginText, rep := Rep.one } :: { atom := Atom.anyNotNL, rep := Rep.star } ::
        { atom := Atom.lit '@', rep := Rep.one } :: { atom := Atom.anyNotNL, rep := Rep.star } ::
        (dp ++ [{ atom := Atom.endText, rep := Rep.one }]))
      true (localPart ++ '@' :: (hostHead ++ suffix)) = true := by
  have hacc : ∀ xs : List Char, (∀ c ∈ xs, c ≠ '\n') →
      ∀ c ∈ xs, Atom.anyNotNL.accepts c = true := by
    intro xs hxs c hc
    simp [Atom.accepts, hxs c hc]
  have hhost : ∀ atStart, matchHere ({ atom := Atom.anyNotNL, rep := Rep.star } ::
      (dp ++ [{ atom := Atom.endText, rep := Rep.one }])) atStart (hostHead ++ suffix) = true := by
    intro atStart
    simp only [matchHere, Atom.isAssertion, Bool.false_eq_true, if_false]
    exact starLoop_append _ _ hostHead suffix atStart (hacc hostHead hh) (hsuf _)
  simp only [matchHere, Atom.isAssertion, if_true, Atom.holds, Bool.true_and, Bool.false_eq_true,
    if_false]
  apply starLoop_append _ _ localPart _ true (hacc localPart hl)
  simp only [matchHere, Atom.isAssertion, Bool.false_eq_true, if_false, Atom.accepts,
    beq_self_eq_true, Bool.true_and]
  have := hhost false
  simpa [matchHere, Atom.isAssertion] using this

/-! ### The rewriting of the three glob patterns -/

theorem replaceScan_absent (o : Char) (os new s : List Char) (hs : ∀ c ∈ s, c ≠ o) :
    replaceScan (o :: os) new 0 s = s := by
  induction s with
  | nil => rfl
  | cons c rest ih =>
    have hc : (c == o) = false := by simpa using hs c (List.mem_cons_self _ _)
    have hrest : ∀ x ∈ rest, x ≠ o := fun x hx => hs x (List.mem_cons_of_mem _ hx)
    simp [replaceScan, hasPrefix, hc, ih hrest]

theorem replaceScan_dot (s : List Char) :
    replaceScan ['.'] ['.', '*'] 0 s = renderTokens (s.map (fun c => (c, true && c == '.'))) := by
  induction s with
  | nil => rfl
  | cons c rest ih =>
    by_cases hdot : c = '.'
    · subst hdot
      simp [replaceScan, hasPrefix, renderTokens, ih]
    · have hb : (c == '.') = false := by simpa using hdot
      simp [replaceScan, hasPrefix, renderTokens, hb, ih]

theorem rewritePattern_star_dot (d : String) (hd : ∀ c ∈ d.data, isDomainChar c = true) :
    (rewritePattern ("*." ++ d)).data = '.' :: '*' :: d.data := by
  have hstar : ∀ c ∈ d.data, c ≠ '*' := fun c hc => isDomainChar_ne c '*' (hd c hc) (by decide)
  have hdata : ("*." ++ d).data = '*' :: '.' :: d.data := by
    rw [String.data_append]
    rfl
  have hpre : stringsHasPrefix ("*." ++ d) "*." = true := by
    simp [stringsHasPrefix, hdata, hasPrefix]
  simp only [rewritePattern, hpre, if_true, stringsReplaceAll, hdata]
  show replaceAll ('*' :: '.' :: d.data) ['*', '.'] ['.', '*'] = _
  simp [replaceAll, replaceScan, hasPrefix, replaceScan_absent '*' ['.'] ['.', '*'] d.data hstar]

theorem rewritePattern_star (d : String) (hd : ∀ c ∈ d.data, isDomainChar c = true) :
    (rewritePattern ("*" ++ d)).data =
      '.' :: '*' :: (if d.data.head? = some '.' then d.data.tail else d.data) := by
  have hstar : ∀ c ∈ d.data, c ≠ '*' := fun c hc => isDomainChar_ne c '*' (hd c hc) (by decide)
  have hdata : ("*" ++ d).data = '*' :: d.data := by
    rw [String.data_append]
    rfl
  cases hdd : d.data with
  | nil =>
    have h1 : stringsHasPrefix ("*" ++ d) "*." = false := by
      simp [stringsHasPrefix, hdata, hdd, hasPrefix]
    have h2 : stringsHasPrefix ("*" ++ d) "*" = true := by
      simp [stringsHasPrefix, hdata, hdd, hasPrefix]
    simp only [rewritePattern, h1, h2, if_true, Bool.false_eq_true, if_false, stringsReplaceAll,
      hdata, hdd]
    show replaceAll ['*'] ['*'] ['.', '*'] = _
    simp [replaceAll, replaceScan, hasPrefix]
  | cons c rest =>
    rw [hdd] at hstar
    have hrest : ∀ x ∈ rest, x ≠ '*' := fun x hx => hstar x (List.mem_cons_of_mem _ hx)
    have hc : c ≠ '*' := hstar c (List.mem_cons_self _ _)
    by_cases hdot : c = '.'
    · subst hdot
      have h1 : stringsHasPrefix ("*" ++ d) "*." = true := by
        simp [stringsHasPrefix, hdata, hdd, hasPrefix]
      simp only [rewritePattern, h1, if_true, stringsReplaceAll, hdata, hdd]
      show replaceAll ('*' :: '.' :: rest) ['*', '.'] ['.', '*'] = _
      simp [replaceAll, replaceScan, hasPrefix, replaceScan_absent '*' ['.'] ['.', '*'] rest hrest]
    · have hb : (c == '.') = false := by simpa using hdot
      have h1 : stringsHasPrefix ("*" ++ d) "*." = false := by
        simp [stringsHasPrefix, hdata, hdd, hasPrefix, hb]
      have h2 : stringsHasPrefix ("*" ++ d) "*" = true := by
        simp [stringsHasPrefix, hdata, hdd, hasPrefix]
      simp only [rewritePattern, h1, h2, if_true, Bool.false_eq_true, if_false,
        stringsReplaceAll, hdata, hdd]
      show replaceAll ('*' :: c :: rest) ['*'] ['.', '*'] = _
      have := replaceScan_absent '*' [] ['.', '*'] rest hrest
      simp [replaceAll, replaceScan, hasPrefix, this, hdot, hc]

theorem rewritePattern_dot (d : String) :
    (rewritePattern ("." ++ d)).data =
      '.' :: '*' :: renderTokens (d.data.map (fun c => (c, true && c == '.'))) := by
  have hdata : ("." ++ d).data = '.' :: d.data := by
    rw [String.data_append]
    rfl
  have h1 : stringsHasPrefix ("." ++ d) "*." = false := by
    simp [stringsHasPrefix, hdata, hasPrefix]
  have h2 : stringsHasPrefix ("." ++ d) "*" = false := by
    simp [stringsHasPrefix, hdata, hasPrefix]
  have h3 : stringsHasPrefix ("." ++ d) "." = true := by
    simp [stringsHasPrefix, hdata, hasPrefix]
  simp only [rewritePattern, h1, h2, h3, if_true, Bool.false_eq_true, if_false,
    stringsReplaceAll, hdata]
  show replaceAll ('.' :: d.data) ['.'] ['.', '*'] = _
  simp [replaceAll, replaceScan, hasPrefix, replaceScan_dot]

/-! ### `processPattern` on one pattern -/

theorem anyEmailMatches_of_mem (lib : GoLib) (compiled : Regexp) (emails : List String)
    (email : String) (hmem : email ∈ emails) (hm : MatchString lib compiled email = true) :
    anyEmailMatches lib compiled emails = true := by
  induction emails with
  | nil => cases hmem
  | cons e rest ih =>
    unfold anyEmailMatches
    rcases List.mem_cons.1 hmem with rfl | hrest
    · simp [hm]
    · simp [ih hrest]

theorem processPattern_domain_core (lib : GoLib) (pattern : String) (starDots : Bool)
    (d : List Char) (hd : ∀ c ∈ d, isDomainChar c = true)
    (hrw : (rewritePattern pattern).data =
      '.' :: '*' :: renderTokens (d.map (fun c => (c, starDots && c == '.'))))
    (email : String) (localPart hostHead : List Char)
    (hemail : email.data = localPart ++ '@' :: (hostHead ++ d))
    (hl : ∀ c ∈ localPart, c ≠ '\n') (hh : ∀ c ∈ hostHead, c ≠ '\n')
    (emails : List String) (hmem : email ∈ emails) :
    processPattern lib emails [pattern] = (some true, none) := by
  have hplain : ∀ t ∈ ([('^', false), ('.', true), ('@', false), ('.', true)] : List Token) ++
      d.map (fun c => (c, starDots && c == '.')) ++ [('$', false)], repOf t.1 = none := by
    intro t ht
    simp only [List.mem_append, List.mem_map, List.mem_cons, List.mem_singleton,
      List.not_mem_nil, or_false] at ht
    rcases ht with ((rfl | rfl | rfl | rfl) | ⟨c, hc, rfl⟩) | rfl
    · decide
    · decide
    · decide
    · decide
    · exact repOf_domainChar c (hd c hc)
    · decide
  have hdataExpr : (preProcessedPattern pattern).data =
      renderTokens (([('^', false), ('.', true), ('@', false), ('.', true)] : List Token) ++
        d.map (fun c => (c, starDots && c == '.')) ++ [('$', false)]) := by
    simp only [preProcessedPattern, String.data_append, hrw, renderTokens_append]
    rfl
  have hnoext : (preProcessedPattern pattern).data.any isExtMeta = false := by
    rw [hdataExpr]
    simp only [renderTokens_append, List.any_append, Bool.or_eq_false_iff]
    refine ⟨⟨by decide, ?_⟩, by decide⟩
    clear hrw hemail hplain hdataExpr
    induction d with
    | nil => rfl
    | cons c rest ih =>
      have hc := isExtMeta_domainChar c (hd c (List.mem_cons_self _ _))
      have hr := ih (fun x hx => hd x (List.mem_cons_of_mem _ hx))
      have hs : isExtMeta '*' = false := by decide
      cases hsd : (starDots && c == '.') <;>
        simp [renderTokens, hsd, hc, hs, hr]
  have hcomp : regexpCompile lib (preProcessedPattern pattern) =
      Except.ok (Regexp.pieces
        ({ atom := Atom.beginText, rep := Rep.one } ::
          { atom := Atom.anyNotNL, rep := Rep.star } ::
          { atom := Atom.lit '@', rep := Rep.one } :: { atom := Atom.anyNotNL, rep := Rep.star } ::
          (d.map (fun c => pieceOfToken (c, starDots && c == '.')) ++
            [{ atom := Atom.endText, rep := Rep.one }]))) := by
    unfold regexpCompile
    rw [hnoext, hdataExpr, parsePieces_tokens _ hplain]
    simp [pieceOfToken, atomOf]
  have hmatch : MatchString lib (Regexp.pieces
        ({ atom := Atom.beginText, rep := Rep.one } ::
          { atom := Atom.anyNotNL, rep := Rep.star } ::
          { atom := Atom.lit '@', rep := Rep.one } :: { atom := Atom.anyNotNL, rep := Rep.star } ::
          (d.map (fun c => pieceOfToken (c, starDots && c == '.')) ++
            [{ atom := Atom.endText, rep := Rep.one }]))) email = true := by
    unfold MatchString
    rw [hemail]
    exact searchFrom_of_matchHere _ _ _
      (matchHere_email _ localPart hostHead d hl hh (matchHere_domain starDots d hd))
  simp only [processPattern, processPatternLoop, hcomp,
    anyEmailMatches_of_mem lib _ emails email hmem hmatch, if_true]

/-- C10: for every domain `d` (letters, digits, hyphens, dots) and every email `local@host`
that contains no newline before the suffix, `processPattern` reports a match (true, no error)
for the pattern `*.d` when the host ends in `.d`, for the pattern `*d` when the host ends in
`d`, and for the pattern `.d` when the host ends in `.d`; the email may stand anywhere in the
list of emails. -/
theorem processPattern_matches_domain_suffix (lib : GoLib) (d localPart hostHead : String)
    (emails : List String)
    (hd : ∀ c ∈ d.data, isDomainChar c = true)
    (hl : ∀ c ∈ localPart.data, c ≠ '\n') (hh : ∀ c ∈ hostHead.data, c ≠ '\n') :
    (localPart ++ "@" ++ hostHead ++ "." ++ d ∈ emails →
      processPattern lib emails ["*." ++ d] = (some true, none)) ∧
    (localPart ++ "@" ++ hostHead ++ d ∈ emails →
      processPattern lib emails ["*" ++ d] = (some true, none)) ∧
    (localPart ++ "@" ++ hostHead ++ "." ++ d ∈ emails →
      processPattern lib emails ["." ++ d] = (some true, none)) := by
  have hat : ("@" : String).data = ['@'] := rfl
  have hdt : ("." : String).data = ['.'] := rfl
  have hhdot : ∀ c ∈ hostHead.data ++ ['.'], c ≠ '\n' := by
    intro c hc
    rcases List.mem_append.1 hc with h1 | h1
    · exact hh c h1
    · simp only [List.mem_singleton] at h1
      subst h1
      decide
  have hplainTokens : ∀ s : List Char,
      renderTokens (s.map (fun c => (c, false && c == '.'))) = s := by
    intro s
    simpa using renderTokens_plain s
  refine ⟨?_, ?_, ?_⟩
  · intro hmem
    refine processPattern_domain_core lib ("*." ++ d) false d.data hd ?_ _ localPart.data
      (hostHead.data ++ ['.']) ?_ hl hhdot emails hmem
    · rw [rewritePattern_star_dot d hd, hplainTokens]
    · simp [String.data_append, hat, hdt]
  · intro hmem
    have hrw := rewritePattern_star d hd
    cases hdd : d.data with
    | nil =>
      refine processPattern_domain_core lib ("*" ++ d) false [] (by simp) ?_ _ localPart.data
        hostHead.data ?_ hl hh emails hmem
      · rw [hrw, hdd]
        rfl
      · simp [String.data_append, hat, hdd]
    | cons c rest =>
      rw [hdd] at hd
      by_cases hdot : c = '.'
      · subst hdot
        refine processPattern_domain_core lib ("*" ++ d) false rest
          (fun x hx => hd x (List.mem_cons_of_mem _ hx)) ?_ _ localPart.data
          (hostHead.data ++ ['.']) ?_ hl hhdot emails hmem
        · rw [hrw, hdd, hplainTokens]
          rfl
        · simp [String.data_append, hat, hdd]
      · refine processPattern_domain_core lib ("*" ++ d) false (c :: rest) hd ?_ _
          localPart.data hostHead.data ?_ hl hh emails hmem
        · rw [hrw, hdd, hplainTokens]
          simp [hdot]
        · simp [String.data_append, hat, hdd]
  · intro hmem
    refine processPattern_domain_core lib ("." ++ d) true d.data hd ?_ _ localPart.data
      (hostHead.data ++ ['.']) ?_ hl hhdot emails hmem
    · rw [rewritePattern_dot d]
    · simp [String.data_append, hat, hdt]

/-- C10, at the domain `example.com`: the email `a@foo.example.com`, whose host ends in
`.example.com`, is matched by `*.example.com` and by `.example.com`, and the email
`a@fooexample.com`, whose host ends in `example.com`, is matched by `*example.com`. -/
theorem processPattern_matches_domain_suffix_witness :
    (∀ c ∈ ("example.com" : String).data, isDomainChar c = true) ∧
    "a" ++ "@" ++ "foo" ++ "." ++ "example.com" = "a@foo.example.com" ∧
    "a" ++ "@" ++ "foo" ++ "example.com" = "a@fooexample.com" ∧
    processPattern idleLib ["a@foo.example.com", "a@fooexample.com"] ["*.example.com"] =
      (some true, none) ∧
    processPattern idleLib ["a@foo.example.com", "a@fooexample.com"] ["*example.com"] =
      (some true, none) ∧
    processPattern idleLib ["a@foo.example.com", "a@fooexample.com"] [".example.com"] =
      (some true, none) :=
  ⟨by decide, by decide, by decide,
    (processPattern_matches_domain_suffix idleLib "example.com" "a" "foo"
      ["a@foo.example.com", "a@fooexample.com"] (by decide) (by decide) (by decide)).1
      (by decide),
    (processPattern_matches_domain_suffix idleLib "example.com" "a" "foo"
      ["a@foo.example.com", "a@fooexample.com"] (by decide) (by decide) (by decide)).2.1
      (by decide),
    (processPattern_matches_domain_suffix idleLib "example.com" "a" "foo"
      ["a@foo.example.com", "a@fooexample.com"] (by decide) (by decide) (by decide)).2.2
      (by decide)⟩

/-! ### `processPattern` on a list of patterns -/

theorem anyEmailMatches_iff (lib : GoLib) (compiled : Regexp) (emails : List String) :
    anyEmailMatches lib compiled emails = true ↔
      ∃ email ∈ emails, MatchString lib compiled email = true := by
  induction emails with
  | nil => simp [anyEmailMatches]
  | cons e rest ih =>
    unfold anyEmailMatches
    by_cases hm : MatchString lib compiled e = true
    · simp [hm]
    · simp [hm, ih]

theorem processPatternLoop_all_compile (lib : GoLib) (emails patterns : List String)
    (matched : Bool) (hall : ∀ p ∈ patterns, patternCompiles lib p = true) :
    ∃ b : Bool, processPatternLoop lib emails patterns matched = (some b, none) ∧
      (b = true ↔ matched = true ∨ ∃ p ∈ patterns, ∃ email ∈ emails,
        patternMatches lib p email = true) := by
  induction patterns generalizing matched with
  | nil => exact ⟨matched, rfl, by simp⟩
  | cons p rest ih =>
    have hp := hall p (List.mem_cons_self _ _)
    have hrest : ∀ q ∈ rest, patternCompiles lib q = true :=
      fun q hq => hall q (List.mem_cons_of_mem _ hq)
    unfold patternCompiles at hp
    cases hc : regexpCompile lib (preProcessedPattern p) with
    | error e => simp [hc] at hp
    | ok compiled =>
      obtain ⟨b, hb, hiff⟩ := ih (if anyEmailMatches lib compiled emails then true else matched)
        hrest
      refine ⟨b, ?_, ?_⟩
      · simp only [processPatternLoop, hc, hb]
      · rw [hiff]
        have hpm : ∀ email, patternMatches lib p email = MatchString lib compiled email := by
          intro email
          simp [patternMatches, hc]
        by_cases ha : anyEmailMatches lib compiled emails = true
        · have hex := (anyEmailMatches_iff lib compiled emails).1 ha
          simp only [ha, if_true, true_or, true_iff]
          obtain ⟨email, hmem, hm⟩ := hex
          exact Or.inr ⟨p, List.mem_cons_self _ _, email, hmem, by rw [hpm]; exact hm⟩
        · have hnex : ¬ ∃ email ∈ emails, patternMatches lib p email = true := by
            rintro ⟨email, hmem, hm⟩
            rw [hpm] at hm
            exact ha ((anyEmailMatches_iff lib compiled emails).2 ⟨email, hmem, hm⟩)
          simp only [ha, Bool.false_eq_true, if_false, List.mem_cons, exists_eq_or_imp]
          constructor
          · rintro (h | h)
            · exact Or.inl h
            · exact Or.inr (Or.inr h)
          · rintro (h | h | h)
            · exact Or.inl h
            · exact absurd h hnex
            · exact Or.inr h

theorem processPatternLoop_compile_error (lib : GoLib) (emails before after : List String)
    (bad : String) (e : Err) (matched : Bool)
    (hbefore : ∀ p ∈ before, patternCompiles lib p = true)
    (hbad : regexpCompile lib (preProcessedPattern bad) = Except.error e) :
    processPatternLoop lib emails (before ++ bad :: after) matched = (none, some e) := by
  induction before generalizing matched with
  | nil => simp [processPatternLoop, hbad]
  | cons p rest ih =>
    have hp := hbefore p (List.mem_cons_self _ _)
    unfold patternCompiles at hp
    cases hc : regexpCompile lib (preProcessedPattern p) with
    | error e2 => simp [hc] at hp
    | ok compiled =>
      simp only [List.cons_append, processPatternLoop, hc]
      exact ih _ (fun q hq => hbefore q (List.mem_cons_of_mem _ hq))

/-- C12, amended: if some email matches the expression derived from a pattern `p` and every
pattern of the list compiles, `processPattern` reports a match (true, no error), whatever the
patterns before and after `p`; but when a later pattern `bad` does not compile,
`processPattern` returns the compile error and no result, although `p` matched. -/
theorem processPattern_match_needs_all_compiled (lib : GoLib) (emails before after : List String)
    (p : String)
    (hall : ∀ q ∈ before ++ p :: after, patternCompiles lib q = true)
    (hm : ∃ email ∈ emails, patternMatches lib p email = true) :
    processPattern lib emails (before ++ p :: after) = (some true, none) ∧
    (∀ (bad : String) (e : Err) (rest : List String),
      regexpCompile lib (preProcessedPattern bad) = Except.error e →
      processPattern lib emails ((before ++ p :: after) ++ bad :: rest) = (none, some e)) := by
  refine ⟨?_, ?_⟩
  · obtain ⟨b, hb, hiff⟩ := processPatternLoop_all_compile lib emails (before ++ p :: after)
      false hall
    have hbt : b = true := hiff.2 (Or.inr ⟨p, by simp, hm⟩)
    rw [processPattern, hb, hbt]
  · intro bad e rest hbad
    exact processPatternLoop_compile_error lib emails (before ++ p :: after) rest bad e false
      hall hbad

/-- C12 amended, at the emails `a@example.com`, the matching pattern `example.com` followed by
`example.org`, and the later pattern `a**`, which does not compile. -/
theorem processPattern_match_needs_all_compiled_witness :
    processPattern idleLib ["a@example.com"] ([] ++ "example.com" :: ["example.org"]) =
      (some true, none) ∧
    processPattern idleLib ["a@example.com"]
      (([] ++ "example.com" :: ["example.org"]) ++ "a**" :: []) =
      (none, some (errorsNew "error parsing regexp: invalid nested repetition operator")) :=
  ⟨(processPattern_match_needs_all_compiled idleLib ["a@example.com"] [] ["example.org"]
      "example.com" (by decide) (by decide)).1,
   (processPattern_match_needs_all_compiled idleLib ["a@example.com"] [] ["example.org"]
      "example.com" (by decide) (by decide)).2 "a**"
      (errorsNew "error parsing regexp: invalid nested repetition operator") [] rfl⟩

/-- C12 as stated fails: the email `a@example.com` matches the expression derived from the
first pattern `example.com` (alone, that pattern gives true), and with the later pattern `a**`,
whose expression does not compile, `processPattern` returns the compile error and no result. -/
theorem processPattern_later_pattern_fails_to_compile :
    processPattern idleLib ["a@example.com"] ["example.com"] = (some true, none) ∧
    patternMatches idleLib "example.com" "a@example.com" = true ∧
    patternCompiles idleLib "a**" = false ∧
    processPattern idleLib ["a@example.com"] ["example.com", "a**"] =
      (none, some (errorsNew "error parsing regexp: invalid nested repetition operator")) := by
  decide

/-! ### The translation of a pattern -/

theorem replaceScan_single (x : Char) (s : List Char) :
    replaceScan [x] ['.', '*'] 0 s = expandChar x s := by
  induction s with
  | nil => rfl
  | cons c rest ih =>
    by_cases hc : c = x
    · subst hc
      simp [replaceScan, hasPrefix, expandChar, ih, List.flatMap_cons] at *
    · have hb : (c == x) = false := by simpa using hc
      simp [replaceScan, hasPrefix, expandChar, hb, hc, List.flatMap_cons] at *
      simpa [expandChar] using ih

theorem expandChar_absent (x : Char) (s : List Char) (hs : ∀ c ∈ s, c ≠ x) :
    expandChar x s = s := by
  induction s with
  | nil => rfl
  | cons c rest ih =>
    have hc : c ≠ x := hs c (List.mem_cons_self _ _)
    have := ih (fun y hy => hs y (List.mem_cons_of_mem _ hy))
    simp [expandChar, List.flatMap_cons, hc] at *
    exact this

theorem rewritePattern_other (pattern : String)
    (hstar : hasPrefix pattern.data ['*'] = false) (hdot : hasPrefix pattern.data ['.'] = false) :
    rewritePattern pattern = pattern := by
  have h1 : stringsHasPrefix pattern "*." = false := by
    unfold stringsHasPrefix
    show hasPrefix pattern.data ['*', '.'] = false
    cases hp : pattern.data with
    | nil => rfl
    | cons c cs =>
      rw [hp] at hstar
      simp [hasPrefix] at hstar
      simp [hasPrefix, hstar]
  have h2 : stringsHasPrefix pattern "*" = false := hstar
  have h3 : stringsHasPrefix pattern "." = false := hdot
  simp [rewritePattern, h1, h2, h3]

/-- C19, amended: the expression derived from a pattern is `^.*@`, the rewritten pattern and
`$`, where the rewriting replaces every occurrence, not only the leading one: every `.` of a
pattern that begins with `.`, every `*` of a pattern that begins with `*` but not with `*.`,
every `*.` of a pattern that begins with `*.`.  The rest of the pattern is unchanged when it
holds no further occurrence, and a pattern that begins with neither `*` nor `.` is taken as it
is. -/
theorem preProcessedPattern_translation (rest : String) :
    (preProcessedPattern ("." ++ rest)).data =
      "^.*@.*".data ++ expandChar '.' rest.data ++ "$".data ∧
    (hasPrefix rest.data ['.'] = false →
      (preProcessedPattern ("*" ++ rest)).data =
        "^.*@.*".data ++ expandChar '*' rest.data ++ "$".data) ∧
    (preProcessedPattern ("*." ++ rest)).data =
      "^.*@.*".data ++ replaceAll rest.data "*.".data ".*".data ++ "$".data ∧
    ((∀ c ∈ rest.data, c ≠ '.') →
      preProcessedPattern ("." ++ rest) = "^.*@.*" ++ rest ++ "$") ∧
    ((∀ c ∈ rest.data, c ≠ '*') → hasPrefix rest.data ['.'] = false →
      preProcessedPattern ("*" ++ rest) = "^.*@.*" ++ rest ++ "$") ∧
    ((∀ c ∈ rest.data, c ≠ '*') →
      preProcessedPattern ("*." ++ rest) = "^.*@.*" ++ rest ++ "$") ∧
    (hasPrefix rest.data ['*'] = false → hasPrefix rest.data ['.'] = false →
      preProcessedPattern rest = "^.*@" ++ rest ++ "$") := by
  have hpre : ("^.*@.*" : String).data = "^.*@".data ++ ['.', '*'] := rfl
  have hdotData : ("." ++ rest).data = '.' :: rest.data := by
    rw [String.data_append]
    rfl
  have hstarData : ("*" ++ rest).data = '*' :: rest.data := by
    rw [String.data_append]
    rfl
  have hstarDotData : ("*." ++ rest).data = '*' :: '.' :: rest.data := by
    rw [String.data_append]
    rfl
  have hdot : (preProcessedPattern ("." ++ rest)).data =
      "^.*@.*".data ++ expandChar '.' rest.data ++ "$".data := by
    have h1 : stringsHasPrefix ("." ++ rest) "*." = false := by
      simp [stringsHasPrefix, hdotData, hasPrefix]
    have h2 : stringsHasPrefix ("." ++ rest) "*" = false := by
      simp [stringsHasPrefix, hdotData, hasPrefix]
    have h3 : stringsHasPrefix ("." ++ rest) "." = true := by
      simp [stringsHasPrefix, hdotData, hasPrefix]
    have hrw : (rewritePattern ("." ++ rest)).data = '.' :: '*' :: expandChar '.' rest.data := by
      simp only [rewritePattern, h1, h2, h3, if_true, Bool.false_eq_true, if_false,
        stringsReplaceAll, hdotData]
      show replaceAll ('.' :: rest.data) ['.'] ['.', '*'] = _
      simp [replaceAll, replaceScan, hasPrefix, replaceScan_single]
    simp [preProcessedPattern, String.data_append, hrw, hpre]
  have hstar : hasPrefix rest.data ['.'] = false →
      (preProcessedPattern ("*" ++ rest)).data =
        "^.*@.*".data ++ expandChar '*' rest.data ++ "$".data := by
    intro hnd
    have h1 : stringsHasPrefix ("*" ++ rest) "*." = false := by
      unfold stringsHasPrefix
      rw [hstarData]
      show hasPrefix ('*' :: rest.data) ['*', '.'] = false
      simpa [hasPrefix] using hnd
    have h2 : stringsHasPrefix ("*" ++ rest) "*" = true := by
      simp [stringsHasPrefix, hstarData, hasPrefix]
    have hrw : (rewritePattern ("*" ++ rest)).data = '.' :: '*' :: expandChar '*' rest.data := by
      simp only [rewritePattern, h1, h2, if_true, Bool.false_eq_true, if_false,
        stringsReplaceAll, hstarData]
      show replaceAll ('*' :: rest.data) ['*'] ['.', '*'] = _
      simp [replaceAll, replaceScan, hasPrefix, replaceScan_single]
    simp [preProcessedPattern, String.data_append, hrw, hpre]
  have hstarDot : (preProcessedPattern ("*." ++ rest)).data =
      "^.*@.*".data ++ replaceAll rest.data "*.".data ".*".data ++ "$".data := by
    have h1 : stringsHasPrefix ("*." ++ rest) "*." = true := by
      simp [stringsHasPrefix, hstarDotData, hasPrefix]
    have hrw : (rewritePattern ("*." ++ rest)).data =
        '.' :: '*' :: replaceAll rest.data ['*', '.'] ['.', '*'] := by
      simp only [rewritePattern, h1, if_true, stringsReplaceAll, hstarDotData]
      show replaceAll ('*' :: '.' :: rest.data) ['*', '.'] ['.', '*'] = _
      simp [replaceAll, replaceScan, hasPrefix]
    have h2 : ("*." : String).data = ['*', '.'] := rfl
    have h3 : (".*" : String).data = ['.', '*'] := rfl
    simp [preProcessedPattern, String.data_append, hrw, hpre, h2, h3]
  refine ⟨hdot, hstar, hstarDot, ?_, ?_, ?_, ?_⟩
  · intro hno
    apply String.ext
    rw [hdot, expandChar_absent '.' rest.data hno]
    simp [String.data_append]
  · intro hno hnd
    apply String.ext
    rw [hstar hnd, expandChar_absent '*' rest.data hno]
    simp [String.data_append]
  · intro hno
    apply String.ext
    rw [hstarDot]
    have : replaceAll rest.data "*.".data ".*".data = rest.data :=
      replaceScan_absent '*' ['.'] ['.', '*'] rest.data hno
    rw [this]
    simp [String.data_append]
  · intro hs hd
    rw [preProcessedPattern, rewritePattern_other rest hs hd]

/-- C19 amended, at the patterns `.example.com`, `*.example.com`, `*example.com` and
`example.com`. -/
theorem preProcessedPattern_translation_witness :
    preProcessedPattern ".example.com" = "^.*@.*example.*com$" ∧
    preProcessedPattern "*.example.com" = "^.*@.*example.com$" ∧
    preProcessedPattern "*example.com" = "^.*@.*example.com$" ∧
    preProcessedPattern "example.com" = "^.*@example.com$" ∧
    preProcessedPattern "*.a*.b" = "^.*@.*a.*b$" ∧
    preProcessedPattern "*a*b" = "^.*@.*a.*b$" :=
  ⟨String.ext ((preProcessedPattern_translation "example.com").1.trans (by decide)),
   (preProcessedPattern_translation "example.com").2.2.2.2.2.1 (by decide),
   (preProcessedPattern_translation "example.com").2.2.2.2.1 (by decide) (by decide),
   (preProcessedPattern_translation "example.com").2.2.2.2.2.2 (by decide) (by decide),
   String.ext ((preProcessedPattern_translation "a*.b").2.2.1.trans (by decide)),
   String.ext (((preProcessedPattern_translation "a*b").2.1 (by decide)).trans (by decide))⟩

/-- C19 as stated fails at its own example: the pattern `.example.com` yields
`^.*@.*example.*com$`, in which the inner dot was translated too, and not
`^.*@.*example.com$`. -/
theorem preProcessedPattern_inner_dot_translated :
    preProcessedPattern ".example.com" = "^.*@.*example.*com$" ∧
    preProcessedPattern ".example.com" ≠ "^.*@.*example.com$" := by
  decide

/-! ### What the expression of a domain pattern accepts -/

theorem starLoop_eq_skipRun (p : List Char → Bool) (atStart : Bool) (s : List Char) :
    starLoop Atom.anyNotNL.accepts (fun _ t => p t) atStart s = skipRun p s := by
  induction s generalizing atStart with
  | nil => rfl
  | cons x rest ih => simp [starLoop, skipRun, Atom.accepts, ih]

theorem domainPieces_nil (starDots : Bool) :
    domainPieces starDots [] = [{ atom := Atom.endText, rep := Rep.one }] := rfl

theorem domainPieces_cons (starDots : Bool) (c : Char) (d : List Char) :
    domainPieces starDots (c :: d) =
      { atom := atomOf c, rep := if (starDots && c == '.') = true then Rep.star else Rep.one } ::
        domainPieces starDots d := rfl

theorem matchHere_domainPieces (starDots : Bool) (d : List Char)
    (hd : ∀ c ∈ d, isDomainChar c = true) (atStart : Bool) (s : List Char) :
    matchHere (domainPieces starDots d) atStart s =
      if starDots then wildRuns d s else wildOne d s := by
  induction d generalizing atStart s with
  | nil =>
    rw [domainPieces_nil]
    cases starDots <;> cases s <;> simp [matchHere, Atom.isAssertion, Atom.holds, wildOne, wildRuns]
  | cons c rest ih =>
    have hrest : ∀ x ∈ rest, isDomainChar x = true := fun x hx => hd x (List.mem_cons_of_mem _ hx)
    have hc : isDomainChar c = true := hd c (List.mem_cons_self _ _)
    rw [domainPieces_cons]
    by_cases hdot : c = '.'
    · subst hdot
      have hat : atomOf '.' = Atom.anyNotNL := by decide
      cases starDots with
      | false =>
        cases s with
        | nil => simp [matchHere, hat, Atom.isAssertion, wildOne]
        | cons x s' =>
          have := ih hrest false s'
          simp only [Bool.false_eq_true, if_false] at this
          simp [matchHere, hat, Atom.isAssertion, Atom.accepts, wildOne, this]
      | true =>
        have hk : matchHere (domainPieces true rest) = fun _ t => wildRuns rest t := by
          funext st t
          simpa using ih hrest st t
        simp only [matchHere, hat, Atom.isAssertion, Bool.true_and, beq_self_eq_true, if_true,
          Bool.false_eq_true, if_false]
        rw [hk, starLoop_eq_skipRun]
        simp [wildRuns]
    · have hat := atomOf_domainChar c hc hdot
      have hb : (c == '.') = false := by simpa using hdot
      cases s with
      | nil =>
        cases starDots <;>
          simp [matchHere, hat, hb, Atom.isAssertion, wildOne, wildRuns, hdot]
      | cons x s' =>
        have := ih hrest false s'
        have hxc : (c == x) = (x == c) := by
          by_cases h : c = x
          · simp [h]
          · have h2 : ¬ x = c := fun h3 => h h3.symm
            simp [h, h2]
        cases starDots <;>
          simp [matchHere, hat, hb, Atom.isAssertion, Atom.accepts, wildOne, wildRuns, hdot,
            hxc] at this ⊢ <;>
          simp [this]

theorem matchHere_email_eq (dp : List Piece) (p : List Char → Bool)
    (hdp : ∀ atStart s, matchHere dp atStart s = p s) (email : List Char) :
    matchHere
      ({ atom := Atom.beginText, rep := Rep.one } :: { atom := Atom.anyNotNL, rep := Rep.star } ::
        { atom := Atom.lit '@', rep := Rep.one } :: { atom := Atom.anyNotNL, rep := Rep.star } ::
        dp) true email = hostEndsWith p email := by
  have hk : matchHere dp = fun _ t => p t := by
    funext st t
    exact hdp st t
  have hhost : ∀ atStart s, matchHere ({ atom := Atom.anyNotNL, rep := Rep.star } :: dp) atStart s =
      skipRun p s := by
    intro atStart s
    simp only [matchHere, Atom.isAssertion, Bool.false_eq_true, if_false]
    rw [hk, starLoop_eq_skipRun]
  have hloop : ∀ atStart s, starLoop Atom.anyNotNL.accepts
      (matchHere ({ atom := Atom.lit '@', rep := Rep.one } ::
        { atom := Atom.anyNotNL, rep := Rep.star } :: dp)) atStart s = hostEndsWith p s := by
    intro atStart s
    induction s generalizing atStart with
    | nil => simp [starLoop, matchHere, Atom.isAssertion, hostEndsWith]
    | cons c cs ih =>
      have h1 : matchHere ({ atom := Atom.lit '@', rep := Rep.one } ::
          { atom := Atom.anyNotNL, rep := Rep.star } :: dp) atStart (c :: cs) =
          (c == '@' && skipRun p cs) := by
        have hxc : ('@' == c) = (c == '@') := by
          by_cases h : c = '@'
          · simp [h]
          · have h2 : ¬ '@' = c := fun h3 => h h3.symm
            simp [h, h2]
        have := hhost false cs
        simp only [matchHere, Atom.isAssertion, Bool.false_eq_true, if_false] at this
        simp only [matchHere, Atom.isAssertion, Bool.false_eq_true, if_false, Atom.accepts, hxc,
          this]
      rw [starLoop, h1, ih false]
      simp [hostEndsWith, Atom.accepts]
  simp only [matchHere, Atom.isAssertion, if_true, Atom.holds, Bool.true_and,
    Bool.false_eq_true, if_false]
  exact hloop true email

theorem searchFrom_beginText (ps : List Piece) (s : List Char) :
    searchFrom ({ atom := Atom.beginText, rep := Rep.one } :: ps) false s = false := by
  induction s with
  | nil => simp [searchFrom, matchHere, Atom.isAssertion, Atom.holds]
  | cons c cs ih => simp [searchFrom, matchHere, Atom.isAssertion, Atom.holds, ih]

theorem searchFrom_anchored (ps : List Piece) (s : List Char) :
    searchFrom ({ atom := Atom.beginText, rep := Rep.one } :: ps) true s =
      matchHere ({ atom := Atom.beginText, rep := Rep.one } :: ps) true s := by
  cases s with
  | nil => rfl
  | cons c cs => simp [searchFrom, searchFrom_beginText]

theorem anyEmailMatches_eq_any (lib : GoLib) (compiled : Regexp) (emails : List String) :
    anyEmailMatches lib compiled emails = emails.any (fun e => MatchString lib compiled e) := by
  induction emails with
  | nil => rfl
  | cons e rest ih =>
    unfold anyEmailMatches
    by_cases hm : MatchString lib compiled e = true
    · simp [hm]
    · simp [hm, ih]

theorem regexpCompile_domain (lib : GoLib) (pattern : String) (starDots : Bool)
    (d : List Char) (hd : ∀ c ∈ d, isDomainChar c = true)
    (hrw : (rewritePattern pattern).data =
      '.' :: '*' :: renderTokens (d.map (fun c => (c, starDots && c == '.')))) :
    regexpCompile lib (preProcessedPattern pattern) =
      Except.ok (Regexp.pieces
        ({ atom := Atom.beginText, rep := Rep.one } ::
          { atom := Atom.anyNotNL, rep := Rep.star } ::
          { atom := Atom.lit '@', rep := Rep.one } :: { atom := Atom.anyNotNL, rep := Rep.star } ::
          domainPieces starDots d)) := by
  have hplain : ∀ t ∈ ([('^', false), ('.', true), ('@', false), ('.', true)] : List Token) ++
      d.map (fun c => (c, starDots && c == '.')) ++ [('$', false)], repOf t.1 = none := by
    intro t ht
    simp only [List.mem_append, List.mem_map, List.mem_cons, List.mem_singleton,
      List.not_mem_nil, or_false] at ht
    rcases ht with ((rfl | rfl | rfl | rfl) | ⟨c, hc, rfl⟩) | rfl
    · decide
    · decide
    · decide
    · decide
    · exact repOf_domainChar c (hd c hc)
    · decide
  have hdataExpr : (preProcessedPattern pattern).data =
      renderTokens (([('^', false), ('.', true), ('@', false), ('.', true)] : List Token) ++
        d.map (fun c => (c, starDots && c == '.')) ++ [('$', false)]) := by
    simp only [preProcessedPattern, String.data_append, hrw, renderTokens_append]
    rfl
  have hnoext : (preProcessedPattern pattern).data.any isExtMeta = false := by
    rw [hdataExpr]
    simp only [renderTokens_append, List.any_append, Bool.or_eq_false_iff]
    refine ⟨⟨by decide, ?_⟩, by decide⟩
    clear hrw hplain hdataExpr
    induction d with
    | nil => rfl
    | cons c rest ih =>
      have hc := isExtMeta_domainChar c (hd c (List.mem_cons_self _ _))
      have hr := ih (fun x hx => hd x (List.mem_cons_of_mem _ hx))
      have hs : isExtMeta '*' = false := by decide
      cases hsd : (starDots && c == '.') <;>
        simp [renderTokens, hsd, hc, hs, hr]
  unfold regexpCompile
  rw [hnoext, hdataExpr, parsePieces_tokens _ hplain]
  simp [pieceOfToken, atomOf, domainPieces]

theorem processPattern_domain_exact (lib : GoLib) (pattern : String) (starDots : Bool)
    (d : List Char) (hd : ∀ c ∈ d, isDomainChar c = true)
    (hrw : (rewritePattern pattern).data =
      '.' :: '*' :: renderTokens (d.map (fun c => (c, starDots && c == '.'))))
    (emails : List String) :
    processPattern lib emails [pattern] =
      (some (emails.any (fun e =>
        hostEndsWith (if starDots then wildRuns d else wildOne d) e.data)), none) := by
  have hcomp := regexpCompile_domain lib pattern starDots d hd hrw
  have hmatch : ∀ e : String, MatchString lib (Regexp.pieces
        ({ atom := Atom.beginText, rep := Rep.one } ::
          { atom := Atom.anyNotNL, rep := Rep.star } ::
          { atom := Atom.lit '@', rep := Rep.one } :: { atom := Atom.anyNotNL, rep := Rep.star } ::
          domainPieces starDots d)) e =
      hostEndsWith (if starDots then wildRuns d else wildOne d) e.data := by
    intro e
    show searchFrom _ true e.data = _
    rw [searchFrom_anchored]
    apply matchHere_email_eq
    intro atStart s
    rw [matchHere_domainPieces starDots d hd atStart s]
    cases starDots <;> rfl
  simp only [processPattern, processPatternLoop, hcomp, anyEmailMatches_eq_any, hmatch]
  cases emails.any (fun e => hostEndsWith (if starDots then wildRuns d else wildOne d) e.data) <;>
    rfl

/-- C11, amended: for every domain `d` (letters, digits, hyphens, dots) the expressions derived
from `*.d`, `*d` and `.d` read the dots of `d` as wildcards, and the dot of `*.d` is not
required.  `processPattern` reports a match exactly when some email is `local@host` (no
newline in `local` and in the head of `host`) where `host` ends in a text that agrees with `d`
outside the dots of `d`, a dot standing for any one character for `*.d` and `*d`, and for any
run of characters for `.d`; every other email is rejected. -/
theorem processPattern_rejects_outside_wildcards (lib : GoLib) (d : String)
    (emails : List String)
    (hd : ∀ c ∈ d.data, isDomainChar c = true)
    (hnd : hasPrefix d.data ['.'] = false) :
    processPattern lib emails ["*." ++ d] =
      (some (emails.any (fun e => hostEndsWith (wildOne d.data) e.data)), none) ∧
    processPattern lib emails ["*" ++ d] =
      (some (emails.any (fun e => hostEndsWith (wildOne d.data) e.data)), none) ∧
    processPattern lib emails ["." ++ d] =
      (some (emails.any (fun e => hostEndsWith (wildRuns d.data) e.data)), none) := by
  have hplainTokens : ∀ s : List Char,
      renderTokens (s.map (fun c => (c, false && c == '.'))) = s := by
    intro s
    simpa using renderTokens_plain s
  have hhead : d.data.head? ≠ some '.' := by
    cases hdd : d.data with
    | nil => simp
    | cons c rest =>
      rw [hdd] at hnd
      simp [hasPrefix] at hnd
      simpa using hnd
  refine ⟨?_, ?_, ?_⟩
  · have := processPattern_domain_exact lib ("*." ++ d) false d.data hd
      (by rw [rewritePattern_star_dot d hd, hplainTokens]) emails
    simpa using this
  · have := processPattern_domain_exact lib ("*" ++ d) false d.data hd
      (by rw [rewritePattern_star d hd, hplainTokens, if_neg hhead]) emails
    simpa using this
  · have := processPattern_domain_exact lib ("." ++ d) true d.data hd
      (by rw [rewritePattern_dot d]) emails
    simpa using this

/-- C11 amended, at the domain `example.com`: `a@example.org` is rejected by the three
patterns, and `a@exampleXcom` is not. -/
theorem processPattern_rejects_outside_wildcards_witness :
    processPattern idleLib ["a@example.org"] ["*." ++ "example.com"] = (some false, none) ∧
    processPattern idleLib ["a@example.org"] ["*" ++ "example.com"] = (some false, none) ∧
    processPattern idleLib ["a@example.org"] ["." ++ "example.com"] = (some false, none) ∧
    processPattern idleLib ["a@exampleXcom"] ["*." ++ "example.com"] = (some true, none) :=
  ⟨(processPattern_rejects_outside_wildcards idleLib "example.com" ["a@example.org"]
      (by decide) (by decide)).1.trans (by decide),
   (processPattern_rejects_outside_wildcards idleLib "example.com" ["a@example.org"]
      (by decide) (by decide)).2.1.trans (by decide),
   (processPattern_rejects_outside_wildcards idleLib "example.com" ["a@example.org"]
      (by decide) (by decide)).2.2.trans (by decide),
   (processPattern_rejects_outside_wildcards idleLib "example.com" ["a@exampleXcom"]
      (by decide) (by decide)).1.trans (by decide)⟩

/-- C11 as stated fails at its own examples: the hosts of `a@exampleXcom` and
`a@badexample.com` do not end in `.example.com`, and the host of `a@example.evil-com` does
not either, yet `*.example.com` matches the first two and `.example.com` the third. -/
theorem processPattern_accepts_other_domains :
    ¬ (".example.com".data <:+ "a@exampleXcom".data) ∧
    ¬ (".example.com".data <:+ "a@badexample.com".data) ∧
    ¬ (".example.com".data <:+ "a@example.evil-com".data) ∧
    processPattern idleLib ["a@exampleXcom"] ["*.example.com"] = (some true, none) ∧
    processPattern idleLib ["a@badexample.com"] ["*.example.com"] = (some true, none) ∧
    processPattern idleLib ["a@example.evil-com"] [".example.com"] = (some true, none) := by
  decide

/-! ### `userIsApproved`: the GitHub organizations -/

theorem githubOrgLoop_skip (env : Env) (u : String) (before rest : List String) (h : Trace)
    (hbefore : ∀ (pre : List String) (o : String) (post : List String),
      before = pre ++ o :: post →
      env.GetMembership (h ++ membershipCalls u pre) u o = (none, none)) :
    githubOrgLoop env u (before ++ rest) h =
      githubOrgLoop env u rest (h ++ membershipCalls u before) := by
  induction before generalizing h with
  | nil => simp [membershipCalls]
  | cons b bs ih =>
    have hb : env.GetMembership h u b = (none, none) := by
      simpa [membershipCalls] using hbefore [] b bs rfl
    have hbs : ∀ (pre : List String) (o : String) (post : List String),
        bs = pre ++ o :: post →
        env.GetMembership ((h ++ [Call.GetMembership u b]) ++ membershipCalls u pre) u o =
          (none, none) := by
      intro pre o post hsplit
      have := hbefore (b :: pre) o post (by rw [hsplit]; rfl)
      simpa [membershipCalls, List.append_assoc] using this
    rw [List.cons_append, githubOrgLoop]
    simp only [hb]
    rw [ih _ hbs]
    simp [membershipCalls, List.append_assoc]

theorem userIsApproved_falls_to_orgs (env : Env) (h : Trace) (user : User)
    (cclaSignature : Signature)
    (hgh : user.GithubUsername ≠ "")
    (hemail : emailListLoop env.lib cclaSignature.EmailApprovalList
      (user.Emails ++ [user.LfEmail]) = false)
    (hdom : cclaSignature.DomainApprovalList = [] ∨
      processPattern env.lib (user.Emails ++ [user.LfEmail]) cclaSignature.DomainApprovalList =
        (some false, none)) :
    userIsApproved env h user cclaSignature =
      (((githubOrgLoop env user.GithubUsername cclaSignature.GithubOrgApprovalList h).1, none),
        (githubOrgLoop env user.GithubUsername cclaSignature.GithubOrgApprovalList h).2) := by
  unfold userIsApproved
  rcases hdom with hd | hd
  · simp [hemail, hd, hgh]
  · by_cases hl : cclaSignature.DomainApprovalList.length > 0
    · simp [hemail, hd, hgh, hl]
    · simp [hemail, hgh, hl]

/-- C13: for a user with a GitHub username whom the email list and the domain list do not
approve, `userIsApproved` checks the organizations of the GitHub org approval list in list
order.  After the organizations `before`, whose checks confirmed no membership and reported no
error: if the check of the next organization confirms a membership, the result is true and no
later organization is checked; if it reports an error, the result is false with no error and
no later organization is checked; and if no organization is left, the result is false. -/
theorem userIsApproved_github_orgs_in_order (env : Env) (h : Trace) (user : User)
    (cclaSignature : Signature) (before : List String)
    (hgh : user.GithubUsername ≠ "")
    (hemail : emailListLoop env.lib cclaSignature.EmailApprovalList
      (user.Emails ++ [user.LfEmail]) = false)
    (hdom : cclaSignature.DomainApprovalList = [] ∨
      processPattern env.lib (user.Emails ++ [user.LfEmail]) cclaSignature.DomainApprovalList =
        (some false, none))
    (hbefore : ∀ (pre : List String) (o : String) (post : List String),
      before = pre ++ o :: post →
      env.GetMembership (h ++ membershipCalls user.GithubUsername pre) user.GithubUsername o =
        (none, none)) :
    (∀ (org : String) (after : List String) (m : Membership),
      cclaSignature.GithubOrgApprovalList = before ++ org :: after →
      env.GetMembership (h ++ membershipCalls user.GithubUsername before) user.GithubUsername org =
        (some m, none) →
      userIsApproved env h user cclaSignature =
        ((true, none), h ++ membershipCalls user.GithubUsername (before ++ [org]))) ∧
    (∀ (org : String) (after : List String) (m : Option Membership) (e : Err),
      cclaSignature.GithubOrgApprovalList = before ++ org :: after →
      env.GetMembership (h ++ membershipCalls user.GithubUsername before) user.GithubUsername org =
        (m, some e) →
      userIsApproved env h user cclaSignature =
        ((false, none), h ++ membershipCalls user.GithubUsername (before ++ [org]))) ∧
    (cclaSignature.GithubOrgApprovalList = before →
      userIsApproved env h user cclaSignature =
        ((false, none), h ++ membershipCalls user.GithubUsername before)) := by
  have hrun := userIsApproved_falls_to_orgs env h user cclaSignature hgh hemail hdom
  refine ⟨?_, ?_, ?_⟩
  · intro org after m hsplit hm
    rw [hrun, hsplit, githubOrgLoop_skip env _ before (org :: after) h hbefore, githubOrgLoop]
    simp only [hm]
    simp [membershipCalls, List.append_assoc]
  · intro org after m e hsplit hm
    rw [hrun, hsplit, githubOrgLoop_skip env _ before (org :: after) h hbefore, githubOrgLoop]
    simp only [hm]
    simp [membershipCalls, List.append_assoc]
  · intro hall
    have := githubOrgLoop_skip env user.GithubUsername before [] h hbefore
    rw [List.append_nil] at this
    rw [hrun, hall, this]
    rfl

/-- C13, at the user `octo` and the organizations `org1`, `org2`, `org3`: with a membership in
`org2` the result is true after the checks of `org1` and `org2`; with a failing check of
`org2` the result is false with no error after the same two checks, although the check of
`org3` would confirm a membership. -/
theorem userIsApproved_github_orgs_in_order_witness :
    userIsApproved envMemberOfOrg2 [] octo orgSig =
      ((true, none), [Call.GetMembership "octo" "org1", Call.GetMembership "octo" "org2"]) ∧
    userIsApproved envOrg2Fails [] octo orgSig =
      ((false, none), [Call.GetMembership "octo" "org1", Call.GetMembership "octo" "org2"]) ∧
    envOrg2Fails.GetMembership
      [Call.GetMembership "octo" "org1", Call.GetMembership "octo" "org2"] "octo" "org3" =
      (some { State := "active" }, none) :=
  ⟨(userIsApproved_github_orgs_in_order envMemberOfOrg2 [] octo orgSig ["org1"] (by decide)
      (by decide) (Or.inl rfl)
      (fun pre o post hsplit => by
        cases pre with
        | nil =>
          injection hsplit with h1 _
          subst h1
          rfl
        | cons p ps =>
          injection hsplit with _ h2
          cases ps <;> simp at h2)).1 "org2" ["org3"] { State := "active" } rfl rfl,
   (userIsApproved_github_orgs_in_order envOrg2Fails [] octo orgSig ["org1"] (by decide)
      (by decide) (Or.inl rfl)
      (fun pre o post hsplit => by
        cases pre with
        | nil =>
          injection hsplit with h1 _
          subst h1
          rfl
        | cons p ps =>
          injection hsplit with _ h2
          cases ps <;> simp at h2)).2.1 "org2" ["org3"] none (errorsNew "rate limit exceeded")
      rfl rfl,
   rfl⟩

/-! ### `userIsApproved`: trimming, and the GitHub username list -/

/-- C15, the code at the failing input: with the domain approval list `example.com`, the user
whose email is `a@example.com` is approved and the user whose email is `a@example.com`
followed by a blank is not; with the email approval list `a@example.com` both are approved,
because line 908 trims the email before the comparison and line 919 hands the emails to
`processPattern` as they are. -/
theorem userIsApproved_domain_check_does_not_trim :
    userIsApproved idleEnv [] (userWithEmail "a@example.com") domainSig = ((true, none), []) ∧
    userIsApproved idleEnv [] (userWithEmail "a@example.com ") domainSig = ((false, none), []) ∧
    userIsApproved idleEnv [] (userWithEmail "a@example.com") emailSig = ((true, none), []) ∧
    userIsApproved idleEnv [] (userWithEmail "a@example.com ") emailSig = ((true, none), []) := by
  decide

/-- C16, amended: `userIsApproved` does not read the GitHub username approval list: whatever
that list is, the result and the calls made are the same; and when the email, domain and
GitHub organization lists are empty the user is not approved, even if the GitHub username of
the user is an entry of the GitHub username list. -/
theorem userIsApproved_ignores_github_username_list (env : Env) (h : Trace) (user : User)
    (cclaSignature : Signature) :
    (∀ usernames : List String,
      userIsApproved env h user { cclaSignature with GithubUsernameApprovalList := usernames } =
        userIsApproved env h user cclaSignature) ∧
    (cclaSignature.EmailApprovalList = [] → cclaSignature.DomainApprovalList = [] →
      cclaSignature.GithubOrgApprovalList = [] →
      user.GithubUsername ∈ cclaSignature.GithubUsernameApprovalList →
      userIsApproved env h user cclaSignature = ((false, none), h)) := by
  refine ⟨fun _ => rfl, ?_⟩
  intro he hd ho _
  unfold userIsApproved
  by_cases hgh : user.GithubUsername = ""
  · simp [he, hd, hgh]
  · simp [he, hd, ho, hgh, githubOrgLoop]

/-- C16 amended, at the user `octo` and a corporate signature whose only approval entry is the
GitHub username `octo`. -/
theorem userIsApproved_ignores_github_username_list_witness :
    userIsApproved idleEnv [] octo { usernameSig with GithubUsernameApprovalList := [] } =
      userIsApproved idleEnv [] octo usernameSig ∧
    octo.GithubUsername ∈ usernameSig.GithubUsernameApprovalList ∧
    userIsApproved idleEnv [] octo usernameSig = ((false, none), []) :=
  ⟨(userIsApproved_ignores_github_username_list idleEnv [] octo usernameSig).1 [],
   by decide,
   (userIsApproved_ignores_github_username_list idleEnv [] octo usernameSig).2 rfl rfl rfl
     (by decide)⟩

/-- C16 as stated fails: the GitHub username `octo` of the user is an entry of the GitHub
username approval list of the corporate signature, and `userIsApproved` returns false. -/
theorem userIsApproved_listed_github_username_not_approved :
    octo.GithubUsername ∈ usernameSig.GithubUsernameApprovalList ∧
    userIsApproved idleEnv [] octo usernameSig = ((false, none), []) := by
  decide

/-! ### The triage loop of `updateChangeRequest` -/

theorem triageLoop_cons (env : Env) (projectID : String) (userSummary : UserCommitSummary)
    (rest : List UserCommitSummary) (h : Trace) (signed unsigned : List UserCommitSummary) :
    triageLoop env projectID (userSummary :: rest) h signed unsigned =
      match triageTurn env projectID userSummary h signed unsigned with
      | Turn.next h1 signed1 unsigned1 => triageLoop env projectID rest h1 signed1 unsigned1
      | Turn.stop h1 signed1 unsigned1 => ⟨Outcome.ret (signed1, unsigned1), h1⟩
      | Turn.panic m h1 => ⟨Outcome.panic m, h1⟩ := by
  rw [triageLoop]
  unfold triageTurn
  dsimp only
  repeat' split
  all_goals first
    | rfl
    | simp_all

theorem triageLoop_reaches (env : Env) (projectID : String)
    (before rest : List UserCommitSummary) (h : Trace) (signed unsigned : List UserCommitSummary)
    (h0 : Trace) (signed0 unsigned0 : List UserCommitSummary)
    (hreach : triageReaches env projectID before h signed unsigned =
      some (h0, signed0, unsigned0)) :
    triageLoop env projectID (before ++ rest) h signed unsigned =
      triageLoop env projectID rest h0 signed0 unsigned0 := by
  induction before generalizing h signed unsigned with
  | nil =>
    simp only [triageReaches, Option.some.injEq, Prod.mk.injEq] at hreach
    obtain ⟨rfl, rfl, rfl⟩ := hreach
    rfl
  | cons a as ih =>
    rw [List.cons_append, triageLoop_cons]
    rw [triageReaches] at hreach
    cases ht : triageTurn env projectID a h signed unsigned with
    | next h1 s1 u1 =>
      rw [ht] at hreach
      exact ih h1 s1 u1 hreach
    | stop h1 s1 u1 => rw [ht] at hreach; cases hreach
    | panic m h1 => rw [ht] at hreach; cases hreach

/-- C20: when the triage loop of `updateChangeRequest` reaches a commit author whose lookup by
GitHub username fails, that author is appended to the unsigned list and the loop exits: the
lists are those of the authors before it plus that author, whatever authors come after it, no
call is made for a later author, and `updateChangeRequest` returns no error. -/
theorem updateChangeRequest_lookup_failure_exits (env : Env) (h : Trace)
    (ghOrg : GithubOrganization) (repositoryID pullRequestID : Int) (projectID : String)
    (githubRepository : GhRepository) (owner : GhUser) (ownerName repoName : String)
    (before after : List UserCommitSummary) (a : UserCommitSummary) (author : GhUser)
    (name : String) (e : Err) (h0 : Trace) (signed0 unsigned0 : List UserCommitSummary)
    (hrepo : env.GetGitHubRepository h ghOrg.OrganizationInstallationID repositoryID =
      (some githubRepository, none))
    (howner : githubRepository.Owner = some owner) (hon : owner.Name = some ownerName)
    (hrn : githubRepository.Name = some repoName)
    (hauthors : env.GetPullRequestCommitAuthors
      (h ++ [Call.GetGitHubRepository ghOrg.OrganizationInstallationID repositoryID])
      ghOrg.OrganizationInstallationID pullRequestID ownerName repoName =
      (before ++ a :: after, none))
    (hreach : triageReaches env projectID before
      (h ++ [Call.GetGitHubRepository ghOrg.OrganizationInstallationID repositoryID] ++
        [Call.GetPullRequestCommitAuthors ghOrg.OrganizationInstallationID pullRequestID
          ownerName repoName]) [] [] = some (h0, signed0, unsigned0))
    (hauthor : a.CommitAuthor = some author) (hname : author.Name = some name)
    (hfail : (env.GetUserByGitHubUsername h0 name).2 = some e) :
    triageLoop env projectID (before ++ a :: after)
      (h ++ [Call.GetGitHubRepository ghOrg.OrganizationInstallationID repositoryID] ++
        [Call.GetPullRequestCommitAuthors ghOrg.OrganizationInstallationID pullRequestID
          ownerName repoName]) [] [] =
      ⟨Outcome.ret (signed0,
        (if env.IsValid a then unsigned0 else unsigned0 ++ [a]) ++ [a]),
        h0 ++ [Call.GetUserByGitHubUsername name]⟩ ∧
    updateChangeRequest env h (some ghOrg) repositoryID pullRequestID projectID =
      ⟨Outcome.ret none, h0 ++ [Call.GetUserByGitHubUsername name]⟩ := by
  have hturn : triageTurn env projectID a h0 signed0 unsigned0 =
      Turn.stop (h0 ++ [Call.GetUserByGitHubUsername name]) signed0
        ((if env.IsValid a then unsigned0 else unsigned0 ++ [a]) ++ [a]) := by
    unfold triageTurn
    simp only [hauthor, hname, hfail]
    cases env.IsValid a <;> rfl
  have hloop : triageLoop env projectID (before ++ a :: after)
      (h ++ [Call.GetGitHubRepository ghOrg.OrganizationInstallationID repositoryID] ++
        [Call.GetPullRequestCommitAuthors ghOrg.OrganizationInstallationID pullRequestID
          ownerName repoName]) [] [] =
      ⟨Outcome.ret (signed0,
        (if env.IsValid a then unsigned0 else unsigned0 ++ [a]) ++ [a]),
        h0 ++ [Call.GetUserByGitHubUsername name]⟩ := by
    rw [triageLoop_reaches env projectID before (a :: after) _ [] [] h0 signed0 unsigned0 hreach,
      triageLoop_cons, hturn]
  refine ⟨hloop, ?_⟩
  unfold updateChangeRequest
  simp only [hrepo, howner, hon, hrn, hauthors, hloop]

/-- C20, at a pull request with commits by `ann`, `bob` and `cid`, where `ann` has signed and
the lookup of `bob` fails: `ann` is in the signed list, `bob` in the unsigned list, `cid` in
neither, and no error is returned. -/
theorem updateChangeRequest_lookup_failure_exits_witness :
    triageLoop envLookupOfBobFails "g1"
      ([commitBy "c1" "ann"] ++ commitBy "c2" "bob" :: [commitBy "c3" "cid"])
      ([] ++ [Call.GetGitHubRepository 99 12] ++
        [Call.GetPullRequestCommitAuthors 99 7 "acme" "tool"]) [] [] =
      ⟨Outcome.ret ([commitBy "c1" "ann"],
        (if envLookupOfBobFails.IsValid (commitBy "c2" "bob") then []
          else [] ++ [commitBy "c2" "bob"]) ++ [commitBy "c2" "bob"]),
        [Call.GetGitHubRepository 99 12, Call.GetPullRequestCommitAuthors 99 7 "acme" "tool",
          Call.GetUserByGitHubUsername "ann",
          Call.GetIndividualSignature "g1" "u-ann" (some true) (some true)] ++
          [Call.GetUserByGitHubUsername "bob"]⟩ ∧
    updateChangeRequest envLookupOfBobFails [] (some { OrganizationInstallationID := 99 }) 12 7
      "g1" =
      ⟨Outcome.ret none,
        [Call.GetGitHubRepository 99 12, Call.GetPullRequestCommitAuthors 99 7 "acme" "tool",
          Call.GetUserByGitHubUsername "ann",
          Call.GetIndividualSignature "g1" "u-ann" (some true) (some true)] ++
          [Call.GetUserByGitHubUsername "bob"]⟩ :=
  updateChangeRequest_lookup_failure_exits envLookupOfBobFails []
    { OrganizationInstallationID := 99 } 12 7 "g1"
    { Owner := some { ID := some 5, Name := some "acme", Email := none }, Name := some "tool" }
    { ID := some 5, Name := some "acme", Email := none } "acme" "tool"
    [commitBy "c1" "ann"] [commitBy "c3" "cid"] (commitBy "c2" "bob")
    { ID := none, Name := some "bob", Email := none } "bob" (errorsNew "user not found")
    [Call.GetGitHubRepository 99 12, Call.GetPullRequestCommitAuthors 99 7 "acme" "tool",
      Call.GetUserByGitHubUsername "ann",
      Call.GetIndividualSignature "g1" "u-ann" (some true) (some true)]
    [commitBy "c1" "ann"] []
    rfl rfl rfl rfl rfl (by decide) rfl rfl rfl

/-! ### Page sizes -/

/-- C17: the page size handed to the repository is the page size of the caller when there is
one, and otherwise 10 for `GetProjectCompanySignatures`, `GetProjectCompanyEmployeeSignatures`
and `GetUserSignatures` and 50 for `GetCompanySignatures`; `GetClaGroupCCLASignatures` queries
with the page size 1000 and the CLA type CCLA.  Each function makes this one call. -/
theorem default_page_sizes (env : Env) (h : Trace) :
    (∀ params : ProjectCompanySignaturesParams,
      (GetProjectCompanySignatures env h params).2 =
        h ++ [Call.RepoGetProjectCompanySignatures params.CompanyID params.ProjectID (some true)
          (some true) params.NextKey params.SortOrder (some (params.PageSize.getD 10))]) ∧
    (∀ params : EmployeeSignaturesParams,
      (GetProjectCompanyEmployeeSignatures env h params).2 =
        h ++ [Call.RepoGetProjectCompanyEmployeeSignatures
          { params with PageSize := some (params.PageSize.getD 10) }]) ∧
    (∀ params : UserSignaturesParams,
      (GetUserSignatures env h params).2 =
        h ++ [Call.RepoGetUserSignatures params (params.PageSize.getD 10)]) ∧
    (∀ params : CompanySignaturesParams,
      (GetCompanySignatures env h params).2 =
        h ++ [Call.RepoGetCompanySignatures params (params.PageSize.getD 50)]) ∧
    (∀ (claGroupID : String) (approved signed : Option Bool),
      (GetClaGroupCCLASignatures env h claGroupID approved signed).2 =
        h ++ [Call.RepoGetProjectSignatures
          { ClaType := some ClaTypeCCLA, ProjectID := claGroupID, PageSize := some 1000,
            Approved := approved, Signed := signed }]) := by
  refine ⟨?_, ?_, ?_, ?_, ?_⟩
  · intro params
    unfold GetProjectCompanySignatures
    dsimp only
    cases params.PageSize <;> split <;> rfl
  · intro params
    unfold GetProjectCompanyEmployeeSignatures
    dsimp only
    obtain ⟨c, p, n, ps⟩ := params
    cases ps <;> simp <;> split <;> rfl
  · intro params
    unfold GetUserSignatures
    dsimp only
    cases params.PageSize <;> split <;> rfl
  · intro params
    unfold GetCompanySignatures
    dsimp only
    cases params.PageSize <;> split <;> rfl
  · intro claGroupID approved signed
    rfl

/-! ### `InvalidateProjectRecords` -/

theorem dispatchLoop_all (sigs : List Signature) :
    dispatchLoop (sigs.map some) = (sigs.map (fun s => s.SignatureID), true) := by
  induction sigs with
  | nil => rfl
  | cons s rest ih => simp [dispatchLoop, ih]

theorem runInvalidations_trace (env : Env) (note : String) (ids : List String) (h : Trace) :
    runInvalidations env note ids h = h ++ invalidationCalls note ids := by
  induction ids generalizing h with
  | nil => simp [runInvalidations, invalidationCalls]
  | cons sigID rest ih =>
    unfold runInvalidations
    split <;> simp [ih, invalidationCalls]

/-- C14: when the fetch of the signatures of the project succeeds with `n` signatures,
`InvalidateProjectRecords` returns `n` and no error, and after the fetch it makes exactly one
invalidation call for each of the `n` signatures, in the order in which the scheduler lets the
tasks reach the repository, whatever these calls answer. -/
theorem InvalidateProjectRecords_attempts_all (env : Env) (h : Trace) (projectID note : String)
    (result : Signatures) (sigs : List Signature)
    (hfetch : env.ProjectSignatures h projectID = (some result, none))
    (hsigs : result.Signatures = sigs.map some)
    (hsched : (env.schedule (sigs.map (fun s => s.SignatureID))).Perm
      (sigs.map (fun s => s.SignatureID))) :
    (InvalidateProjectRecords env h projectID note).out =
      Outcome.ret ((sigs.length : Int), none) ∧
    ∃ calls : List Call,
      (InvalidateProjectRecords env h projectID note).trace =
        h ++ [Call.ProjectSignatures projectID] ++ calls ∧
      calls.Perm (invalidationCalls note (sigs.map (fun s => s.SignatureID))) := by
  have hrun : InvalidateProjectRecords env h projectID note =
      ⟨Outcome.ret ((sigs.length : Int), none),
        h ++ [Call.ProjectSignatures projectID] ++
          invalidationCalls note (env.schedule (sigs.map (fun s => s.SignatureID)))⟩ := by
    unfold InvalidateProjectRecords
    simp only [hfetch, hsigs, dispatchLoop_all, runInvalidations_trace, if_true,
      List.length_map]
  rw [hrun]
  exact ⟨rfl, _, rfl, List.Perm.map _ hsched⟩

/-- C14, at the signatures `s1`, `s2`, `s3` with a failing invalidation of `s2` and tasks that
reach the repository in reverse order: the call returns 3 and no error, and the three
invalidations are attempted. -/
theorem InvalidateProjectRecords_attempts_all_witness :
    envThreeSignatures.InvalidateProjectRecord
      [Call.ProjectSignatures "g1", Call.InvalidateProjectRecord "s3" "gone"] "s2" "gone" =
      some (errorsNew "conditional check failed") ∧
    (InvalidateProjectRecords envThreeSignatures [] "g1" "gone").trace =
      [Call.ProjectSignatures "g1", Call.InvalidateProjectRecord "s3" "gone",
        Call.InvalidateProjectRecord "s2" "gone", Call.InvalidateProjectRecord "s1" "gone"] ∧
    (InvalidateProjectRecords envThreeSignatures [] "g1" "gone").out = Outcome.ret (3, none) ∧
    (InvalidateProjectRecords envThreeSignatures [] "g1" "gone").out =
      Outcome.ret (((([mkSignature "s1" [] false, mkSignature "s2" [] false,
        mkSignature "s3" [] false] : List Signature).length : Nat) : Int), none) ∧
    ∃ calls : List Call,
      (InvalidateProjectRecords envThreeSignatures [] "g1" "gone").trace =
        [] ++ [Call.ProjectSignatures "g1"] ++ calls ∧
      calls.Perm (invalidationCalls "gone"
        ([mkSignature "s1" [] false, mkSignature "s2" [] false,
          mkSignature "s3" [] false].map (fun s => s.SignatureID))) :=
  ⟨rfl, by decide, by decide,
    InvalidateProjectRecords_attempts_all envThreeSignatures [] "g1" "gone"
      { Signatures := [some (mkSignature "s1" [] false), some (mkSignature "s2" [] false),
        some (mkSignature "s3" [] false)] }
      [mkSignature "s1" [] false, mkSignature "s2" [] false, mkSignature "s3" [] false]
      rfl rfl (by decide)⟩

/-! ### GitHub organizations of an approval list -/

theorem orgListed_true (organizationID : String) (orgs : List GhOrganization)
    (h : orgListed organizationID orgs = Outcome.ret true) :
    ∃ org ∈ orgs, org.Login = some organizationID := by
  induction orgs with
  | nil => simp [orgListed] at h
  | cons org rest ih =>
    unfold orgListed at h
    cases hl : org.Login with
    | none => simp [hl] at h
    | some login =>
      simp only [hl] at h
      by_cases heq : login = organizationID
      · exact ⟨org, List.mem_cons_self _ _, by rw [hl, heq]⟩
      · have hb : (login == organizationID) = false := by simpa using heq
        simp only [hb, Bool.false_eq_true, if_false] at h
        obtain ⟨o, ho, hlo⟩ := ih h
        exact ⟨o, List.mem_cons_of_mem _ ho, hlo⟩

theorem orgListed_returns (organizationID : String) (orgs : List GhOrganization)
    (hlogins : ∀ org ∈ orgs, org.Login ≠ none) :
    ∃ b, orgListed organizationID orgs = Outcome.ret b := by
  induction orgs with
  | nil => exact ⟨false, rfl⟩
  | cons org rest ih =>
    unfold orgListed
    cases hl : org.Login with
    | none => exact absurd hl (hlogins org (List.mem_cons_self _ _))
    | some login =>
      by_cases heq : (login == organizationID) = true
      · exact ⟨true, by simp [heq]⟩
      · obtain ⟨b, hb⟩ := ih (fun o ho => hlogins o (List.mem_cons_of_mem _ ho))
        exact ⟨b, by simp [heq, hb]⟩

theorem validateGithubOrg_cases (env : Env) (h : Trace) (verb signatureID organizationID
    githubAccessToken : String) :
    (OrgAccess env h githubAccessToken organizationID ∧
      validateGithubOrg env h verb signatureID organizationID githubAccessToken =
        ⟨Outcome.ret none, h ++ [Call.OrganizationsList githubAccessToken 100]⟩) ∨
    (∃ (e : Err) (t : Trace),
      validateGithubOrg env h verb signatureID organizationID githubAccessToken =
        ⟨Outcome.ret (some e), t⟩ ∧
      (t = h ∨ t = h ++ [Call.OrganizationsList githubAccessToken 100])) ∨
    (∃ m : String,
      validateGithubOrg env h verb signatureID organizationID githubAccessToken =
        ⟨Outcome.panic m, h ++ [Call.OrganizationsList githubAccessToken 100]⟩ ∧
      ∃ org ∈ (env.OrganizationsList h githubAccessToken 100).1, org.Login = none) := by
  unfold validateGithubOrg
  by_cases htok : githubAccessToken = ""
  · subst htok
    exact Or.inr (Or.inl ⟨_, h, rfl, Or.inl rfl⟩)
  · have hb : (githubAccessToken == "") = false := by simpa using htok
    simp only [hb, Bool.false_eq_true, if_false]
    cases herr : (env.OrganizationsList h githubAccessToken 100).2 with
    | some err => exact Or.inr (Or.inl ⟨err, _, rfl, Or.inr rfl⟩)
    | none =>
      cases hl : orgListed organizationID (env.OrganizationsList h githubAccessToken 100).1 with
      | panic m =>
        refine Or.inr (Or.inr ⟨m, rfl, ?_⟩)
        by_contra hno
        have hall : ∀ org ∈ (env.OrganizationsList h githubAccessToken 100).1,
            org.Login ≠ none := fun org ho hn => hno ⟨org, ho, hn⟩
        obtain ⟨b, hb2⟩ := orgListed_returns organizationID _ hall
        rw [hb2] at hl
        cases hl
      | ret found =>
        cases found with
        | false => exact Or.inr (Or.inl ⟨_, _, rfl, Or.inr rfl⟩)
        | true => exact Or.inl ⟨⟨htok, herr, orgListed_true _ _ hl⟩, rfl⟩

/-- C18: with the validation of GitHub organizations enabled, a non-empty signature ID and an
organization ID, `AddGithubOrganizationToApprovalList` (resp.
`DeleteGithubOrganizationFromApprovalList`) calls the repository only if the access token is
not empty and the organization ID is the login of one of the organizations listed for the
authenticated user.  In every other case no call changes the approval list, and the function
returns an error (when every listed organization carries a login, which the code reads without
a nil check). -/
theorem githubOrg_change_needs_access (env : Env) (h : Trace) (signatureID organizationID
    githubAccessToken : String)
    (hval : env.githubOrgValidation = true) (hsig : signatureID ≠ "") :
    (Call.RepoAddGithubOrganizationToApprovalList signatureID organizationID ∈
        (AddGithubOrganizationToApprovalList env h signatureID
          { OrganizationID := some organizationID } githubAccessToken).trace.drop h.length →
      OrgAccess env h githubAccessToken organizationID) ∧
    (¬ OrgAccess env h githubAccessToken organizationID →
      (∀ c ∈ (AddGithubOrganizationToApprovalList env h signatureID
          { OrganizationID := some organizationID } githubAccessToken).trace.drop h.length,
        c.isOrgListMutation = false) ∧
      ((∀ org ∈ (env.OrganizationsList h githubAccessToken 100).1, org.Login ≠ none) →
        ∃ e : Err, (AddGithubOrganizationToApprovalList env h signatureID
          { OrganizationID := some organizationID } githubAccessToken).out =
          Outcome.ret ([], some e))) ∧
    (Call.RepoDeleteGithubOrganizationFromApprovalList signatureID organizationID ∈
        (DeleteGithubOrganizationFromApprovalList env h signatureID
          { OrganizationID := some organizationID } githubAccessToken).trace.drop h.length →
      OrgAccess env h githubAccessToken organizationID) ∧
    (¬ OrgAccess env h githubAccessToken organizationID →
      (∀ c ∈ (DeleteGithubOrganizationFromApprovalList env h signatureID
          { OrganizationID := some organizationID } githubAccessToken).trace.drop h.length,
        c.isOrgListMutation = false) ∧
      ((∀ org ∈ (env.OrganizationsList h githubAccessToken 100).1, org.Login ≠ none) →
        ∃ e : Err, (DeleteGithubOrganizationFromApprovalList env h signatureID
          { OrganizationID := some organizationID } githubAccessToken).out =
          Outcome.ret ([], some e))) := by
  have hsb : (signatureID == "") = false := by simpa using hsig
  have hdrop0 : ∀ c ∈ List.drop h.length h, Call.isOrgListMutation c = false := by
    intro c hc
    simp at hc
  have hdrop1 : ∀ c ∈ List.drop h.length (h ++ [Call.OrganizationsList githubAccessToken 100]),
      Call.isOrgListMutation c = false := by
    intro c hc
    simp at hc
    subst hc
    rfl
  have hadd : ¬ OrgAccess env h githubAccessToken organizationID →
      (∀ c ∈ (AddGithubOrganizationToApprovalList env h signatureID
          { OrganizationID := some organizationID } githubAccessToken).trace.drop h.length,
        c.isOrgListMutation = false) ∧
      ((∀ org ∈ (env.OrganizationsList h githubAccessToken 100).1, org.Login ≠ none) →
        ∃ e : Err, (AddGithubOrganizationToApprovalList env h signatureID
          { OrganizationID := some organizationID } githubAccessToken).out =
          Outcome.ret ([], some e)) := by
    intro hno
    unfold AddGithubOrganizationToApprovalList
    simp only [hsb, Bool.false_eq_true, if_false, hval, if_true]
    rcases validateGithubOrg_cases env h "add" signatureID organizationID githubAccessToken with
      ⟨hacc, _⟩ | ⟨e, t, hv, ht⟩ | ⟨m, hv, org, horg, hlogin⟩
    · exact absurd hacc hno
    · rw [hv]
      refine ⟨?_, fun _ => ⟨e, rfl⟩⟩
      rcases ht with rfl | rfl
      · exact hdrop0
      · exact hdrop1
    · rw [hv]
      exact ⟨hdrop1, fun hall => absurd hlogin (hall org horg)⟩
  have hdel : ¬ OrgAccess env h githubAccessToken organizationID →
      (∀ c ∈ (DeleteGithubOrganizationFromApprovalList env h signatureID
          { OrganizationID := some organizationID } githubAccessToken).trace.drop h.length,
        c.isOrgListMutation = false) ∧
      ((∀ org ∈ (env.OrganizationsList h githubAccessToken 100).1, org.Login ≠ none) →
        ∃ e : Err, (DeleteGithubOrganizationFromApprovalList env h signatureID
          { OrganizationID := some organizationID } githubAccessToken).out =
          Outcome.ret ([], some e)) := by
    intro hno
    unfold DeleteGithubOrganizationFromApprovalList
    simp only [hsb, Bool.false_eq_true, if_false, hval, if_true]
    rcases validateGithubOrg_cases env h "delete" signatureID organizationID githubAccessToken with
      ⟨hacc, _⟩ | ⟨e, t, hv, ht⟩ | ⟨m, hv, org, horg, hlogin⟩
    · exact absurd hacc hno
    · rw [hv]
      refine ⟨?_, fun _ => ⟨e, rfl⟩⟩
      rcases ht with rfl | rfl
      · exact hdrop0
      · exact hdrop1
    · rw [hv]
      exact ⟨hdrop1, fun hall => absurd hlogin (hall org horg)⟩
  refine ⟨?_, hadd, ?_, hdel⟩
  · intro hmem
    by_contra hno
    have := (hadd hno).1 _ hmem
    simp [Call.isOrgListMutation] at this
  · intro hmem
    by_contra hno
    have := (hdel hno).1 _ hmem
    simp [Call.isOrgListMutation] at this

/-- C18, at a GitHub user whose organizations are `org1` and `org2`: for `org3` the access
check fails, no call changes the approval list and an error is returned, for `add` and for
`delete`; for `org2` the repository is called, and the access check holds. -/
theorem githubOrg_change_needs_access_witness :
    envListsTwoOrgs.githubOrgValidation = true ∧
    ¬ OrgAccess envListsTwoOrgs [] "t0" "org3" ∧
    ((∀ c ∈ (AddGithubOrganizationToApprovalList envListsTwoOrgs [] "sig1"
        { OrganizationID := some "org3" } "t0").trace.drop ([] : Trace).length,
      c.isOrgListMutation = false) ∧
     ∃ e : Err, (AddGithubOrganizationToApprovalList envListsTwoOrgs [] "sig1"
        { OrganizationID := some "org3" } "t0").out = Outcome.ret ([], some e)) ∧
    ((∀ c ∈ (DeleteGithubOrganizationFromApprovalList envListsTwoOrgs [] "sig1"
        { OrganizationID := some "org3" } "t0").trace.drop ([] : Trace).length,
      c.isOrgListMutation = false) ∧
     ∃ e : Err, (DeleteGithubOrganizationFromApprovalList envListsTwoOrgs [] "sig1"
        { OrganizationID := some "org3" } "t0").out = Outcome.ret ([], some e)) ∧
    Call.RepoAddGithubOrganizationToApprovalList "sig1" "org2" ∈
      (AddGithubOrganizationToApprovalList envListsTwoOrgs [] "sig1"
        { OrganizationID := some "org2" } "t0").trace.drop ([] : Trace).length ∧
    OrgAccess envListsTwoOrgs [] "t0" "org2" :=
  have hno : ¬ OrgAccess envListsTwoOrgs [] "t0" "org3" := by
    rintro ⟨_, _, org, horg, hlogin⟩
    have hmem : org ∈ [({ Login := some "org1" } : GhOrganization), { Login := some "org2" }] :=
      horg
    simp only [List.mem_cons, List.mem_singleton, List.not_mem_nil, or_false] at hmem
    rcases hmem with rfl | rfl
    · exact absurd hlogin (by decide)
    · exact absurd hlogin (by decide)
  have hlogins : ∀ org ∈ (envListsTwoOrgs.OrganizationsList [] "t0" 100).1, org.Login ≠ none := by
    intro org horg
    have hmem : org ∈ [({ Login := some "org1" } : GhOrganization), { Login := some "org2" }] :=
      horg
    simp only [List.mem_cons, List.mem_singleton, List.not_mem_nil, or_false] at hmem
    rcases hmem with rfl | rfl <;> decide
  ⟨rfl, hno,
    ⟨((githubOrg_change_needs_access envListsTwoOrgs [] "sig1" "org3" "t0" rfl
        (by decide)).2.1 hno).1,
     ((githubOrg_change_needs_access envListsTwoOrgs [] "sig1" "org3" "t0" rfl
        (by decide)).2.1 hno).2 hlogins⟩,
    ⟨((githubOrg_change_needs_access envListsTwoOrgs [] "sig1" "org3" "t0" rfl
        (by decide)).2.2.2 hno).1,
     ((githubOrg_change_needs_access envListsTwoOrgs [] "sig1" "org3" "t0" rfl
        (by decide)).2.2.2 hno).2 hlogins⟩,
    by decide,
    (githubOrg_change_needs_access envListsTwoOrgs [] "sig1" "org2" "t0" rfl (by decide)).1
      (by decide)⟩

/-! ### `UpdateApprovalList` without the auto-create option -/

theorem sendManagerEmails_calls (env : Env) (companyModel : Company) (claGroupModel : ClaGroup)
    (params : ApprovalList) (managers : List User) (h : Trace) :
    sendManagerEmails env companyModel claGroupModel params managers h =
      h ++ managerEmailCalls env companyModel claGroupModel params managers := by
  induction managers generalizing h with
  | nil => simp [sendManagerEmails, managerEmailCalls]
  | cons m rest ih =>
    unfold sendManagerEmails
    rw [ih]
    simp [managerEmailCalls]

/-- C21: when the corporate signature is found with the auto-create option off, the acting
user is in its ACL, the lookup of the acting user returns a user and the update of the
repository returns no error, `UpdateApprovalList` returns the signature of the repository update
and no error; the calls it makes are the two lookups, the update, the event log entry, one mail
per CLA manager and the mail to the contributors, and none of them creates a user record,
creates an employee signature or belongs to the pull-request reconciliation. -/
theorem UpdateApprovalList_auto_create_disabled (env : Env) (h : Trace) (authUser : AuthUser)
    (claGroupModel : ClaGroup) (companyModel : Company) (claGroupID : String)
    (params : ApprovalList) (sig : Signature) (userModel : User) (updatedSig : Option Signature)
    (hc : UpdateCommitted env h authUser claGroupModel companyModel claGroupID params sig
      userModel updatedSig)
    (hoff : sig.AutoCreateECLA = false) :
    (UpdateApprovalList env h authUser claGroupModel companyModel claGroupID params).out =
      Outcome.ret (updatedSig, none) ∧
    (UpdateApprovalList env h authUser claGroupModel companyModel claGroupID params).trace =
      h ++ updateCalls env authUser claGroupModel companyModel claGroupID params
        sig.SignatureACL userModel ∧
    ∀ c ∈ updateCalls env authUser claGroupModel companyModel claGroupID params
        sig.SignatureACL userModel,
      c.isCreateUser = false ∧ c.isCreateEmployeeSignature = false ∧
        c.isReconciliation = false := by
  rw [UpdateApprovalList_committed env h authUser claGroupModel companyModel claGroupID params
    sig userModel updatedSig hc, hoff]
  refine ⟨rfl, ?_, ?_⟩
  · simp [traceAtAutoCreate, sendManagerEmails_calls, updateCalls]
  · intro c hmem
    simp only [updateCalls, managerEmailCalls, lookupCall, List.mem_append, List.mem_cons,
      List.mem_singleton, List.mem_map, List.not_mem_nil, or_false] at hmem
    rcases hmem with ((rfl | rfl | rfl | rfl) | ⟨m, _, rfl⟩) | rfl <;>
      exact ⟨rfl, rfl, rfl⟩

/-- C21 at a concrete request: the email `new@co.com` is added to the approval list of a
signature without the auto-create option. -/
theorem UpdateApprovalList_auto_create_disabled_witness :
    (UpdateApprovalList envNoAutoCreate [] alice groupOne acme "g1" addNewEmail).out =
      Outcome.ret (some sigManual, none) ∧
    (UpdateApprovalList envNoAutoCreate [] alice groupOne acme "g1" addNewEmail).trace =
      [] ++ updateCalls envNoAutoCreate alice groupOne acme "g1" addNewEmail
        sigManual.SignatureACL aliceUser ∧
    ∀ c ∈ updateCalls envNoAutoCreate alice groupOne acme "g1" addNewEmail
        sigManual.SignatureACL aliceUser,
      c.isCreateUser = false ∧ c.isCreateEmployeeSignature = false ∧
        c.isReconciliation = false :=
  UpdateApprovalList_auto_create_disabled envNoAutoCreate [] alice groupOne acme "g1" addNewEmail
    sigManual aliceUser (some sigManual) ⟨rfl, rfl, rfl, rfl⟩ rfl

/-! ### `GetGithubOrganizationsFromApprovalList` -/

theorem selectedOrgsLoop_ids (listed : List GithubOrg) (selectedOrgs : List String)
    (hid : ∀ o ∈ listed, o.ID ≠ none) :
    ∃ keys, selectedOrgsLoop listed selectedOrgs = Outcome.ret keys ∧
      ∀ x, x ∈ keys ↔ x ∈ selectedOrgs ∨ some x ∈ listed.map GithubOrg.ID := by
  induction listed generalizing selectedOrgs with
  | nil => exact ⟨selectedOrgs, rfl, by simp⟩
  | cons o rest ih =>
    have ho := hid o (List.mem_cons_self _ _)
    cases hoid : o.ID with
    | none => exact absurd hoid ho
    | some id =>
      obtain ⟨keys, hk, hmem⟩ := ih (selectedOrgs ++ [id])
        (fun x hx => hid x (List.mem_cons_of_mem _ hx))
      refine ⟨keys, by simp only [selectedOrgsLoop, hoid, hk], ?_⟩
      intro x
      rw [hmem x]
      simp only [List.mem_append, List.mem_singleton, List.map_cons, List.mem_cons, hoid,
        Option.some.injEq]
      tauto

theorem appendOrgsLoop_missing (selectedOrgs : List String) (listed : List GithubOrg)
    (hkeys : ∀ x, x ∈ selectedOrgs ↔ some x ∈ listed.map GithubOrg.ID)
    (orgs : List GhOrganization) (hlogin : ∀ org ∈ orgs, org.Login ≠ none)
    (orgIds : List GithubOrg) :
    appendOrgsLoop selectedOrgs orgs orgIds = Outcome.ret (orgIds ++ missingOrgs listed orgs) := by
  induction orgs generalizing orgIds with
  | nil => simp [appendOrgsLoop, missingOrgs]
  | cons org rest ih =>
    have ho := hlogin org (List.mem_cons_self _ _)
    have hrest : ∀ x ∈ rest, x.Login ≠ none := fun x hx => hlogin x (List.mem_cons_of_mem _ hx)
    cases hl : org.Login with
    | none => exact absurd hl ho
    | some login =>
      by_cases hsel : login ∈ selectedOrgs
      · have hin : some login ∈ listed.map GithubOrg.ID := (hkeys login).1 hsel
        simp only [appendOrgsLoop, hl, hsel, if_true, ih hrest]
        simp only [missingOrgs, List.filter_cons, hl, hin, not_true_eq_false, decide_False,
          Bool.false_eq_true, if_false]
      · have hnin : ¬ some login ∈ listed.map GithubOrg.ID := fun hin => hsel ((hkeys login).2 hin)
        simp only [appendOrgsLoop, hl, hsel, if_false, ih hrest]
        simp only [missingOrgs, List.filter_cons, hl, hnin, not_false_eq_true, decide_True,
          if_true, List.map_cons, List.append_assoc, List.singleton_append]

/-- C22: for a non-empty signature ID whose approval-list query returns the organizations
`listed` and no error, `GetGithubOrganizationsFromApprovalList` returns exactly `listed` when
the access token is empty.  With a non-empty token whose listing returns the organizations
`orgs` of the authenticated user and no error (every organization of `listed` carrying an ID
and every one of `orgs` a login), it returns `listed` followed, in listing order, by exactly
the organizations of `orgs` whose login is not the ID of an organization of `listed`; no
appended organization has the ID of an organization of `listed`. -/
theorem GetGithubOrganizationsFromApprovalList_result (env : Env) (h : Trace)
    (signatureID githubAccessToken : String) (listed : List GithubOrg)
    (hsig : signatureID ≠ "")
    (hq : env.RepoGetGithubOrganizationsFromApprovalList h signatureID = (listed, none)) :
    (githubAccessToken = "" →
      (GetGithubOrganizationsFromApprovalList env h signatureID githubAccessToken).out =
        Outcome.ret (listed, none)) ∧
    (githubAccessToken ≠ "" → ∀ orgs : List GhOrganization,
      env.OrganizationsList (h ++ [Call.RepoGetGithubOrganizationsFromApprovalList signatureID])
        githubAccessToken 100 = (orgs, none) →
      (∀ o ∈ listed, o.ID ≠ none) → (∀ org ∈ orgs, org.Login ≠ none) →
      (GetGithubOrganizationsFromApprovalList env h signatureID githubAccessToken).out =
        Outcome.ret (listed ++ missingOrgs listed orgs, none) ∧
      ∀ o ∈ missingOrgs listed orgs, (∃ org ∈ orgs, o.ID = org.Login) ∧
        ∀ s ∈ listed, o.ID ≠ s.ID) := by
  refine ⟨?_, ?_⟩
  · intro htok
    simp [GetGithubOrganizationsFromApprovalList, hsig, hq, htok]
  · intro htok orgs hl hid hlogin
    obtain ⟨keys, hk, hmem⟩ := selectedOrgsLoop_ids listed [] hid
    have hkeys : ∀ x, x ∈ keys ↔ some x ∈ listed.map GithubOrg.ID := by
      intro x
      simpa using hmem x
    have happ := appendOrgsLoop_missing keys listed hkeys orgs hlogin listed
    refine ⟨?_, ?_⟩
    · simp [GetGithubOrganizationsFromApprovalList, hsig, hq, htok, hk, hl, happ]
    · intro o ho
      simp only [missingOrgs, List.mem_map, List.mem_filter, decide_eq_true_eq] at ho
      obtain ⟨org, ⟨horg, hnot⟩, rfl⟩ := ho
      refine ⟨⟨org, horg, rfl⟩, ?_⟩
      intro s hs heq
      exact hnot ⟨s, hs, heq.symm⟩

/-- C22 at a concrete approval list: it holds `org1`, and the authenticated user belongs to
`org1`, `org2` and `org3`. -/
theorem GetGithubOrganizationsFromApprovalList_result_witness :
    (GetGithubOrganizationsFromApprovalList envApprovalListOrg1 [] "s1" "").out =
      Outcome.ret ([{ ID := some "org1" }], none) ∧
    (GetGithubOrganizationsFromApprovalList envApprovalListOrg1 [] "s1" "t0").out =
      Outcome.ret ([{ ID := some "org1" }, { ID := some "org2" }, { ID := some "org3" }], none) :=
  ⟨(GetGithubOrganizationsFromApprovalList_result envApprovalListOrg1 [] "s1" ""
      [{ ID := some "org1" }] (by decide) rfl).1 rfl,
   ((GetGithubOrganizationsFromApprovalList_result envApprovalListOrg1 [] "s1" "t0"
      [{ ID := some "org1" }] (by decide) rfl).2 (by decide)
      [{ Login := some "org1" }, { Login := some "org2" }, { Login := some "org3" }] rfl
      (by decide) (by decide)).1⟩

/-! ### `hasUserSigned`: a true result needs the individual signature -/

/-- C23: if `hasUserSigned` returns true with no error, the lookup of the approved, signed
individual signature of the user on the project returned a signature.  When that lookup finds
no signature, every result returned without an error is false, and the corporate path, where it
approves the user (employee acknowledgement found, corporate signature found, `userIsApproved`
true), ends in the nil dereference of `signature.SignatureID` instead of a true result. -/
theorem hasUserSigned_true_needs_individual (env : Env) (h : Trace) (user : Option User)
    (projectID : String) :
    ((hasUserSigned env h user projectID).out = Outcome.ret (some true, none) →
      ∃ (u : User) (s : Signature), user = some u ∧
        env.GetIndividualSignature h projectID u.UserID (some true) (some true) =
          (some s, none)) ∧
    (∀ u : User, user = some u →
      (env.GetIndividualSignature h projectID u.UserID (some true) (some true)).1 = none →
      (∀ b : Option Bool, (hasUserSigned env h user projectID).out = Outcome.ret (b, none) →
        b = some false) ∧
      (∀ (page : Signatures) (first : Signature) (rest : List (Option Signature))
          (ccla : Signature),
        u.CompanyID ≠ "" →
        (env.GetIndividualSignature h projectID u.UserID (some true) (some true)).2 = none →
        env.RepoGetProjectCompanyEmployeeSignatures (traceAfterIndividual h u projectID)
          (employeeQuery u projectID) = (some page, none) →
        page.Signatures = some first :: rest →
        env.GetCorporateSignature
          (traceAfterIndividual h u projectID ++
            [Call.RepoGetProjectCompanyEmployeeSignatures (employeeQuery u projectID)])
          projectID u.CompanyID (some true) (some true) = (some ccla, none) →
        (userIsApproved env (traceAfterCorporate h u projectID) u ccla).1 = (true, none) →
        (hasUserSigned env h user projectID).out = Outcome.panic nilDeref)) := by
  refine ⟨?_, ?_⟩
  · intro htrue
    cases user with
    | none => simp [hasUserSigned] at htrue
    | some u =>
      refine ⟨u, ?_⟩
      cases hs : env.GetIndividualSignature h projectID u.UserID (some true) (some true) with
      | mk s1 e1 =>
        cases e1 with
        | some e => simp [hasUserSigned, hs] at htrue
        | none =>
          cases s1 with
          | some s => exact ⟨s, rfl, rfl⟩
          | none =>
            exfalso
            unfold hasUserSigned at htrue
            simp only [hs, Option.isSome_none] at htrue
            repeat' split at htrue
            all_goals simp at htrue
  · intro u hu hnone
    subst hu
    refine ⟨?_, ?_⟩
    · intro b hb
      unfold hasUserSigned at hb
      simp only [hnone, Option.isSome_none] at hb
      repeat' split at hb
      all_goals first
        | (simp at hb; done)
        | (injection hb with hb; injection hb with hb _; exact hb.symm)
    · intro page first rest ccla hco herr hq hpage hcorp happ
      unfold hasUserSigned
      simp only [GetProjectCompanyEmployeeSignatures, traceAfterIndividual, employeeQuery,
        traceAfterCorporate] at *
      simp only [herr, hnone, hco, hq, hpage, hcorp, happ, ne_eq, not_false_eq_true, if_true]

/-- C23 at concrete users: `carol`, who has an individual signature, is reported as signed;
`bob`, without an individual signature and without a company, is reported as not signed; and
`carol` without an individual signature, approved by the corporate signature of her company,
makes `hasUserSigned` panic. -/
theorem hasUserSigned_true_needs_individual_witness :
    (∃ (u : User) (s : Signature), some carol = some u ∧
      envIndividualAndCorporate.GetIndividualSignature [] "g1" u.UserID (some true)
        (some true) = (some s, none)) ∧
    (∀ b : Option Bool, (hasUserSigned idleEnv [] (some (mkUser "u2" "bob" "bob@co.com")) "g1").out =
      Outcome.ret (b, none) → b = some false) ∧
    (hasUserSigned envCorporateOnly [] (some carol) "g1").out = Outcome.panic nilDeref :=
  ⟨(hasUserSigned_true_needs_individual envIndividualAndCorporate [] (some carol) "g1").1
      (by decide),
   ((hasUserSigned_true_needs_individual idleEnv [] (some (mkUser "u2" "bob" "bob@co.com"))
      "g1").2 _ rfl rfl).1,
   ((hasUserSigned_true_needs_individual envCorporateOnly [] (some carol) "g1").2 carol rfl
      rfl).2 { Signatures := [some eclaSig] } eclaSig [] cclaSig (by decide) rfl rfl rfl rfl
      (by decide)⟩

/-! ### `processPattern` as an existential check -/

theorem processPattern_eq_any (lib : GoLib) (emails patterns : List String)
    (hall : ∀ p ∈ patterns, patternCompiles lib p = true) :
    processPattern lib emails patterns =
      (some (patterns.any (fun p => emails.any (fun e => patternMatches lib p e))), none) := by
  obtain ⟨b, hb, hiff⟩ := processPatternLoop_all_compile lib emails patterns false hall
  have hbe : b = patterns.any (fun p => emails.any (fun e => patternMatches lib p e)) := by
    rw [Bool.eq_iff_iff, hiff]
    simp
  rw [processPattern, hb, hbe]

/-- C24: when the expression derived from every pattern compiles, `processPattern` returns no
error and the result is true exactly when some email matches the expression derived from some
pattern.  So the result is false for an empty list of patterns and for an empty list of
emails, and it is the same for every reordering of the patterns and of the emails. -/
theorem processPattern_existential (lib : GoLib) (emails patterns : List String)
    (hall : ∀ p ∈ patterns, patternCompiles lib p = true) :
    (∃ b : Bool, processPattern lib emails patterns = (some b, none) ∧
      (b = true ↔ ∃ p ∈ patterns, ∃ email ∈ emails, patternMatches lib p email = true)) ∧
    processPattern lib emails [] = (some false, none) ∧
    processPattern lib [] patterns = (some false, none) ∧
    (∀ emails2 patterns2 : List String, emails2.Perm emails → patterns2.Perm patterns →
      processPattern lib emails2 patterns2 = processPattern lib emails patterns) := by
  refine ⟨?_, rfl, ?_, ?_⟩
  · refine ⟨_, processPattern_eq_any lib emails patterns hall, ?_⟩
    simp
  · rw [processPattern_eq_any lib [] patterns hall]
    simp
  · intro emails2 patterns2 he hp
    have hall2 : ∀ p ∈ patterns2, patternCompiles lib p = true :=
      fun p hp2 => hall p (hp.mem_iff.1 hp2)
    rw [processPattern_eq_any lib emails patterns hall,
      processPattern_eq_any lib emails2 patterns2 hall2]
    congr 2
    rw [Bool.eq_iff_iff]
    simp only [List.any_eq_true]
    constructor
    · rintro ⟨p, hp2, e, he2, hm⟩
      exact ⟨p, hp.mem_iff.1 hp2, e, he.mem_iff.1 he2, hm⟩
    · rintro ⟨p, hp2, e, he2, hm⟩
      exact ⟨p, hp.mem_iff.2 hp2, e, he.mem_iff.2 he2, hm⟩

/-- C24 at the patterns `example.org`, `*.example.com` and the emails `a@x.com`,
`b@dev.example.com`, and at their reversals. -/
theorem processPattern_existential_witness :
    (∃ b : Bool, processPattern idleLib ["a@x.com", "b@dev.example.com"]
        ["example.org", "*.example.com"] = (some b, none) ∧
      (b = true ↔ ∃ p ∈ ["example.org", "*.example.com"],
        ∃ email ∈ ["a@x.com", "b@dev.example.com"], patternMatches idleLib p email = true)) ∧
    processPattern idleLib ["a@x.com", "b@dev.example.com"] [] = (some false, none) ∧
    processPattern idleLib [] ["example.org", "*.example.com"] = (some false, none) ∧
    processPattern idleLib ["b@dev.example.com", "a@x.com"] ["*.example.com", "example.org"] =
      processPattern idleLib ["a@x.com", "b@dev.example.com"] ["example.org", "*.example.com"] :=
  ⟨(processPattern_existential idleLib ["a@x.com", "b@dev.example.com"]
      ["example.org", "*.example.com"] (by decide)).1,
   (processPattern_existential idleLib ["a@x.com", "b@dev.example.com"]
      ["example.org", "*.example.com"] (by decide)).2.1,
   (processPattern_existential idleLib ["a@x.com", "b@dev.example.com"]
      ["example.org", "*.example.com"] (by decide)).2.2.1,
   (processPattern_existential idleLib ["a@x.com", "b@dev.example.com"]
      ["example.org", "*.example.com"] (by decide)).2.2.2 _ _
      (List.Perm.swap _ _ _) (List.Perm.swap _ _ _)⟩

/-! ### `userIsApproved`: an email that is an entry of the email list -/

/-- C25, amended: an entry of the email approval list approves the user email that is equal
to it only if trimming and lower-casing leave that email unchanged.  For every corporate
signature and every user one of whose emails (the LF email included) is such an email and is an
entry of the email approval list, `userIsApproved` returns true, with no error and without a
call to a collaborator, whatever the other approval lists are. -/
theorem userIsApproved_listed_normal_email (env : Env) (h : Trace) (user : User)
    (cclaSignature : Signature) (email : String)
    (hmem : email ∈ user.Emails ++ [user.LfEmail])
    (hin : email ∈ cclaSignature.EmailApprovalList)
    (hnorm : stringsToLower env.lib (stringsTrimSpace email) = email) :
    userIsApproved env h user cclaSignature = ((true, none), h) := by
  have hloop : emailListLoop env.lib cclaSignature.EmailApprovalList
      (user.Emails ++ [user.LfEmail]) = true :=
    (emailListLoop_iff env.lib _ _).2 ⟨email, hmem, by rw [hnorm]; exact hin⟩
  have hpos : 0 < cclaSignature.EmailApprovalList.length := List.length_pos_of_mem hin
  unfold userIsApproved
  simp [hloop, hpos]

/-- C25 amended, at the entry `a@x.com` and the user `carol`, whose emails are `a@x.com` and
`carol@x.com`. -/
theorem userIsApproved_listed_normal_email_witness :
    userIsApproved idleEnv [] carol cclaSig = ((true, none), []) :=
  userIsApproved_listed_normal_email idleEnv [] carol cclaSig "a@x.com" (by decide) (by decide)
    (by decide)

/-- C25 as stated fails at its own input: the email approval list holds `A@x.com`, the user
has the email `A@x.com`, character for character the entry, and `userIsApproved` returns
false: the email is compared as `a@x.com`. -/
theorem userIsApproved_verbatim_upper_case_entry_rejected :
    "A@x.com" ∈ upperCaseUser.Emails ∧ "A@x.com" ∈ upperCaseSig.EmailApprovalList ∧
    stringsToLower idleEnv.lib (stringsTrimSpace "A@x.com") = "a@x.com" ∧
    userIsApproved idleEnv [] upperCaseUser upperCaseSig = ((false, none), []) := by
  decide

/-! ### What the expression of a plain domain pattern accepts -/

theorem matchHere_plain_email_eq (dp : List Piece) (p : List Char → Bool)
    (hdp : ∀ atStart s, matchHere dp atStart s = p s) (email : List Char) :
    matchHere
      ({ atom := Atom.beginText, rep := Rep.one } :: { atom := Atom.anyNotNL, rep := Rep.star } ::
        { atom := Atom.lit '@', rep := Rep.one } :: dp) true email = hostIs p email := by
  have hloop : ∀ atStart s, starLoop Atom.anyNotNL.accepts
      (matchHere ({ atom := Atom.lit '@', rep := Rep.one } :: dp)) atStart s = hostIs p s := by
    intro atStart s
    induction s generalizing atStart with
    | nil => simp [starLoop, matchHere, Atom.isAssertion, hostIs]
    | cons c cs ih =>
      have h1 : matchHere ({ atom := Atom.lit '@', rep := Rep.one } :: dp) atStart (c :: cs) =
          (c == '@' && p cs) := by
        have hxc : ('@' == c) = (c == '@') := by
          by_cases h : c = '@'
          · simp [h]
          · have h2 : ¬ '@' = c := fun h3 => h h3.symm
            simp [h, h2]
        simp only [matchHere, Atom.isAssertion, Bool.false_eq_true, if_false, Atom.accepts, hxc,
          hdp]
      rw [starLoop, h1, ih false]
      simp [hostIs, Atom.accepts]
  simp only [matchHere, Atom.isAssertion, if_true, Atom.holds, Bool.true_and,
    Bool.false_eq_true, if_false]
  exact hloop true email

theorem regexpCompile_plain_domain (lib : GoLib) (d : String)
    (hd : ∀ c ∈ d.data, isDomainChar c = true) (hnd : hasPrefix d.data ['.'] = false) :
    regexpCompile lib (preProcessedPattern d) =
      Except.ok (Regexp.pieces
        ({ atom := Atom.beginText, rep := Rep.one } ::
          { atom := Atom.anyNotNL, rep := Rep.star } ::
          { atom := Atom.lit '@', rep := Rep.one } :: domainPieces false d.data)) := by
  have hns : hasPrefix d.data ['*'] = false := by
    cases hdd : d.data with
    | nil => rfl
    | cons c rest =>
      have hc : isDomainChar c = true := hd c (by rw [hdd]; exact List.mem_cons_self _ _)
      have := isDomainChar_ne c '*' hc (by decide)
      simp [hasPrefix, this]
  have hrw : rewritePattern d = d := rewritePattern_other d hns hnd
  have hplain : ∀ t ∈ ([('^', false), ('.', true), ('@', false)] : List Token) ++
      d.data.map (fun c => (c, false && c == '.')) ++ [('$', false)], repOf t.1 = none := by
    intro t ht
    simp only [List.mem_append, List.mem_map, List.mem_cons, List.mem_singleton,
      List.not_mem_nil, or_false] at ht
    rcases ht with ((rfl | rfl | rfl) | ⟨c, hc, rfl⟩) | rfl
    · decide
    · decide
    · decide
    · exact repOf_domainChar c (hd c hc)
    · decide
  have hrender : renderTokens (d.data.map (fun c => (c, false && c == '.'))) = d.data := by
    simpa using renderTokens_plain d.data
  have hdataExpr : (preProcessedPattern d).data =
      renderTokens (([('^', false), ('.', true), ('@', false)] : List Token) ++
        d.data.map (fun c => (c, false && c == '.')) ++ [('$', false)]) := by
    simp only [preProcessedPattern, String.data_append, hrw, renderTokens_append, hrender]
    rfl
  have hnoext : (preProcessedPattern d).data.any isExtMeta = false := by
    rw [hdataExpr]
    simp only [renderTokens_append, List.any_append, Bool.or_eq_false_iff, hrender]
    refine ⟨⟨by decide, ?_⟩, by decide⟩
    rw [List.any_eq_false]
    intro c hc
    simp [isExtMeta_domainChar c (hd c hc)]
  unfold regexpCompile
  rw [hnoext, hdataExpr, parsePieces_tokens _ hplain]
  simp [pieceOfToken, atomOf, domainPieces]

theorem wildOne_no_dot (d s : List Char) (hno : ∀ c ∈ d, c ≠ '.') :
    wildOne d s = true ↔ s = d := by
  induction d generalizing s with
  | nil => cases s <;> simp [wildOne]
  | cons c rest ih =>
    have hc : c ≠ '.' := hno c (List.mem_cons_self _ _)
    have hrest : ∀ x ∈ rest, x ≠ '.' := fun x hx => hno x (List.mem_cons_of_mem _ hx)
    cases s with
    | nil => simp [wildOne]
    | cons x s' => simp [wildOne, hc, ih s' hrest]

theorem hostIs_split (p : List Char → Bool) (email : List Char) :
    hostIs p email = true ↔
      ∃ localPart host, email = localPart ++ '@' :: host ∧ (∀ c ∈ localPart, c ≠ '\n') ∧
        p host = true := by
  induction email with
  | nil => simp [hostIs]
  | cons c cs ih =>
    simp only [hostIs, Bool.or_eq_true, Bool.and_eq_true, beq_iff_eq, bne_iff_ne, ne_eq, ih]
    constructor
    · rintro (⟨rfl, hp⟩ | ⟨hc, l, host, rfl, hl, hp⟩)
      · exact ⟨[], cs, rfl, by simp, hp⟩
      · refine ⟨c :: l, host, rfl, ?_, hp⟩
        intro x hx
        rcases List.mem_cons.1 hx with rfl | hx
        · exact hc
        · exact hl x hx
    · rintro ⟨l, host, heq, hl, hp⟩
      cases l with
      | nil =>
        simp only [List.nil_append, List.cons.injEq] at heq
        exact Or.inl ⟨heq.1, by rw [heq.2]; exact hp⟩
      | cons x l' =>
        simp only [List.cons_append, List.cons.injEq] at heq
        refine Or.inr ⟨?_, l', host, heq.2, fun y hy => hl y (List.mem_cons_of_mem _ hy), hp⟩
        rw [heq.1]
        exact hl x (List.mem_cons_self _ _)

/-- C26, amended: a plain domain pattern `d` (letters, digits, hyphens, dots, no leading dot)
is an exact domain only outside its dots.  `processPattern` reports a match exactly when some
email is `local@host` where `local` holds no newline and `host` has the length of `d` and
agrees with it at every position where `d` has no dot, a dot of `d` standing for any one
character but the newline; when `d` holds no dot, the host of a matched email is `d` character
for character. -/
theorem processPattern_plain_domain (lib : GoLib) (d : String) (emails : List String)
    (hd : ∀ c ∈ d.data, isDomainChar c = true)
    (hnd : hasPrefix d.data ['.'] = false) :
    processPattern lib emails [d] =
      (some (emails.any (fun e => hostIs (wildOne d.data) e.data)), none) ∧
    (∀ e : String, hostIs (wildOne d.data) e.data = true ↔
      ∃ localPart host, e.data = localPart ++ '@' :: host ∧ (∀ c ∈ localPart, c ≠ '\n') ∧
        wildOne d.data host = true) ∧
    ((∀ c ∈ d.data, c ≠ '.') → ∀ host : List Char, wildOne d.data host = true ↔ host = d.data) := by
  refine ⟨?_, fun e => hostIs_split _ _, fun hno host => wildOne_no_dot d.data host hno⟩
  have hcomp := regexpCompile_plain_domain lib d hd hnd
  have hmatch : ∀ e : String, MatchString lib (Regexp.pieces
        ({ atom := Atom.beginText, rep := Rep.one } ::
          { atom := Atom.anyNotNL, rep := Rep.star } ::
          { atom := Atom.lit '@', rep := Rep.one } :: domainPieces false d.data)) e =
      hostIs (wildOne d.data) e.data := by
    intro e
    show searchFrom _ true e.data = _
    rw [searchFrom_anchored]
    apply matchHere_plain_email_eq
    intro atStart s
    rw [matchHere_domainPieces false d.data hd atStart s]
    rfl
  simp only [processPattern, processPatternLoop, hcomp, anyEmailMatches_eq_any, hmatch]
  cases emails.any (fun e => hostIs (wildOne d.data) e.data) <;> rfl

/-- C26 amended, at the pattern `example.com`: `a@example.com` and `a@exampleXcom` are
matched, `a@example.org` is not. -/
theorem processPattern_plain_domain_witness :
    processPattern idleLib ["a@example.com"] ["example.com"] = (some true, none) ∧
    processPattern idleLib ["a@exampleXcom"] ["example.com"] = (some true, none) ∧
    processPattern idleLib ["a@example.org"] ["example.com"] = (some false, none) :=
  ⟨(processPattern_plain_domain idleLib "example.com" ["a@example.com"] (by decide)
      (by decide)).1.trans (by decide),
   (processPattern_plain_domain idleLib "example.com" ["a@exampleXcom"] (by decide)
      (by decide)).1.trans (by decide),
   (processPattern_plain_domain idleLib "example.com" ["a@example.org"] (by decide)
      (by decide)).1.trans (by decide)⟩

/-- C26 as stated fails at its own example: the host of `a@exampleXcom` is not `example.com`,
and the pattern `example.com`, whose expression is `^.*@example.com$`, matches that email. -/
theorem processPattern_plain_domain_matches_other_host :
    preProcessedPattern "example.com" = "^.*@example.com$" ∧
    "a@exampleXcom".data = "a".data ++ '@' :: "exampleXcom".data ∧
    "exampleXcom" ≠ "example.com" ∧
    patternMatches idleLib "example.com" "a@exampleXcom" = true ∧
    processPattern idleLib ["a@exampleXcom"] ["example.com"] = (some true, none) := by
  decide

end EasyCLA
